import Mathlib

/-!
Shallow embedding of the RamFS in-memory filesystem core
(src/Filesystem.h, src/Filesystem.c, src/main.c).

Inodes live in a heap (`State`) keyed by inode ids (`Iid`), standing for the
C heap keyed by pointers.  Entry lists (`entry*` chains) are Lean lists.
C strings (paths, entry names) are `List Char`; a C string never contains `'\0'`,
which is why `strlen`/`strcpy` translate to plain list length/copy.
Fallible C functions return `Res`: `.ok` for a non-NULL result, `.err e` for a
NULL result with `errno = e`, and `.ub` when the C code's behaviour is undefined
(dereferencing a NULL or freed pointer, a failing `assert`, or an infinite loop).
Mutating functions return the (possibly mutated) heap next to the result, since
the C code can mutate the heap even on paths that report an error.

Fields of `struct inode` that none of the modelled operations ever read
(`uid`, `gid`, `size`, and the contents buffer of a regular file) are omitted;
`mode` is modelled by the single bit the core interprets (`S_ISDIR`/`S_ISREG`,
macros `isDir`/`isFile`), written `isdir`.
-/

/-- Inode identity: stands for the `inode*` pointer value. -/
abbrev Iid := Nat

/-- The path separator byte, `#define Split '/'` in Filesystem.h. -/
def sep : Char := '/'

/-- The values of `errno` the core can set, §6 error surface. -/
inductive Errno where
  | ENOENT | ENOTDIR | ENOTEMPTY | EEXIST | ENOSPC | EINVAL | EISDIR | EPERM | EBUSY
deriving DecidableEq

/-- Result of a fallible C call: non-NULL result, NULL-with-errno, or undefined
behaviour (NULL/freed dereference, failed assert, infinite loop). -/
inductive Res (α : Type) where
  | ok (val : α)
  | err (e : Errno)
  | ub
deriving DecidableEq

/-- `struct entryTM`: one name binding in a directory's singly linked list.
The `next` pointer is the list structure itself. -/
structure Entry where
  name : List Char
  node : Iid
deriving DecidableEq

/-- `struct inode`.  `isdir` is the directory bit of `mode`; `entries` is the
`data` field of a directory (for a regular file `data` is its contents buffer,
which no modelled operation reads). -/
structure Inode where
  isdir : Bool
  nlink : Int
  nopen : Nat
  entries : List Entry
  parent : Option Iid
  traversing : Bool
deriving DecidableEq

/-- The heap of live inodes, as an association list from id to record, plus a
counter supplying fresh ids for `calloc`/`malloc` of new inodes. -/
structure State where
  inodes : List (Iid × Inode)
  nextId : Iid
deriving DecidableEq

/-- Dereference an inode pointer: `none` means the pointer is dangling/freed. -/
def State.find (s : State) (i : Iid) : Option Inode :=
  (s.inodes.find? (fun p => p.1 == i)).map Prod.snd

/-- Overwrite the record an id points at (a C struct field assignment).
No-op when the id is not live. -/
def State.set (s : State) (i : Iid) (nd : Inode) : State :=
  { s with inodes := s.inodes.map (fun p => if p.1 == i then (i, nd) else p) }

/-- `free` an inode record. -/
def State.erase (s : State) (i : Iid) : State :=
  { s with inodes := s.inodes.filter (fun p => p.1 != i) }

/-- `calloc` a fresh inode record, returning its id. -/
def State.alloc (s : State) (nd : Inode) : Iid × State :=
  (s.nextId, { inodes := s.inodes ++ [(s.nextId, nd)], nextId := s.nextId + 1 })

def dotName : List Char := ['.']

def ddotName : List Char := ['.', '.']

/-- Drop the single optional leading separator: `if (*path == Split) path++;`. -/
def stripSep (path : List Char) : List Char :=
  match path with
  | [] => []
  | c :: t => if c = sep then t else c :: t

theorem stripSep_length_le (path : List Char) : (stripSep path).length ≤ path.length := by
  cases path with
  | nil => simp [stripSep]
  | cons c t =>
    simp only [stripSep]
    split <;> simp

/-- Length `n` of the leading path component:
`for (; path[n] != '\0' && path[n] != Split; ++n);`. -/
def compLen (p : List Char) : Nat :=
  (p.takeWhile (fun c => c ≠ sep)).length

/-- `pathfind` (Filesystem.c:16), on structural fuel so that the kernel can
evaluate it: walk `path` from inode `root`, one component at a time.  A
component matches an entry when the entry name's length equals the component
length and the bytes agree (`strlen(p->name) == n && strncmp(path, p->name, n)
== 0`), i.e. when the name equals the component.  If an entry with an empty
name matched an empty component (possible only when `path` has two consecutive
separators and such an entry exists), the C recursion `pathfind(path + 0, ...)`
would never terminate: that case is `.ub`.  Every other recursive call drops at
least one byte of the path, so fuel `path.length + 1` never runs out
(`pathfindF_fuel_irrel` below); the fuel-exhaustion answer `.ub` is
unreachable through `pathfind`. -/
def pathfindF (s : State) : Nat → List Char → Iid → Res Iid
  | 0, _, _ => .ub
  | fuel + 1, path, root =>
    if stripSep path = [] then .ok root
    else
      match s.find root with
      | none => .ub
      | some nd =>
        if !nd.isdir then .err .ENOTDIR
        else
          match nd.entries.find? (fun e => e.name == (stripSep path).take (compLen (stripSep path))) with
          | none => .err .ENOENT
          | some e =>
            if compLen (stripSep path) = 0 then .ub
            else pathfindF s fuel ((stripSep path).drop (compLen (stripSep path))) e.node

/-- `pathfind` proper: run with fuel that cannot run out. -/
def pathfind (s : State) (path : List Char) (root : Iid) : Res Iid :=
  pathfindF s (path.length + 1) path root

/-- `checkPath` (Filesystem.c:194): empty path is `ENOENT`, a path not starting
with the separator is `EINVAL`. -/
def checkPath (path : List Char) : Res Unit :=
  if path = [] then .err .ENOENT
  else if path.head? ≠ some sep then .err .EINVAL
  else .ok ()

/-- Index of the last separator in the path, if any (the index `n` at which the
loop `while (result[--n] != Split)` in `extractPrefix` stops). -/
def lastSepIdx (path : List Char) : Option Nat :=
  match path with
  | [] => none
  | c :: t =>
    match lastSepIdx t with
    | some n => some (n + 1)
    | none => if c = sep then some 0 else none

/-- `extractPrefix` (Filesystem.c:206): copy the path, truncate it at the last
separator, and return the prefix together with the separator's index.  If the
path contains no separator the C loop underruns the buffer (`assert` inside the
loop body runs only after a non-separator byte): `.ub`.  The intended
empty-basename check compares `strlen(result) - n` (in `size_t` arithmetic)
with 1; since `result[n]` was just set to `'\0'`, `strlen(result) = n` and the
condition never holds. -/
def extractPrefix (path : List Char) : Res (List Char × Nat) :=
  match lastSepIdx path with
  | none => .ub
  | some n =>
    let result := path.take n
    if (((result.length : Int) - (n : Int)) % (2 : Int) ^ 64) = 1 then .err .ENOENT
    else .ok (result, n)

/-- `getParentDirectory` (Filesystem.c:232): split a path into the inode of its
parent directory (resolved by `pathfind` from `root`) and the basename slice
`path + n + 1`. -/
def getParentDirectory (s : State) (path : List Char) (root : Iid) : Res (Iid × List Char) :=
  match checkPath path with
  | .err e => .err e
  | .ub => .ub
  | .ok _ =>
    match extractPrefix path with
    | .err e => .err e
    | .ub => .ub
    | .ok (dirPath, n) =>
      match pathfind s dirPath root with
      | .err e => .err e
      | .ub => .ub
      | .ok d =>
        match s.find d with
        | none => .ub
        | some nd =>
          if !nd.isdir then .err .ENOTDIR
          else .ok (d, path.drop (n + 1))

/-- `addEntry` (Filesystem.c:39): walk to the end of `list` and append a fresh
entry.  Walking dereferences the head, so a NULL list is `.ub`.  `allocOk`
models whether the `calloc` succeeds; on failure the list is unchanged (the
assignment `list->next = NULL` rewrites the NULL already there) and the result
is `ENOSPC`.  The C caller stores the inode pointer into the returned entry
right after the call; the two steps are fused here, so the appended entry
already carries `node`. -/
def addEntry (allocOk : Bool) (list : List Entry) (name : List Char) (node : Iid) :
    Res (List Entry) :=
  match list with
  | [] => .ub
  | _ :: _ =>
    if !allocOk then .err .ENOSPC
    else .ok (list ++ [{ name := name, node := node }])

/-- The search loop of `removeEntry`: find the first match in the tail of the
list (the C loop tests `p->next->name`, so it starts at the second element). -/
def removeFirst (l : List Entry) (name : List Char) : Option (Iid × List Entry) :=
  match l with
  | [] => none
  | e :: t =>
    if e.name = name then some (e.node, t)
    else
      match removeFirst t name with
      | some (i, t') => some (i, e :: t')
      | none => none

/-- `removeEntry` (Filesystem.c:55): unlink and free the first entry of `list`
whose name equals `name`, returning the inode it referenced.  The head of the
list is never examined (the loop reads `p->next`).  An empty (NULL) list is
dereferenced by the loop condition: `.ub`. -/
def removeEntry (list : List Entry) (name : List Char) : Res Iid × List Entry :=
  match list with
  | [] => (.ub, [])
  | head :: t =>
    match removeFirst t name with
    | some (i, t') => (.ok i, head :: t')
    | none => (.err .ENOENT, head :: t)

/-- `isEmpty` (Filesystem.c:223): count the entries, returning false as soon as
a third is seen; fewer than two fails the `assert(n == 2)`. -/
def isEmpty (entries : List Entry) : Res Bool :=
  if entries.length > 2 then .ok false
  else if entries.length = 2 then .ok true
  else .ub

/-- `addNode` (Filesystem.c:72): split the path, fail with `EEXIST` when the
basename already resolves inside the parent, append an entry for it, bump the
node's link count and set its parent back-reference if it was NULL. -/
def addNode (s : State) (allocOk : Bool) (path : List Char) (root : Iid) (node : Iid) :
    Res Iid × State :=
  match getParentDirectory s path root with
  | .err e => (.err e, s)
  | .ub => (.ub, s)
  | .ok (d, file) =>
    match pathfind s file d with
    | .ub => (.ub, s)
    | .ok _ => (.err .EEXIST, s)
    | .err _ =>
      match s.find d with
      | none => (.ub, s)
      | some dn =>
        match addEntry allocOk dn.entries file node with
        | .ub => (.ub, s)
        | .err e => (.err e, s)
        | .ok l' =>
          let s1 := s.set d { dn with entries := l' }
          match s1.find node with
          | none => (.ub, s1)
          | some nn =>
            let s2 := s1.set node
              { nn with
                nlink := nn.nlink + 1,
                parent := if nn.parent = none then some d else nn.parent }
            (.ok node, s2)

/-- `moveNode` (Filesystem.c:93): resolve both parents, detach the source
basename from the source parent's list, then append the destination basename to
the destination parent's list pointing at the detached inode.  The detach
happens before the append, so an allocation failure in `addEntry` leaves the
source entry already removed. -/
def moveNode (s : State) (allocOk : Bool) (path newpath : List Char) (root : Iid) :
    Res Iid × State :=
  match getParentDirectory s path root with
  | .err e => (.err e, s)
  | .ub => (.ub, s)
  | .ok (oldDir, oldFile) =>
    match getParentDirectory s newpath root with
    | .err e => (.err e, s)
    | .ub => (.ub, s)
    | .ok (newDir, newFile) =>
      match s.find oldDir with
      | none => (.ub, s)
      | some ond =>
        match removeEntry ond.entries oldFile with
        | (.ub, _) => (.ub, s)
        | (.err e, _) => (.err e, s)
        | (.ok node, l') =>
          let s1 := s.set oldDir { ond with entries := l' }
          match s1.find newDir with
          | none => (.ub, s1)
          | some nnd =>
            match addEntry allocOk nnd.entries newFile node with
            | .ub => (.ub, s1)
            | .err e => (.err e, s1)
            | .ok l2 =>
              (.ok node, s1.set newDir { nnd with entries := l2 })

/-- `releaseNode` (Filesystem.c:113): unlink the basename and free the inode
when nothing references it any more.  The result of `pathfind(file, dirNode)`
is not NULL-checked before `isDir(node)` dereferences it, so an absent basename
is undefined behaviour.  For an empty directory the code asserts
`nlink == 2`, detaches its `..` (ignoring the result), decrements the *path*
parent's link count, asserts the list is now the lone `.` entry, and frees the
directory; for a regular file it decrements the link count and frees the inode
when both counters reach zero.  Only then is the basename detached from the
parent's list. -/
def releaseNode (s : State) (path : List Char) (root : Iid) : Res Unit × State :=
  match getParentDirectory s path root with
  | .err e => (.err e, s)
  | .ub => (.ub, s)
  | .ok (dir, file) =>
    match pathfind s file dir with
    | .err _ => (.ub, s)
    | .ub => (.ub, s)
    | .ok node =>
      match s.find node with
      | none => (.ub, s)
      | some nd =>
        if nd.isdir then
          match isEmpty nd.entries with
          | .ub => (.ub, s)
          | .err _ => (.ub, s)
          | .ok false => (.err .ENOTEMPTY, s)
          | .ok true =>
            if nd.nlink ≠ 2 then (.ub, s)
            else
              let (_, l') := removeEntry nd.entries ddotName
              let s1 := s.set node { nd with entries := l' }
              match s1.find dir with
              | none => (.ub, s1)
              | some dnd =>
                let s2 := s1.set dir { dnd with nlink := dnd.nlink - 1 }
                if l'.length ≠ 1 then (.ub, s2)
                else
                  let s3 := s2.erase node
                  releaseFinish s3 dir file
        else
          let nd' := { nd with nlink := nd.nlink - 1 }
          if nd'.nlink = 0 ∧ nd.nopen = 0 then
            releaseFinish (s.erase node) dir file
          else
            releaseFinish (s.set node nd') dir file
where
  /-- The tail of `releaseNode`: `node = removeEntry(dirNode->data, file)`. -/
  releaseFinish (s : State) (dir : Iid) (file : List Char) : Res Unit × State :=
    match s.find dir with
    | none => (.ub, s)
    | some dnd =>
      match removeEntry dnd.entries file with
      | (.ub, _) => (.ub, s)
      | (.err e, l2) => (.err e, s.set dir { dnd with entries := l2 })
      | (.ok _, l2) => (.ok (), s.set dir { dnd with entries := l2 })

/-- `newFilesystem` (Filesystem.c:144): one root directory inode whose `.` and
`..` both point at itself; link count 3 (`nlink = 1`, then `++` for `..`, then
`++` for `.`), `mode = S_IFDIR | 0777`, parent pointing at itself, entry list
`dot :: ddot`.  The root id is 0. -/
def newFilesystem : State × Iid :=
  let root : Iid := 0
  let rootNode : Inode :=
    { isdir := true
      nlink := 3
      nopen := 0
      entries := [{ name := dotName, node := root }, { name := ddotName, node := root }]
      parent := some root
      traversing := false }
  ({ inodes := [(root, rootNode)], nextId := 1 }, root)

/-!
Operations of the FUSE bridge (src/main.c) that mutate the namespace.  The
`fuse_context` fields the C reads (`uid`, `gid`) land in inode fields that no
modelled operation ever reads again, so they are dropped with those fields.
All these run with a succeeding allocator (`allocOk = true`): the C checks the
`calloc` of a fresh inode but never frees it when `addNode` fails, and the
`malloc`s of the `.`/`..` entries in `ramMkdir` are not checked at all.
-/

/-- `ramMknod` (main.c:36): allocate a fresh regular-file inode
(`calloc` zeroes every field; `mode | S_IFREG`) and `addNode` it at `path`.
On failure the fresh inode is leaked, not freed. -/
def ramMknod (s : State) (root : Iid) (path : List Char) : Res Iid × State :=
  let fresh : Inode :=
    { isdir := false, nlink := 0, nopen := 0, entries := [], parent := none, traversing := false }
  let (f, s1) := s.alloc fresh
  addNode s1 true path root f

/-- `ramMkdir` (main.c:53): allocate a fresh directory inode, `addNode` it, and
then install its `.` and `..` entries: `..` points at `node->parent` (the
parent `addNode` just recorded) and bumps that parent's link count; `.` points
at the node itself and bumps its link count; the directory's list becomes
`dot :: ddot`. -/
def ramMkdir (s : State) (root : Iid) (path : List Char) : Res Iid × State :=
  let fresh : Inode :=
    { isdir := true, nlink := 0, nopen := 0, entries := [], parent := none, traversing := false }
  let (d, s1) := s.alloc fresh
  match addNode s1 true path root d with
  | (.err e, s2) => (.err e, s2)
  | (.ub, s2) => (.ub, s2)
  | (.ok _, s2) =>
    match s2.find d with
    | none => (.ub, s2)
    | some dn =>
      match dn.parent with
      | none => (.ub, s2)
      | some par =>
        match s2.find par with
        | none => (.ub, s2)
        | some pn =>
          let s3 := s2.set par { pn with nlink := pn.nlink + 1 }
          match s3.find d with
          | none => (.ub, s3)
          | some dn' =>
            let s4 := s3.set d
              { dn' with
                nlink := dn'.nlink + 1,
                entries := [{ name := dotName, node := d }, { name := ddotName, node := par }] }
            (.ok d, s4)

/-- `ramLink` (main.c:84): resolve the existing file, reject directories with
`EPERM`, and `addNode` the same inode at `newpath`. -/
def ramLink (s : State) (root : Iid) (path newpath : List Char) : Res Iid × State :=
  match pathfind s path root with
  | .err e => (.err e, s)
  | .ub => (.ub, s)
  | .ok node =>
    match s.find node with
    | none => (.ub, s)
    | some nd =>
      if nd.isdir then (.err .EPERM, s)
      else addNode s true newpath root node

/-- `ramUnlink` (main.c:99): resolve the target, reject directories with
`EINVAL` and open files with `EBUSY`, then `releaseNode`. -/
def ramUnlink (s : State) (root : Iid) (path : List Char) : Res Unit × State :=
  match pathfind s path root with
  | .err e => (.err e, s)
  | .ub => (.ub, s)
  | .ok node =>
    match s.find node with
    | none => (.ub, s)
    | some nd =>
      if nd.isdir then (.err .EINVAL, s)
      else if nd.nopen ≠ 0 then (.err .EBUSY, s)
      else releaseNode s path root

/-- `ramRmdir` (main.c:128): refuse the mount point `"/"` with `EBUSY`, resolve
the target, reject non-directories with `ENOTDIR`, then `releaseNode`. -/
def ramRmdir (s : State) (root : Iid) (path : List Char) : Res Unit × State :=
  if path = [sep] then (.err .EBUSY, s)
  else
    match pathfind s path root with
    | .err e => (.err e, s)
    | .ub => (.ub, s)
    | .ok node =>
      match s.find node with
      | none => (.ub, s)
      | some nd =>
        if !nd.isdir then (.err .ENOTDIR, s)
        else releaseNode s path root

/-- `isValidRename` (main.c:174): reject a destination that extends the source
by a separator, and reject any source or destination containing a `'.'` byte
anywhere (`strchr`). -/
def isValidRename (path newpath : List Char) : Bool :=
  if newpath.take path.length == path && path.length < newpath.length
      && newpath.get? path.length == some sep then false
  else if newpath.contains '.' || path.contains '.' then false
  else true

/-- `ramRename` (main.c:188): resolve the source, validate, release an existing
non-directory destination (`EISDIR` for a directory destination), then
`moveNode`. -/
def ramRename (s : State) (root : Iid) (path newpath : List Char) : Res Iid × State :=
  match pathfind s path root with
  | .err e => (.err e, s)
  | .ub => (.ub, s)
  | .ok _ =>
    if !isValidRename path newpath then (.err .EINVAL, s)
    else
      match pathfind s newpath root with
      | .ub => (.ub, s)
      | .ok tgt =>
        match s.find tgt with
        | none => (.ub, s)
        | some tn =>
          if tn.isdir then (.err .EISDIR, s)
          else
            match releaseNode s newpath root with
            | (.err e, s1) => (.err e, s1)
            | (.ub, s1) => (.ub, s1)
            | (.ok _, s1) => moveNode s1 true path newpath root
      | .err _ => moveNode s true path newpath root

/-!
Whole-tree teardown, `releaseAll` (Filesystem.c:169).  The C function recurses
through a graph with cycles; termination is not structural, so the model runs
on fuel.  `TRes.fuelOut` means the fuel ran out (never the case for the runs
proved about below), `TRes.ub` means the C dereferenced a freed inode or a NULL
entry list.  The `log` records each inode whose directory walk begins (the body
between setting and clearing the `traversing` mark of a directory), for stating
how often an inode is processed.

The walk loop holds a pointer `p` to the current entry and unlinks `p->next`
after the recursive call returns; recursive calls return to a marked caller
immediately, so they never rewrite the walking directory's list.  The model
re-reads that list from the heap after each recursive call and reapplies the
surgery `p->next = p->next->next`; when a (necessarily illegal) nested call
did rewrite the head of the list, the pointer surgery has no faithful
functional image and the model answers `.ub`.
-/

/-- Teardown result: final heap plus walk log, exhausted fuel, or undefined
behaviour. -/
inductive TRes where
  | out (s : State) (log : List Iid)
  | fuelOut
  | ub
deriving DecidableEq

/-- The tail of a `releaseAll` visit: clear the `traversing` mark, then free
the inode if its link count reached zero. -/
def finishVisit (i : Iid) (s : State) (log : List Iid) : TRes :=
  match s.find i with
  | none => .ub
  | some nd =>
    if nd.nlink = 0 then .out (s.erase i) log
    else .out (s.set i { nd with traversing := false }) log

/-- A pending teardown call: a `releaseAll(i)` invocation or the entry-list
walk loop of the visit of `i`. -/
inductive TdCall where
  | rel (i : Iid) (s : State)
  | walk (i : Iid) (s : State)

/-- One layer of the mutual recursion between `releaseAll` and its walk loop;
`ih` performs the calls of the next depth.  Spelled with `Nat.rec` below so
that the kernel evaluates the recursion call-by-name. -/
def teardownStep (ih : TdCall → TRes) : TdCall → TRes
  | .rel i s =>
    match s.find i with
    | none => .ub
    | some nd =>
      if nd.traversing then .out (s.set i { nd with nlink := nd.nlink - 1 }) []
      else
        if nd.isdir then
          match ih (.walk i (s.set i { nd with nlink := nd.nlink - 1, traversing := true })) with
          | .fuelOut => .fuelOut
          | .ub => .ub
          | .out s2 log => finishVisit i s2 (i :: log)
        else finishVisit i (s.set i { nd with nlink := nd.nlink - 1, traversing := true }) []
  | .walk i s =>
    match s.find i with
    | none => .ub
    | some nd =>
      match nd.entries with
      | [] => .ub
      | [h] => ih (.rel h.node s)
      | _ :: e :: _ =>
        match ih (.rel e.node s) with
        | .fuelOut => .fuelOut
        | .ub => .ub
        | .out s1 log =>
          match s1.find i with
          | none => .ub
          | some nd1 =>
            match nd1.entries with
            | h1 :: _ :: t1 =>
              match ih (.walk i (s1.set i { nd1 with entries := h1 :: t1 })) with
              | .fuelOut => .fuelOut
              | .ub => .ub
              | .out s2 log2 => .out s2 (log ++ log2)
            | _ => .ub

/-- The teardown recursion: fuel bounds only the nesting depth. -/
def teardownGo (fuel : Nat) : TdCall → TRes :=
  Nat.rec (motive := fun _ => TdCall → TRes) (fun _ => .fuelOut)
    (fun _ ih => teardownStep ih) fuel

/-- `releaseAll` (Filesystem.c:169), on nesting-depth fuel: decrement the link
count, return at once when the traversing mark is set, otherwise set the mark,
walk the entry list of a directory, clear the mark and free the inode when no
links remain. -/
def releaseAllF (fuel : Nat) (i : Iid) (s : State) : TRes :=
  teardownGo fuel (.rel i s)

/-- The entry-list walk of `releaseAll`:
`while (p->next) { releaseAll(p->next->node); unlink and free p->next; }
releaseAll(p->node);` with `p = root->data`. -/
def walkF (fuel : Nat) (i : Iid) (s : State) : TRes :=
  teardownGo fuel (.walk i s)

/-- Fuel-insensitive wrapper used in the statements: the fuel bounds only the
nesting depth of `releaseAll`/`walk` frames, and for the handful-of-inodes
graphs below a depth of 64 is ample — the runs below never return
`.fuelOut`. -/
def releaseAll (i : Iid) (s : State) : TRes :=
  releaseAllF 64 i s

/-- The log component of a teardown result. -/
def TRes.getLog : TRes → List Iid
  | .out _ log => log
  | _ => []

/-!
Concrete inputs.  Paths are spelled as character lists; `fs0` is the fresh
filesystem (root id 0).  Each scenario state is built by running the modelled
operations, and the claim theorems also record that every build step returned
`.ok`, i.e. that the scenario is a sequence of successful operations.
-/

def fs0 : State := newFilesystem.1

def pathRoot : List Char := [sep]

def pathX : List Char := [sep, 'x']

def pathF : List Char := [sep, 'f']

def pathG : List Char := [sep, 'g']

def pathA : List Char := [sep, 'a']

def pathB : List Char := [sep, 'b']

def pathASlash : List Char := [sep, 'a', sep]

def pathAB : List Char := [sep, 'a', sep, 'b']

def pathBC : List Char := [sep, 'b', sep, 'c']

def pathFSlash : List Char := [sep, 'f', sep]

def pathFSlash2 : List Char := [sep, 'f', sep, sep]

/-- Fresh filesystem plus one regular file `/f` (inode 1). -/
def stF : State := (ramMknod fs0 0 pathF).2

/-- `mkdir /a` (inode 1). -/
def stA : State := (ramMkdir fs0 0 pathA).2

/-- `mkdir /a; mkdir /b` (inodes 1, 2). -/
def stAB : State := (ramMkdir stA 0 pathB).2

/-- `mkdir /a; mkdir /b; rename /a /b/c`: directory 1 now lives under 2 while
its `..` still references the root. -/
def stMovedDir : State := (ramRename stAB 0 pathA pathBC).2

/-- `mkdir /a; mkdir /a/b` (inodes 1, 2). -/
def stAAB : State := (ramMkdir stA 0 pathAB).2

/-- ... `rename /a/b /b`: directory 2 moves to the root, `..` still at 1. -/
def stAABmv : State := (ramRename stAAB 0 pathAB pathB).2

/-- ... `rename /a /b/c`: directory 1 becomes a child of directory 2, whose
`..` references 1 — a directory now precedes its own `..` target. -/
def stRevisit : State := (ramRename stAABmv 0 pathA pathBC).2

def pathI : List Char := [sep, 'i']

def pathIX : List Char := [sep, 'i', sep, 'x']

def pathIY : List Char := [sep, 'i', sep, 'y']

def pathY : List Char := [sep, 'y']

def pathYI : List Char := [sep, 'y', sep, 'i']

/-- `mkdir /i; mkdir /i/x; mkdir /i/y; rename /i/x /x; rename /i/y /y;
rename /i /y/i`: inode 1 (`i`) has link count 4 — `..` of `x` (inode 2), `..`
of `y` (inode 3), its own `.`, and its name entry inside `y`, which the
teardown walk of `y` reaches only after `..` of `y` has already triggered the
visit that frees inode 1. -/
def stUaf : State :=
  (ramRename
    (ramRename
      (ramRename
        (ramMkdir (ramMkdir (ramMkdir fs0 0 pathI).2 0 pathIX).2 0 pathIY).2
        0 pathIX pathX).2
      0 pathIY pathY).2
    0 pathI pathYI).2

/-- **C1.** Claim: when the parent directory resolves but the final name
component is absent, `release(path, root)` fails with *no-such-entry* and
returns an error result.  The code does not: `releaseNode` never NULL-checks
`pathfind(file, dirNode)` before `isDir(node)` reads `node->mode`, so on the
fresh filesystem `release("/x")` dereferences a NULL inode pointer (undefined
behaviour) instead of returning an error. -/
theorem c1_releaseNode_missing_name_derefs_null :
    releaseNode fs0 pathX 0 = (.ub, fs0) ∧
    pathfind fs0 pathRoot 0 = .ok 0 ∧ pathfind fs0 pathX 0 = .err .ENOENT := by
  decide

/-- **C5.** Claim: every non-empty path that begins with the separator and has
an empty suffix after its last separator makes `split_parent` fail with
*no-such-entry*.  The code's empty-basename check in `extractPrefix` compares
`strlen(result) - n` with 1 after writing `result[n] = '\0'`, so it can never
fire: on the fresh filesystem the path `"/"` (and `"/a/"` once `/a` exists)
splits successfully into the resolved parent and an empty basename. -/
theorem c5_split_empty_basename_succeeds :
    getParentDirectory fs0 pathRoot 0 = .ok (0, []) ∧
    (ramMkdir fs0 0 pathA).1 = .ok 1 ∧
    getParentDirectory stA pathASlash 0 = .ok (1, []) := by
  decide

/-- **C3.** Claim: `teardown(root)` terminates on every graph built from a
fresh filesystem by successful operations.  Counter-run: after the six
successful operations building `stUaf`, the teardown visits inode 1 once
through `..` of `x`, then again through `..` of `y`; the second visit drives
its link count to zero and frees it while the name entry `i` inside directory
`y` is still unprocessed, and the walk then calls `releaseAll` on the freed
inode — a use-after-free, so the teardown never completes normally. -/
theorem c3_teardown_use_after_free :
    (ramMkdir fs0 0 pathI).1 = .ok 1 ∧
    (ramMkdir (ramMkdir fs0 0 pathI).2 0 pathIX).1 = .ok 2 ∧
    (ramMkdir (ramMkdir (ramMkdir fs0 0 pathI).2 0 pathIX).2 0 pathIY).1 = .ok 3 ∧
    (ramRename (ramMkdir (ramMkdir (ramMkdir fs0 0 pathI).2 0 pathIX).2 0 pathIY).2
      0 pathIX pathX).1 = .ok 2 ∧
    (ramRename (ramRename (ramMkdir (ramMkdir (ramMkdir fs0 0 pathI).2 0 pathIX).2
      0 pathIY).2 0 pathIX pathX).2 0 pathIY pathY).1 = .ok 3 ∧
    (ramRename (ramRename (ramRename (ramMkdir (ramMkdir (ramMkdir fs0 0 pathI).2
      0 pathIX).2 0 pathIY).2 0 pathIX pathX).2 0 pathIY pathY).2 0 pathI pathYI).1
      = .ok 1 ∧
    releaseAll 0 stUaf = .ub := by
  decide

/-- **C4.** Claim: during one teardown each inode's walk body executes at most
once, because a marked inode returns immediately.  The code clears the
`traversing` mark when a visit completes, so a directory reached again later
through a second non-nested edge is walked again: after the three successful
operations building `stRevisit`, the walk of directory 2 reaches inode 1 first
through `..` of 2 (full walk of 1), and later through the name entry `c`
(second walk of 1) — the walk log of the teardown processes inode 1 twice. -/
theorem c4_teardown_walks_inode_twice :
    (ramMkdir fs0 0 pathA).1 = .ok 1 ∧
    (ramMkdir stA 0 pathAB).1 = .ok 2 ∧
    (ramRename stAAB 0 pathAB pathB).1 = .ok 2 ∧
    (ramRename stAABmv 0 pathA pathBC).1 = .ok 1 ∧
    (releaseAll 0 stRevisit).getLog.count 1 = 2 := by
  decide

/-- **C2, counterexample.** Claim: an entry-allocation failure during move
returns *out-of-space* with the whole graph exactly as before.  After a
successful `mknod /f`, a move of `/f` to `/g` whose `addEntry` allocation
fails does return `ENOSPC`, but the source entry `f` was already detached:
the root's entry list has lost its third entry, so the graph changed. -/
theorem c2_move_allocfail_mutates_cex :
    (ramMknod fs0 0 pathF).1 = .ok 1 ∧
    (moveNode stF false pathF pathG 0).1 = .err .ENOSPC ∧
    (moveNode stF false pathF pathG 0).2 ≠ stF ∧
    ((moveNode stF false pathF pathG 0).2.find 0).map Inode.entries =
      some [{ name := dotName, node := 0 }, { name := ddotName, node := 0 }] ∧
    (stF.find 0).map Inode.entries =
      some [{ name := dotName, node := 0 }, { name := ddotName, node := 0 },
            { name := ['f'], node := 1 }] := by
  decide

/-- **C6, counterexample.** Claim: `detach(list, name)` removes the first
entry named `name` for every position of the match, including the head.  The
loop reads only `p->next`, so a match at the head is invisible: on the
two-entry list `[a ↦ 5, b ↦ 6]`, detaching `"a"` fails with *no-such-entry*
and leaves the list unchanged. -/
theorem c6_detach_head_cex :
    removeEntry [{ name := ['a'], node := 5 }, { name := ['b'], node := 6 }] ['a'] =
      (.err .ENOENT, [{ name := ['a'], node := 5 }, { name := ['b'], node := 6 }]) := by
  decide

/-- **C9, counterexample.** Claim: after every sequence of successful
operations, every directory's link count equals 2 plus its number of child
subdirectories.  Twice false: the fresh root has link count 3 with no
subdirectories (its own `..` adds a third link), and after the successful
sequence `mkdir /a; mkdir /b; rename /a /b/c` the root's link count is 5 with
one subdirectory (the moved directory's `..` still references the root), and
directory `b` holds subdirectory `c` with link count 2. -/
theorem c9_dir_nlink_cex :
    ((fs0.find 0).map Inode.nlink = some 3 ∧
      (fs0.find 0).map (fun nd => nd.entries.countP (fun e => stAB.find e.node |>.any Inode.isdir)) ≠ some 1) ∧
    ((ramMkdir fs0 0 pathA).1 = .ok 1 ∧ (ramMkdir stA 0 pathB).1 = .ok 2 ∧
      (ramRename stAB 0 pathA pathBC).1 = .ok 1 ∧
      (stMovedDir.find 0).map Inode.nlink = some 5 ∧
      (stMovedDir.find 0).map Inode.entries =
        some [{ name := dotName, node := 0 }, { name := ddotName, node := 0 },
              { name := ['b'], node := 2 }] ∧
      (stMovedDir.find 2).map Inode.nlink = some 2 ∧
      (stMovedDir.find 2).map Inode.entries =
        some [{ name := dotName, node := 2 }, { name := ddotName, node := 0 },
              { name := ['c'], node := 1 }]) := by
  decide

/-- **C10, counterexample.** Claim: for every regular file reachable at an
absolute path `p`, the lookup of `p` with one more trailing separator also
succeeds with the same inode.  After a successful `mknod /f`, the file is
reachable at the absolute path `"/f/"`, but appending one separator gives
`"/f//"`, whose resolution strips one separator, is left with the non-empty
remainder `"/"`, and fails the directory check on the file: *not-a-directory*. -/
theorem c10_trailing_sep_cex :
    (ramMknod fs0 0 pathF).1 = .ok 1 ∧
    (stF.find 1).map Inode.isdir = some false ∧
    pathfind stF pathFSlash 0 = .ok 1 ∧
    pathfind stF (pathFSlash ++ [sep]) 0 = .err .ENOTDIR := by
  decide

/-!  General lemmas about the entry-list primitives. -/

theorem removeFirst_eq_none {t : List Entry} {name : List Char}
    (h : ∀ e ∈ t, e.name ≠ name) : removeFirst t name = none := by
  induction t with
  | nil => rfl
  | cons e t ih =>
    have he : e.name ≠ name := h e (List.mem_cons_self e t)
    simp only [removeFirst, if_neg he]
    rw [ih (fun e' he' => h e' (List.mem_cons_of_mem e he'))]

theorem removeFirst_eq_some {pre : List Entry} {e : Entry} {post : List Entry}
    {name : List Char} (he : e.name = name) (hpre : ∀ e' ∈ pre, e'.name ≠ name) :
    removeFirst (pre ++ e :: post) name = some (e.node, pre ++ post) := by
  induction pre with
  | nil => simp [removeFirst, he]
  | cons p pre ih =>
    have hp : p.name ≠ name := hpre p (List.mem_cons_self p pre)
    simp only [List.cons_append, removeFirst, if_neg hp]
    show (match removeFirst (pre ++ e :: post) name with
      | some (i, t') => some (i, p :: t')
      | none => none) = some (e.node, p :: (pre ++ post))
    rw [ih (fun e' he' => hpre e' (List.mem_cons_of_mem p he'))]

/-- **C6, amended.** `detach(list, name)` removes the first entry *after the
head* whose name equals `name`, returning its inode and preserving the head and
the other entries in order; when no entry after the head matches — even when
the head itself does — it fails with *no-such-entry* and leaves the list
unchanged. -/
theorem c6_detach_amended (h : Entry) (t : List Entry) (name : List Char) :
    ((∀ e ∈ t, e.name ≠ name) → removeEntry (h :: t) name = (.err .ENOENT, h :: t)) ∧
    (∀ pre e post, t = pre ++ e :: post → e.name = name → (∀ x ∈ pre, x.name ≠ name) →
      removeEntry (h :: t) name = (.ok e.node, h :: (pre ++ post))) := by
  constructor
  · intro hnone
    simp only [removeEntry, removeFirst_eq_none hnone]
  · intro pre e post ht he hpre
    subst ht
    simp only [removeEntry, removeFirst_eq_some he hpre]

/-- Witness for `c6_detach_amended`: on the list `[a ↦ 1, b ↦ 2, c ↦ 3, b ↦ 4]`
detaching `"b"` removes the first `b` (inode 2) keeping the rest in order, and
detaching `"a"` — matched only by the head — fails with *no-such-entry*. -/
theorem c6_detach_amended_witness :
    removeEntry [{ name := ['a'], node := 1 }, { name := ['b'], node := 2 },
        { name := ['c'], node := 3 }, { name := ['b'], node := 4 }] ['b'] =
      (.ok 2, [{ name := ['a'], node := 1 }, { name := ['c'], node := 3 },
        { name := ['b'], node := 4 }]) ∧
    removeEntry [{ name := ['a'], node := 1 }, { name := ['b'], node := 2 },
        { name := ['c'], node := 3 }, { name := ['b'], node := 4 }] ['a'] =
      (.err .ENOENT, [{ name := ['a'], node := 1 }, { name := ['b'], node := 2 },
        { name := ['c'], node := 3 }, { name := ['b'], node := 4 }]) := by
  constructor
  · exact (c6_detach_amended { name := ['a'], node := 1 }
      [{ name := ['b'], node := 2 }, { name := ['c'], node := 3 }, { name := ['b'], node := 4 }]
      ['b']).2 [] { name := ['b'], node := 2 }
      [{ name := ['c'], node := 3 }, { name := ['b'], node := 4 }] rfl rfl (by simp)
  · exact (c6_detach_amended { name := ['a'], node := 1 }
      [{ name := ['b'], node := 2 }, { name := ['c'], node := 3 }, { name := ['b'], node := 4 }]
      ['a']).1 (by decide)

/-- **C2, amended.**  An entry-allocation failure (`allocOk = false`) during
*add* returns *out-of-space* and leaves the graph untouched — in fact `addNode`
with a failing allocator never changes the heap on any path.  During *move*
the failure also yields *out-of-space*, but the source entry has already been
detached: the returned heap is exactly the input heap with the source
directory's list shortened by that entry, not the input heap itself. -/
theorem c2_allocfail_amended :
    (∀ s path root node, (addNode s false path root node).2 = s) ∧
    (∀ s path root node d file e dn,
        getParentDirectory s path root = .ok (d, file) →
        pathfind s file d = .err e →
        s.find d = some dn → dn.entries ≠ [] →
        addNode s false path root node = (.err .ENOSPC, s)) ∧
    (∀ s path newpath root op ofile np nfile ond node l' nnd,
        getParentDirectory s path root = .ok (op, ofile) →
        getParentDirectory s newpath root = .ok (np, nfile) →
        s.find op = some ond →
        removeEntry ond.entries ofile = (.ok node, l') →
        (s.set op { ond with entries := l' }).find np = some nnd →
        nnd.entries ≠ [] →
        moveNode s false path newpath root =
          (.err .ENOSPC, s.set op { ond with entries := l' })) := by
  refine ⟨?_, ?_, ?_⟩
  · intro s path root node
    cases h1 : getParentDirectory s path root with
    | err e => simp [addNode, h1]
    | ub => simp [addNode, h1]
    | ok df =>
      obtain ⟨d, file⟩ := df
      cases h2 : pathfind s file d with
      | ub => simp [addNode, h1, h2]
      | ok t => simp [addNode, h1, h2]
      | err e =>
        cases h3 : s.find d with
        | none => simp [addNode, h1, h2, h3]
        | some dn =>
          cases h4 : dn.entries with
          | nil => simp [addNode, h1, h2, h3, h4, addEntry]
          | cons c t2 => simp [addNode, h1, h2, h3, h4, addEntry]
  · intro s path root node d file e dn hgp hpf hfind hne
    rcases hl : dn.entries with _ | ⟨c, t⟩
    · exact absurd hl hne
    · simp only [addNode, hgp, hpf, hfind, hl, addEntry]
      rfl
  · intro s path newpath root op ofile np nfile ond node l' nnd hgp1 hgp2 hfind hrem hfind2 hne
    rcases hl : nnd.entries with _ | ⟨c, t⟩
    · exact absurd hl hne
    · simp only [moveNode, hgp1, hgp2, hfind, hrem, hfind2, hl, addEntry]
      rfl

/-- Witness for `c2_allocfail_amended`: the failing-allocator `addNode` of a
fresh inode at `/g` leaves the one-file filesystem `stF` unchanged and returns
`ENOSPC`, while the failing-allocator `moveNode` of `/f` to `/g` returns
`ENOSPC` with the root's list already missing the `f` entry. -/
theorem c2_allocfail_amended_witness :
    (addNode stF false pathG 0 9).2 = stF ∧
    addNode stF false pathG 0 9 = (.err .ENOSPC, stF) ∧
    moveNode stF false pathF pathG 0 =
      (.err .ENOSPC, stF.set 0
        { isdir := true, nlink := 3, nopen := 0,
          entries := [{ name := dotName, node := 0 }, { name := ddotName, node := 0 }],
          parent := some 0, traversing := false }) := by
  refine ⟨c2_allocfail_amended.1 stF pathG 0 9, ?_, ?_⟩
  · exact c2_allocfail_amended.2.1 stF pathG 0 9 0 ['g'] .ENOENT
      { isdir := true, nlink := 3, nopen := 0,
        entries := [{ name := dotName, node := 0 }, { name := ddotName, node := 0 },
          { name := ['f'], node := 1 }],
        parent := some 0, traversing := false }
      (by decide) (by decide) (by decide) (by decide)
  · exact c2_allocfail_amended.2.2 stF pathF pathG 0 0 ['f'] 0 ['g']
      { isdir := true, nlink := 3, nopen := 0,
        entries := [{ name := dotName, node := 0 }, { name := ddotName, node := 0 },
          { name := ['f'], node := 1 }],
        parent := some 0, traversing := false }
      1 [{ name := dotName, node := 0 }, { name := ddotName, node := 0 }]
      { isdir := true, nlink := 3, nopen := 0,
        entries := [{ name := dotName, node := 0 }, { name := ddotName, node := 0 }],
        parent := some 0, traversing := false }
      (by decide) (by decide) (by decide) (by decide) (by decide) (by decide)

/-!  Unfolding machinery for `pathfind`: the fuel never matters as long as it
exceeds the path length, giving the C function's recurrence as an equation. -/

theorem compLen_pos_of_ne (p : List Char) (h : compLen p ≠ 0) : 1 ≤ compLen p :=
  Nat.one_le_iff_ne_zero.mpr h

theorem pathfindF_fuel_irrel (s : State) :
    ∀ f1 f2 path root, path.length < f1 → path.length < f2 →
      pathfindF s f1 path root = pathfindF s f2 path root := by
  intro f1
  induction f1 with
  | zero => intro f2 path root h1 h2; omega
  | succ g ih =>
    intro f2 path root h1 h2
    cases f2 with
    | zero => omega
    | succ g2 =>
      simp only [pathfindF]
      by_cases hp : stripSep path = []
      · simp [hp]
      · simp only [if_neg hp]
        cases hf : s.find root with
        | none => rfl
        | some nd =>
          by_cases hd : nd.isdir = true
          · simp only [hd, Bool.not_true, Bool.false_eq_true, if_false]
            cases hfind :
                nd.entries.find? (fun e => e.name == (stripSep path).take (compLen (stripSep path))) with
            | none => rfl
            | some e =>
              by_cases hn : compLen (stripSep path) = 0
              · simp [hn]
              · simp only [if_neg hn]
                have hs := stripSep_length_le path
                have hc := compLen_pos_of_ne (stripSep path) hn
                have hpos : 0 < (stripSep path).length := List.length_pos.mpr hp
                apply ih
                · simp only [List.length_drop]; omega
                · simp only [List.length_drop]; omega
          · simp only [Bool.not_eq_true] at hd
            simp [hd]

theorem pathfind_eq (s : State) (path : List Char) (root : Iid) :
    pathfind s path root =
      if stripSep path = [] then .ok root
      else
        match s.find root with
        | none => .ub
        | some nd =>
          if !nd.isdir then .err .ENOTDIR
          else
            match nd.entries.find? (fun e => e.name == (stripSep path).take (compLen (stripSep path))) with
            | none => .err .ENOENT
            | some e =>
              if compLen (stripSep path) = 0 then .ub
              else pathfind s ((stripSep path).drop (compLen (stripSep path))) e.node := by
  show pathfindF s (path.length + 1) path root = _
  simp only [pathfindF]
  by_cases hp : stripSep path = []
  · simp [hp]
  · simp only [if_neg hp]
    cases hf : s.find root with
    | none => rfl
    | some nd =>
      by_cases hd : nd.isdir = true
      · simp only [hd, Bool.not_true, Bool.false_eq_true, if_false]
        cases hfind :
            nd.entries.find? (fun e => e.name == (stripSep path).take (compLen (stripSep path))) with
        | none => rfl
        | some e =>
          by_cases hn : compLen (stripSep path) = 0
          · simp [hn]
          · simp only [if_neg hn]
            have hs := stripSep_length_le path
            have hc := compLen_pos_of_ne (stripSep path) hn
            have hpos : 0 < (stripSep path).length := List.length_pos.mpr hp
            apply pathfindF_fuel_irrel
            · simp only [List.length_drop]; omega
            · simp only [List.length_drop]; omega
      · simp only [Bool.not_eq_true] at hd
        simp [hd]

theorem compLen_le (l : List Char) : compLen l ≤ l.length := by
  induction l with
  | nil => simp [compLen]
  | cons c t ih =>
    simp only [compLen, List.takeWhile_cons] at *
    split
    · simpa using ih
    · simp

theorem compLen_append_sep (l : List Char) : compLen (l ++ [sep]) = compLen l := by
  induction l with
  | nil => simp [compLen, List.takeWhile_cons]
  | cons c t ih =>
    simp only [compLen, List.cons_append, List.takeWhile_cons] at *
    split
    · simpa using ih
    · rfl

theorem stripSep_append (p q : List Char) (h : p ≠ []) :
    stripSep (p ++ q) = stripSep p ++ q := by
  cases p with
  | nil => exact absurd rfl h
  | cons c t => by_cases hc : c = sep <;> simp [stripSep, hc]

theorem getLast?_stripSep (p : List Char) (h : stripSep p ≠ []) :
    (stripSep p).getLast? = p.getLast? := by
  cases p with
  | nil => simp [stripSep] at h
  | cons c t =>
    by_cases hc : c = sep
    · simp only [stripSep, if_pos hc] at h ⊢
      rw [show c :: t = [c] ++ t from rfl, List.getLast?_append_of_ne_nil [c] h]
    · simp [stripSep, hc]

theorem getLast?_drop (l : List Char) (n : Nat) (h : l.drop n ≠ []) :
    (l.drop n).getLast? = l.getLast? := by
  conv_rhs => rw [← List.take_append_drop n l]
  rw [List.getLast?_append_of_ne_nil (l.take n) h]

/-- **C8.** `lookup(path, start)` ignores a single leading separator, returns
`start` for the empty remainder, matches the next component against the current
directory's entries by exact length-and-byte equality and recurses into the
matched inode, fails with *no-such-entry* when no entry matches and with
*not-a-directory* when a component must be resolved inside a non-directory;
on the fresh filesystem `lookup("/", root)` is the root and `lookup("/x",
root)` is *no-such-entry*. -/
theorem c8_pathfind_spec :
    (∀ s r, pathfind s [] r = .ok r ∧ pathfind s [sep] r = .ok r) ∧
    (∀ s r t, t.head? ≠ some sep → pathfind s (sep :: t) r = pathfind s t r) ∧
    (∀ s r p nd, stripSep p ≠ [] → s.find r = some nd → nd.isdir = false →
      pathfind s p r = .err .ENOTDIR) ∧
    (∀ s r p nd, stripSep p ≠ [] → s.find r = some nd → nd.isdir = true →
      (∀ e ∈ nd.entries, e.name ≠ (stripSep p).take (compLen (stripSep p))) →
      pathfind s p r = .err .ENOENT) ∧
    (∀ s r p nd e, stripSep p ≠ [] → s.find r = some nd → nd.isdir = true →
      nd.entries.find? (fun x => x.name == (stripSep p).take (compLen (stripSep p))) = some e →
      compLen (stripSep p) ≠ 0 →
      pathfind s p r = pathfind s ((stripSep p).drop (compLen (stripSep p))) e.node) ∧
    (pathfind fs0 pathRoot 0 = .ok 0 ∧ pathfind fs0 pathX 0 = .err .ENOENT) := by
  refine ⟨?_, ?_, ?_, ?_, ?_, by decide⟩
  · intro s r
    constructor <;> (rw [pathfind_eq]; simp [stripSep])
  · intro s r t ht
    rw [pathfind_eq s (sep :: t) r, pathfind_eq s t r]
    have h1 : stripSep (sep :: t) = t := by simp [stripSep]
    have h2 : stripSep t = t := by
      cases t with
      | nil => rfl
      | cons c u =>
        have : c ≠ sep := by
          intro hc
          exact ht (by simp [List.head?, hc])
        simp [stripSep, this]
    rw [h1, h2]
  · intro s r p nd hp hf hd
    rw [pathfind_eq]
    simp [hp, hf, hd]
  · intro s r p nd hp hf hd hnone
    rw [pathfind_eq]
    have : nd.entries.find?
        (fun e => e.name == (stripSep p).take (compLen (stripSep p))) = none := by
      rw [List.find?_eq_none]
      intro e he
      simpa using hnone e he
    simp [hp, hf, hd, this]
  · intro s r p nd e hp hf hd hfind hn
    rw [pathfind_eq]
    simp [hp, hf, hd, hfind, hn]

/-- Witness for `c8_pathfind_spec`, on the one-file filesystem `stF` (file `f`
is inode 1): empty and root paths resolve to the start inode, a leading
separator is ignored, resolving below the regular file is *not-a-directory*,
an unmatched component is *no-such-entry*, the matched component `f` recurses
into inode 1, and the two fresh-filesystem lookups behave as stated. -/
theorem c8_pathfind_spec_witness :
    (pathfind stF [] 0 = .ok 0 ∧ pathfind stF [sep] 0 = .ok 0) ∧
    pathfind stF [sep, 'f'] 0 = pathfind stF ['f'] 0 ∧
    pathfind stF ['x'] 1 = .err .ENOTDIR ∧
    pathfind stF ['x'] 0 = .err .ENOENT ∧
    pathfind stF ['f'] 0 = pathfind stF [] 1 ∧
    (pathfind fs0 pathRoot 0 = .ok 0 ∧ pathfind fs0 pathX 0 = .err .ENOENT) := by
  refine ⟨c8_pathfind_spec.1 stF 0, ?_, ?_, ?_, ?_, c8_pathfind_spec.2.2.2.2.2⟩
  · exact c8_pathfind_spec.2.1 stF 0 ['f'] (by decide)
  · exact c8_pathfind_spec.2.2.1 stF 1 ['x']
      { isdir := false, nlink := 1, nopen := 0, entries := [], parent := some 0,
        traversing := false } (by decide) (by decide) (by decide)
  · exact c8_pathfind_spec.2.2.2.1 stF 0 ['x']
      { isdir := true, nlink := 3, nopen := 0,
        entries := [{ name := dotName, node := 0 }, { name := ddotName, node := 0 },
          { name := ['f'], node := 1 }],
        parent := some 0, traversing := false }
      (by decide) (by decide) (by decide) (by decide)
  · exact c8_pathfind_spec.2.2.2.2.1 stF 0 ['f']
      { isdir := true, nlink := 3, nopen := 0,
        entries := [{ name := dotName, node := 0 }, { name := ddotName, node := 0 },
          { name := ['f'], node := 1 }],
        parent := some 0, traversing := false }
      { name := ['f'], node := 1 }
      (by decide) (by decide) (by decide) (by decide) (by decide)

/-- **C10, amended.**  When `lookup(p, r)` returns inode `f` and `p` does not
itself end with the separator, `lookup` of `p` with one more trailing separator
returns the same inode: the directory check runs only on a non-empty remainder,
and the appended separator is stripped as the leading separator of the final
empty remainder.  (When `p` already ends with the separator, the appended one
leaves the non-empty remainder `"/"` to resolve inside `f`, which fails with
*not-a-directory* for a regular file — the counterexample above.) -/
theorem c10_trailing_sep_amended (p : List Char) (s : State) (r f : Iid)
    (h : pathfind s p r = .ok f) (hlast : p.getLast? ≠ some sep) :
    pathfind s (p ++ [sep]) r = .ok f := by
  suffices H : ∀ n (p : List Char), p.length ≤ n → ∀ s r f, pathfind s p r = .ok f →
      p.getLast? ≠ some sep → pathfind s (p ++ [sep]) r = .ok f from
    H p.length p le_rfl s r f h hlast
  clear h hlast p s r f
  intro n
  induction n with
  | zero =>
    intro p hlen s r f h _
    have hp : p = [] := List.length_eq_zero.mp (Nat.le_zero.mp hlen)
    subst hp
    rw [pathfind_eq] at h
    simp only [stripSep, if_pos rfl] at h
    cases h
    rw [pathfind_eq]
    simp [stripSep]
  | succ m ih =>
    intro p hlen s r f h hlast
    by_cases hp : stripSep p = []
    · cases p with
      | nil =>
        rw [pathfind_eq] at h
        simp only [stripSep, if_pos rfl] at h
        cases h
        rw [pathfind_eq]
        simp [stripSep]
      | cons c t =>
        by_cases hc : c = sep
        · have ht : t = [] := by simpa [stripSep, hc] using hp
          subst ht
          subst hc
          simp [List.getLast?] at hlast
        · simp [stripSep, hc] at hp
    · have hpne : p ≠ [] := by
        intro hh
        exact hp (by simp [hh, stripSep])
      rw [pathfind_eq] at h
      rw [pathfind_eq, stripSep_append p [sep] hpne]
      have hne2 : ¬(stripSep p ++ [sep] = []) := by simp
      rw [if_neg hp] at h
      rw [if_neg hne2]
      cases hf : s.find r with
      | none =>
        rw [hf] at h
        exact Res.noConfusion h
      | some nd =>
        simp only [hf] at h ⊢
        by_cases hd : nd.isdir = true
        · simp only [hd, Bool.not_true, Bool.false_eq_true, if_false] at h ⊢
          rw [compLen_append_sep (stripSep p),
            List.take_append_of_le_length (compLen_le (stripSep p))]
          cases hfind : nd.entries.find?
              (fun e => e.name == (stripSep p).take (compLen (stripSep p))) with
          | none =>
            rw [hfind] at h
            exact Res.noConfusion h
          | some e =>
            simp only [hfind] at h ⊢
            by_cases hn : compLen (stripSep p) = 0
            · rw [if_pos hn] at h
              exact Res.noConfusion h
            · rw [if_neg hn] at h ⊢
              rw [List.drop_append_of_le_length (compLen_le (stripSep p))]
              by_cases hdrop : (stripSep p).drop (compLen (stripSep p)) = []
              · rw [hdrop] at h ⊢
                rw [pathfind_eq] at h
                simp only [stripSep, if_pos rfl] at h
                cases h
                rw [pathfind_eq]
                simp [stripSep]
              · apply ih _ _ s e.node f h
                · rw [getLast?_drop _ _ hdrop, getLast?_stripSep p hp]
                  exact hlast
                · have h1 := stripSep_length_le p
                  have h2 := compLen_pos_of_ne (stripSep p) hn
                  simp only [List.length_drop]
                  omega
        · simp only [Bool.not_eq_true] at hd
          rw [hd] at h
          exact Res.noConfusion h

/-- Witness for `c10_trailing_sep_amended`: `/f` resolves to the regular file
(inode 1) on `stF`, so `/f/` does too. -/
theorem c10_trailing_sep_amended_witness :
    pathfind stF (pathF ++ [sep]) 0 = .ok 1 :=
  c10_trailing_sep_amended pathF stF 0 1 (by decide) (by decide)

/-- **C7.** For a path splitting into parent `d` (a live directory with a
non-NULL list) and basename `file`: when `lookup(file, d)` succeeds, `add`
fails with *already-exists* and changes nothing; when it fails, `add` (with a
succeeding allocator) appends an entry `file ↦ node` at the end of `d`'s list,
increments `node`'s link count, sets `node`'s parent back-reference to `d`
exactly when it was NULL, and returns the node. -/
theorem c7_addNode_spec (s : State) (path : List Char) (root node d : Iid) (file : List Char)
    (dn : Inode)
    (hgp : getParentDirectory s path root = .ok (d, file))
    (hd : s.find d = some dn) (hne : dn.entries ≠ []) :
    (∀ t, pathfind s file d = .ok t → addNode s true path root node = (.err .EEXIST, s)) ∧
    (∀ e nn1, pathfind s file d = .err e →
      (s.set d { dn with entries := dn.entries ++ [{ name := file, node := node }] }).find node
          = some nn1 →
      addNode s true path root node =
        (.ok node,
          (s.set d { dn with entries := dn.entries ++ [{ name := file, node := node }] }).set node
            { nn1 with
              nlink := nn1.nlink + 1,
              parent := if nn1.parent = none then some d else nn1.parent })) := by
  constructor
  · intro t hpf
    simp [addNode, hgp, hpf]
  · intro e nn1 hpf hfind
    rcases hl : dn.entries with _ | ⟨c, t2⟩
    · exact absurd hl hne
    · rw [hl] at hfind
      simp only [List.cons_append] at hfind
      simp only [addNode, hgp, hpf, hd, hl, addEntry, Bool.not_true, Bool.false_eq_true,
        if_false, List.cons_append, hfind]

/-- Witness for `c7_addNode_spec` on `stF` (root 0 with entry `f ↦ 1`):
adding at `/f` fails with *already-exists* leaving the heap untouched, and
adding the existing file inode 1 at `/g` (a hard link) appends `g ↦ 1` at the
end of the root's list and bumps the file's link count to 2, keeping its
already-set parent back-reference. -/
theorem c7_addNode_spec_witness :
    addNode stF true pathF 0 9 = (.err .EEXIST, stF) ∧
    addNode stF true pathG 0 1 =
      (.ok 1,
        (stF.set 0
          { isdir := true, nlink := 3, nopen := 0,
            entries := [{ name := dotName, node := 0 }, { name := ddotName, node := 0 },
              { name := ['f'], node := 1 }, { name := ['g'], node := 1 }],
            parent := some 0, traversing := false }).set 1
          { isdir := false, nlink := 2, nopen := 0, entries := [], parent := some 0,
            traversing := false }) := by
  constructor
  · exact (c7_addNode_spec stF pathF 0 9 0 ['f']
      { isdir := true, nlink := 3, nopen := 0,
        entries := [{ name := dotName, node := 0 }, { name := ddotName, node := 0 },
          { name := ['f'], node := 1 }],
        parent := some 0, traversing := false }
      (by decide) (by decide) (by decide)).1 1 (by decide)
  · exact (c7_addNode_spec stF pathG 0 1 0 ['g']
      { isdir := true, nlink := 3, nopen := 0,
        entries := [{ name := dotName, node := 0 }, { name := ddotName, node := 0 },
          { name := ['f'], node := 1 }],
        parent := some 0, traversing := false }
      (by decide) (by decide) (by decide)).2 .ENOENT
      { isdir := false, nlink := 1, nopen := 0, entries := [], parent := some 0,
        traversing := false }
      (by decide) (by decide)

/-!
Machinery for the link-count invariant (claim C9).  The heap is an association
list; these lemmas work at the list level (`lfind`/`setf`/`erasef` are the
bodies of `State.find`/`State.set`/`State.erase`) under the key-uniqueness that
holds for every reachable heap.  `cntL`/`cnt` count the name edges into an
inode from the child sections (everything after `.` and `..`) of all live
directories.
-/

def lfind (l : List (Iid × Inode)) (i : Iid) : Option Inode :=
  (l.find? (fun p => p.1 == i)).map Prod.snd

def setf (l : List (Iid × Inode)) (i : Iid) (nd : Inode) : List (Iid × Inode) :=
  l.map (fun p => if p.1 == i then (i, nd) else p)

def erasef (l : List (Iid × Inode)) (i : Iid) : List (Iid × Inode) :=
  l.filter (fun p => p.1 != i)

theorem state_find_eq (s : State) (i : Iid) : s.find i = lfind s.inodes i := rfl

theorem state_set_inodes (s : State) (i : Iid) (nd : Inode) :
    (s.set i nd).inodes = setf s.inodes i nd := rfl

theorem state_erase_inodes (s : State) (i : Iid) :
    (s.erase i).inodes = erasef s.inodes i := rfl

/-- The child section of a directory record: its entries after `.` and `..`. -/
def dirRest (nd : Inode) : List Entry := nd.entries.drop 2

/-- The inode referenced by a directory record's `..` entry (its second). -/
def ddotTarget (nd : Inode) : Iid :=
  match nd.entries with
  | _ :: e :: _ => e.node
  | _ => 0

/-- How many entries of the child section of `p` reference inode `t`
(zero for a non-directory record). -/
def contrib (p : Iid × Inode) (t : Iid) : Nat :=
  if p.2.isdir then (dirRest p.2).countP (fun e => e.node == t) else 0

def cntL (l : List (Iid × Inode)) (t : Iid) : Nat :=
  (l.map (fun p => contrib p t)).sum

/-- Number of name edges into `t` from the child sections of all live
directories — `.` and `..` entries are not counted. -/
def cnt (s : State) (t : Iid) : Nat := cntL s.inodes t

def keysOf (l : List (Iid × Inode)) : List Iid := l.map Prod.fst

theorem lfind_cons_of_pos {p : Iid × Inode} {l : List (Iid × Inode)} {i : Iid}
    (h : p.1 = i) : lfind (p :: l) i = some p.2 := by
  rw [lfind, List.find?_cons_of_pos l (by simpa using h)]
  rfl

theorem lfind_cons_of_neg {p : Iid × Inode} {l : List (Iid × Inode)} {i : Iid}
    (h : p.1 ≠ i) : lfind (p :: l) i = lfind l i := by
  rw [lfind, List.find?_cons_of_neg l (by simpa using h)]
  rfl

theorem lfind_eq_some_of_mem {l : List (Iid × Inode)} (hnd : (keysOf l).Nodup)
    {i : Iid} {nd : Inode} (h : (i, nd) ∈ l) : lfind l i = some nd := by
  induction l with
  | nil => cases h
  | cons p l ih =>
    rcases List.mem_cons.mp h with h1 | h1
    · subst h1
      exact lfind_cons_of_pos rfl
    · have hk : p.1 ≠ i := by
        intro he
        have : i ∈ keysOf l := List.mem_map.mpr ⟨(i, nd), h1, rfl⟩
        rw [keysOf, List.map_cons, List.nodup_cons] at hnd
        exact hnd.1 (he ▸ this)
      have hnd' : (keysOf l).Nodup := by
        rw [keysOf, List.map_cons, List.nodup_cons] at hnd
        exact hnd.2
      rw [lfind_cons_of_neg hk]
      exact ih hnd' h1

theorem mem_of_lfind {l : List (Iid × Inode)} {i : Iid} {nd : Inode}
    (h : lfind l i = some nd) : (i, nd) ∈ l := by
  induction l with
  | nil => simp [lfind] at h
  | cons p l ih =>
    by_cases hk : p.1 = i
    · rw [lfind_cons_of_pos hk] at h
      cases h
      have : p = (i, p.2) := Prod.ext hk rfl
      rw [← this]
      exact List.mem_cons_self p l
    · rw [lfind_cons_of_neg hk] at h
      exact List.mem_cons_of_mem p (ih h)

theorem lfind_eq_none_iff {l : List (Iid × Inode)} {i : Iid} :
    lfind l i = none ↔ ∀ p ∈ l, p.1 ≠ i := by
  induction l with
  | nil => simp [lfind]
  | cons p l ih =>
    by_cases hk : p.1 = i
    · rw [lfind_cons_of_pos hk]
      simp only [List.mem_cons]
      constructor
      · intro h
        cases h
      · intro h
        exact absurd hk (h p (Or.inl rfl))
    · rw [lfind_cons_of_neg hk]
      rw [ih]
      constructor
      · intro h q hq
        rcases List.mem_cons.mp hq with h1 | h1
        · subst h1
          exact hk
        · exact h q h1
      · intro h q hq
        exact h q (List.mem_cons_of_mem p hq)

theorem setf_cons_self {p : Iid × Inode} {l : List (Iid × Inode)} {i : Iid} {nd : Inode}
    (h : p.1 = i) : setf (p :: l) i nd = (i, nd) :: setf l i nd := by
  simp [setf, h]

theorem setf_cons_ne {p : Iid × Inode} {l : List (Iid × Inode)} {i : Iid} {nd : Inode}
    (h : p.1 ≠ i) : setf (p :: l) i nd = p :: setf l i nd := by
  simp [setf, h]

theorem erasef_cons_self {p : Iid × Inode} {l : List (Iid × Inode)} {i : Iid}
    (h : p.1 = i) : erasef (p :: l) i = erasef l i := by
  simp [erasef, List.filter_cons, h]

theorem erasef_cons_ne {p : Iid × Inode} {l : List (Iid × Inode)} {i : Iid}
    (h : p.1 ≠ i) : erasef (p :: l) i = p :: erasef l i := by
  simp [erasef, List.filter_cons, h]

theorem setf_of_not_mem {l : List (Iid × Inode)} {i : Iid} {nd : Inode}
    (h : ∀ p ∈ l, p.1 ≠ i) : setf l i nd = l := by
  induction l with
  | nil => rfl
  | cons p l ih =>
    rw [setf_cons_ne (h p (List.mem_cons_self p l)),
      ih (fun q hq => h q (List.mem_cons_of_mem p hq))]

theorem not_mem_keys_of_nodup_cons {p : Iid × Inode} {l : List (Iid × Inode)}
    (hnd : (keysOf (p :: l)).Nodup) : ∀ q ∈ l, q.1 ≠ p.1 := by
  intro q hq he
  rw [keysOf, List.map_cons, List.nodup_cons] at hnd
  exact hnd.1 (List.mem_map.mpr ⟨q, hq, he⟩)

theorem keysOf_nodup_tail {p : Iid × Inode} {l : List (Iid × Inode)}
    (hnd : (keysOf (p :: l)).Nodup) : (keysOf l).Nodup := by
  rw [keysOf, List.map_cons, List.nodup_cons] at hnd
  exact hnd.2

theorem lfind_setf_self {l : List (Iid × Inode)} {i : Iid} {o nd : Inode}
    (h : lfind l i = some o) : lfind (setf l i nd) i = some nd := by
  induction l with
  | nil => simp [lfind] at h
  | cons p l ih =>
    by_cases hk : p.1 = i
    · rw [setf_cons_self hk]
      exact lfind_cons_of_pos rfl
    · rw [lfind_cons_of_neg hk] at h
      rw [setf_cons_ne hk, lfind_cons_of_neg hk]
      exact ih h

theorem lfind_setf_ne {l : List (Iid × Inode)} {i j : Iid} {nd : Inode}
    (h : j ≠ i) : lfind (setf l i nd) j = lfind l j := by
  induction l with
  | nil => rfl
  | cons p l ih =>
    by_cases hk : p.1 = i
    · rw [setf_cons_self hk,
        lfind_cons_of_neg (show ((i, nd) : Iid × Inode).1 ≠ j from fun he => h he.symm),
        lfind_cons_of_neg (show p.1 ≠ j from fun he => h ((he.symm.trans hk).symm ▸ (he.symm.trans hk)))]
      exact ih
    · rw [setf_cons_ne hk]
      by_cases hj : p.1 = j
      · rw [lfind_cons_of_pos hj, lfind_cons_of_pos hj]
      · rw [lfind_cons_of_neg hj, lfind_cons_of_neg hj]
        exact ih

theorem keysOf_setf (l : List (Iid × Inode)) (i : Iid) (nd : Inode) :
    keysOf (setf l i nd) = keysOf l := by
  induction l with
  | nil => rfl
  | cons p l ih =>
    by_cases hk : p.1 = i
    · rw [setf_cons_self hk]
      simp only [keysOf, List.map_cons] at *
      rw [hk]
      exact congrArg _ ih
    · rw [setf_cons_ne hk]
      simp only [keysOf, List.map_cons] at *
      exact congrArg _ ih

theorem lfind_erasef_self (l : List (Iid × Inode)) (i : Iid) :
    lfind (erasef l i) i = none := by
  rw [lfind_eq_none_iff]
  intro p hp
  have := List.of_mem_filter hp
  simpa using this

theorem lfind_erasef_ne {l : List (Iid × Inode)} {i j : Iid} (h : j ≠ i) :
    lfind (erasef l i) j = lfind l j := by
  induction l with
  | nil => rfl
  | cons p l ih =>
    by_cases hk : p.1 = i
    · rw [erasef_cons_self hk,
        lfind_cons_of_neg (show p.1 ≠ j from fun he => h (he ▸ hk))]
      exact ih
    · rw [erasef_cons_ne hk]
      by_cases hj : p.1 = j
      · rw [lfind_cons_of_pos hj, lfind_cons_of_pos hj]
      · rw [lfind_cons_of_neg hj, lfind_cons_of_neg hj]
        exact ih

theorem keysOf_erasef_nodup {l : List (Iid × Inode)} (i : Iid)
    (h : (keysOf l).Nodup) : (keysOf (erasef l i)).Nodup :=
  ((List.filter_sublist l).map Prod.fst).nodup h

theorem lfind_append_of_none {l l2 : List (Iid × Inode)} {j : Iid}
    (h : lfind l j = none) : lfind (l ++ l2) j = lfind l2 j := by
  induction l with
  | nil => rfl
  | cons p l ih =>
    by_cases hk : p.1 = j
    · rw [lfind_cons_of_pos hk] at h
      cases h
    · rw [lfind_cons_of_neg hk] at h
      rw [List.cons_append, lfind_cons_of_neg hk]
      exact ih h

theorem lfind_append_of_some {l l2 : List (Iid × Inode)} {j : Iid} {nd : Inode}
    (h : lfind l j = some nd) : lfind (l ++ l2) j = some nd := by
  induction l with
  | nil => simp [lfind] at h
  | cons p l ih =>
    by_cases hk : p.1 = j
    · rw [lfind_cons_of_pos hk] at h
      rw [List.cons_append, lfind_cons_of_pos hk]
      exact h
    · rw [lfind_cons_of_neg hk] at h
      rw [List.cons_append, lfind_cons_of_neg hk]
      exact ih h

theorem cntL_cons (p : Iid × Inode) (l : List (Iid × Inode)) (t : Iid) :
    cntL (p :: l) t = contrib p t + cntL l t := by
  simp [cntL]

theorem cntL_append (l l2 : List (Iid × Inode)) (t : Iid) :
    cntL (l ++ l2) t = cntL l t + cntL l2 t := by
  simp [cntL]

theorem cntL_setf {l : List (Iid × Inode)} (hnd : (keysOf l).Nodup)
    {i : Iid} {o : Inode} (hmem : (i, o) ∈ l) (nd : Inode) (t : Iid) :
    cntL (setf l i nd) t + contrib (i, o) t = cntL l t + contrib (i, nd) t := by
  induction l with
  | nil => cases hmem
  | cons p l ih =>
    by_cases hk : p.1 = i
    · have hpo : p = (i, o) := by
        rcases List.mem_cons.mp hmem with h1 | h1
        · exact h1.symm
        · exact absurd hk.symm (not_mem_keys_of_nodup_cons hnd (i, o) h1)
      subst hpo
      rw [setf_cons_self hk,
        setf_of_not_mem (fun q hq => not_mem_keys_of_nodup_cons hnd q hq),
        cntL_cons, cntL_cons]
      omega
    · have hmem' : (i, o) ∈ l := by
        rcases List.mem_cons.mp hmem with h1 | h1
        · exact absurd (congrArg Prod.fst h1.symm) hk
        · exact h1
      rw [setf_cons_ne hk, cntL_cons, cntL_cons]
      have := ih (keysOf_nodup_tail hnd) hmem'
      omega

theorem cntL_erasef {l : List (Iid × Inode)} (hnd : (keysOf l).Nodup)
    {i : Iid} {o : Inode} (hmem : (i, o) ∈ l) (t : Iid) :
    cntL (erasef l i) t + contrib (i, o) t = cntL l t := by
  induction l with
  | nil => cases hmem
  | cons p l ih =>
    by_cases hk : p.1 = i
    · have hpo : p = (i, o) := by
        rcases List.mem_cons.mp hmem with h1 | h1
        · exact h1.symm
        · exact absurd hk (fun he => not_mem_keys_of_nodup_cons hnd (i, o) h1 (by simp [he]))
      subst hpo
      rw [erasef_cons_self hk,
        show erasef l i = l from ?_, cntL_cons]
      · omega
      · rw [erasef, List.filter_eq_self]
        intro q hq
        simpa [hk] using not_mem_keys_of_nodup_cons hnd q hq
    · have hmem' : (i, o) ∈ l := by
        rcases List.mem_cons.mp hmem with h1 | h1
        · exact absurd (congrArg Prod.fst h1.symm) hk
        · exact h1
      rw [erasef_cons_ne hk, cntL_cons, cntL_cons]
      have := ih (keysOf_nodup_tail hnd) hmem'
      omega

theorem cntL_pos {l : List (Iid × Inode)} {t : Iid} (h : cntL l t ≠ 0) :
    ∃ p ∈ l, p.2.isdir = true ∧ ∃ e ∈ dirRest p.2, e.node = t := by
  induction l with
  | nil => simp [cntL] at h
  | cons p l ih =>
    rw [cntL_cons] at h
    by_cases hp : contrib p t = 0
    · rcases ih (by omega) with ⟨q, hq, hd, e, he, ht⟩
      exact ⟨q, List.mem_cons_of_mem p hq, hd, e, he, ht⟩
    · refine ⟨p, List.mem_cons_self p l, ?_, ?_⟩
      · by_contra hd
        simp only [contrib, if_neg hd] at hp
        exact hp trivial
      · have hd : p.2.isdir = true := by
          by_contra hd
          simp only [contrib, if_neg hd] at hp
          exact hp trivial
        simp only [contrib, if_pos hd] at hp
        have hpos : 0 < List.countP (fun e => e.node == t) (dirRest p.2) := by omega
        rcases List.countP_pos_iff.mp hpos with ⟨e, he, hh⟩
        exact ⟨e, he, by simpa using hh⟩

theorem cntL_pos_of_mem {l : List (Iid × Inode)} {i : Iid} {nd : Inode}
    (hmem : (i, nd) ∈ l) (hd : nd.isdir = true) {e : Entry} (he : e ∈ dirRest nd)
    {t : Iid} (ht : e.node = t) : cntL l t ≠ 0 := by
  induction l with
  | nil => cases hmem
  | cons p l ih =>
    rw [cntL_cons]
    rcases List.mem_cons.mp hmem with h1 | h1
    · subst h1
      have : contrib (i, nd) t ≠ 0 := by
        simp only [contrib, if_pos hd]
        have hpos : 0 < List.countP (fun e => e.node == t) (dirRest nd) :=
          List.countP_pos_iff.mpr ⟨e, he, by simpa using ht⟩
        omega
      omega
    · have := ih h1
      omega

/-!  Facts about where `extractPrefix` splits, and how `pathfind` behaves on
the separator-free basename it produces. -/

theorem lastSepIdx_none_iff (path : List Char) : lastSepIdx path = none ↔ sep ∉ path := by
  induction path with
  | nil => simp [lastSepIdx]
  | cons c t ih =>
    simp only [lastSepIdx, List.mem_cons]
    cases ht : lastSepIdx t with
    | some m =>
      constructor
      · intro h
        simp at h
      · intro h
        exfalso
        exact Option.noConfusion (ht ▸ ih.mpr (fun hm => h (Or.inr hm)))
    | none =>
      by_cases hc : c = sep
      · subst hc
        simp
      · rw [if_neg hc]
        constructor
        · intro _
          rintro (h | h)
          · exact hc h.symm
          · exact (ih.mp ht) h
        · intro _
          rfl

theorem lastSepIdx_lt {path : List Char} {n : Nat} (h : lastSepIdx path = some n) :
    n < path.length := by
  induction path generalizing n with
  | nil => simp [lastSepIdx] at h
  | cons c t ih =>
    simp only [lastSepIdx] at h
    cases ht : lastSepIdx t with
    | some m =>
      rw [ht] at h
      simp only [Option.some.injEq] at h
      subst h
      have := ih ht
      simp only [List.length_cons]
      omega
    | none =>
      rw [ht] at h
      by_cases hc : c = sep
      · rw [if_pos hc] at h
        simp only [Option.some.injEq] at h
        subst h
        simp
      · rw [if_neg hc] at h
        cases h

theorem sep_not_mem_drop {path : List Char} {n : Nat} (h : lastSepIdx path = some n) :
    sep ∉ path.drop (n + 1) := by
  induction path generalizing n with
  | nil => simp [lastSepIdx] at h
  | cons c t ih =>
    simp only [lastSepIdx] at h
    cases ht : lastSepIdx t with
    | some m =>
      rw [ht] at h
      simp only [Option.some.injEq] at h
      subst h
      simpa using ih ht
    | none =>
      rw [ht] at h
      by_cases hc : c = sep
      · rw [if_pos hc] at h
        simp only [Option.some.injEq] at h
        subst h
        simpa using (lastSepIdx_none_iff t).mp ht
      · rw [if_neg hc] at h
        cases h

/-- Inversion of a successful `getParentDirectory`: the parent is the live
directory reached by the prefix before the last separator, and the basename is
the separator-free suffix after it. -/
theorem getParentDirectory_ok_inv {s : State} {path : List Char} {root d : Iid}
    {bn : List Char} (h : getParentDirectory s path root = .ok (d, bn)) :
    ∃ n dn, lastSepIdx path = some n ∧ bn = path.drop (n + 1) ∧
      pathfind s (path.take n) root = .ok d ∧ s.find d = some dn ∧ dn.isdir = true := by
  simp only [getParentDirectory, checkPath] at h
  by_cases h0 : path = []
  · simp only [if_pos h0] at h
    exact Res.noConfusion h
  · simp only [if_neg h0] at h
    by_cases h1 : path.head? ≠ some sep
    · simp only [if_pos h1] at h
      exact Res.noConfusion h
    · simp only [if_neg h1, extractPrefix] at h
      cases hn : lastSepIdx path with
      | none =>
        simp only [hn] at h
        exact Res.noConfusion h
      | some n =>
        simp only [hn] at h
        have hlt : n < path.length := lastSepIdx_lt hn
        have hlen : (path.take n).length = n := by
          simp only [List.length_take]
          omega
        rw [hlen] at h
        simp only [sub_self, Int.zero_emod, show ((0 : Int) = 1) = False by norm_num,
          if_false] at h
        cases hpf : pathfind s (path.take n) root with
        | err e =>
          simp only [hpf] at h
          exact Res.noConfusion h
        | ub =>
          simp only [hpf] at h
          exact Res.noConfusion h
        | ok dd =>
          simp only [hpf] at h
          cases hfd : s.find dd with
          | none =>
            simp only [hfd] at h
            exact Res.noConfusion h
          | some dn =>
            simp only [hfd] at h
            by_cases hdir : dn.isdir = true
            · simp only [hdir, Bool.not_true, Bool.false_eq_true, if_false, Res.ok.injEq,
                Prod.mk.injEq] at h
              obtain ⟨hd1, hd2⟩ := h
              subst hd1
              subst hd2
              exact ⟨n, dn, rfl, rfl, hpf, hfd, hdir⟩
            · simp only [Bool.not_eq_true] at hdir
              simp only [hdir, Bool.not_false, if_true] at h
              exact Res.noConfusion h

/-- A successful `getParentDirectory` also pins the basename's shape: it
contains no separator. -/
theorem getParentDirectory_bn_sep {s : State} {path : List Char} {root d : Iid}
    {bn : List Char} (h : getParentDirectory s path root = .ok (d, bn)) : sep ∉ bn := by
  rcases getParentDirectory_ok_inv h with ⟨n, dn, hn, hbn, _, _, _⟩
  rw [hbn]
  exact sep_not_mem_drop hn

theorem compLen_eq_length_of_no_sep {bn : List Char} (h : sep ∉ bn) :
    compLen bn = bn.length := by
  induction bn with
  | nil => rfl
  | cons c t ih =>
    have hc : c ≠ sep := fun he => h (by simp [he])
    simp only [compLen, List.takeWhile_cons]
    rw [if_pos (by simpa using hc)]
    simp only [List.length_cons]
    have := ih (fun hm => h (List.mem_cons_of_mem c hm))
    simp only [compLen] at this
    omega

/-- `pathfind` on a separator-free non-empty basename inside a live directory:
one scan of the entry list, first name match wins. -/
theorem pathfind_single {s : State} {d : Iid} {bn : List Char} (hsep : sep ∉ bn)
    (hne : bn ≠ []) {dn : Inode} (hd : s.find d = some dn) (hdir : dn.isdir = true) :
    pathfind s bn d =
      match dn.entries.find? (fun e => e.name == bn) with
      | none => .err .ENOENT
      | some e => .ok e.node := by
  have hstrip : stripSep bn = bn := by
    cases bn with
    | nil => rfl
    | cons c t =>
      have : c ≠ sep := fun hc => hsep (by simp [hc])
      simp [stripSep, this]
  have hcomp : compLen bn = bn.length := compLen_eq_length_of_no_sep hsep
  rw [pathfind_eq]
  simp only [hstrip, if_neg hne, hd, hdir, Bool.not_true, Bool.false_eq_true, if_false,
    hcomp, List.take_length]
  cases hfind : dn.entries.find? (fun e => e.name == bn) with
  | none => rfl
  | some e =>
    show (if bn.length = 0 then Res.ub else pathfind s (List.drop bn.length bn) e.node) =
      Res.ok e.node
    rw [if_neg (show ¬(bn.length = 0) by simpa using hne), List.drop_length, pathfind_eq]
    simp [stripSep]

/-- `pathfind` on the empty basename returns the start inode. -/
theorem pathfind_nil (s : State) (d : Iid) : pathfind s [] d = .ok d := by
  rw [pathfind_eq]
  simp [stripSep]

/-!  State-level corollaries of the association-list lemmas. -/

theorem find_set_self {s : State} {i : Iid} {o nd : Inode} (h : s.find i = some o) :
    (s.set i nd).find i = some nd :=
  lfind_setf_self h

theorem find_set_ne {s : State} {i j : Iid} (nd : Inode) (h : j ≠ i) :
    (s.set i nd).find j = s.find j :=
  lfind_setf_ne h

theorem find_erase_self (s : State) (i : Iid) : (s.erase i).find i = none :=
  lfind_erasef_self s.inodes i

theorem find_erase_ne {s : State} {i j : Iid} (h : j ≠ i) :
    (s.erase i).find j = s.find j :=
  lfind_erasef_ne h

theorem cnt_set {s : State} (hnd : (keysOf s.inodes).Nodup) {i : Iid} {o : Inode}
    (h : s.find i = some o) (nd : Inode) (t : Iid) :
    cnt (s.set i nd) t + contrib (i, o) t = cnt s t + contrib (i, nd) t :=
  cntL_setf hnd (mem_of_lfind h) nd t

theorem cnt_erase {s : State} (hnd : (keysOf s.inodes).Nodup) {i : Iid} {o : Inode}
    (h : s.find i = some o) (t : Iid) :
    cnt (s.erase i) t + contrib (i, o) t = cnt s t :=
  cntL_erasef hnd (mem_of_lfind h) t

/-- Whether the inode `j` currently references names a directory. -/
def isDirAt (s : State) (j : Iid) : Bool :=
  (s.find j).any Inode.isdir

/-- Number of child subdirectories of a directory record: entries of its child
section whose target is a live directory. -/
def dirChildren (s : State) (nd : Inode) : Nat :=
  (dirRest nd).countP (fun e => isDirAt s e.node)

/-- Number of child subdirectories counted without assuming the list shape:
entries not named `.` or `..` whose target is a live directory.  This is the
claim's reading of "child subdirectories it currently contains". -/
def subdirCount (s : State) (nd : Inode) : Nat :=
  nd.entries.countP
    (fun e => !(e.name == dotName) && !(e.name == ddotName) && isDirAt s e.node)

/-- The inductive invariant of reachable heaps (cf. spec §3): unique live ids
bounded by the allocator; a live directory root 0; every live directory's list
is `.` (to itself), `..` (to a live directory), then its child section, whose
names are never `.`/`..` and whose targets are live; a live child directory's
`..` names exactly the directory holding its one name entry, the root has no
name entry; link counts are 3 + subdirectories for the root, 2 +
subdirectories for other directories, and the number of name entries for
regular files; no open handles. -/
structure Wf (s : State) : Prop where
  nodup : (keysOf s.inodes).Nodup
  bound : ∀ p ∈ s.inodes, p.1 < s.nextId
  rootLive : (s.find 0).any Inode.isdir = true
  dirShape : ∀ p ∈ s.inodes, p.2.isdir = true →
    p.2.entries = { name := dotName, node := p.1 } ::
      { name := ddotName, node := ddotTarget p.2 } :: dirRest p.2
  ddotLive : ∀ p ∈ s.inodes, p.2.isdir = true →
    ((s.find (ddotTarget p.2)).any Inode.isdir) = true
  rootDdot : ∀ p ∈ s.inodes, p.1 = 0 → ddotTarget p.2 = 0
  restName : ∀ p ∈ s.inodes, p.2.isdir = true →
    ∀ e ∈ dirRest p.2, e.name ≠ dotName ∧ e.name ≠ ddotName
  restLive : ∀ p ∈ s.inodes, p.2.isdir = true →
    ∀ e ∈ dirRest p.2, (s.find e.node).isSome = true
  dirTgt : ∀ p ∈ s.inodes, p.2.isdir = true → ∀ e ∈ dirRest p.2,
    ∀ cn, s.find e.node = some cn → cn.isdir = true →
      e.node ≠ 0 ∧ ddotTarget cn = p.1
  dirCnt : ∀ p ∈ s.inodes, p.2.isdir = true → p.1 ≠ 0 → cnt s p.1 = 1
  rootCnt : cnt s 0 = 0
  dirNlink : ∀ p ∈ s.inodes, p.2.isdir = true →
    p.2.nlink = (if p.1 = 0 then 3 else 2) + (dirChildren s p.2 : Int)
  fileNlink : ∀ p ∈ s.inodes, p.2.isdir = false → p.2.nlink = (cnt s p.1 : Int)
  nopenZero : ∀ p ∈ s.inodes, p.2.nopen = 0

theorem wf_fresh : Wf fs0 := by
  constructor <;> decide

/-- Under the list shape and the name discipline, the shape-free subdirectory
count coincides with the child-section count. -/
theorem subdirCount_eq_dirChildren {s : State} {i : Iid} {nd : Inode}
    (hshape : nd.entries = { name := dotName, node := i } ::
      { name := ddotName, node := ddotTarget nd } :: dirRest nd)
    (hname : ∀ e ∈ dirRest nd, e.name ≠ dotName ∧ e.name ≠ ddotName) :
    subdirCount s nd = dirChildren s nd := by
  rw [subdirCount, hshape]
  simp only [List.countP_cons]
  have h1 : (!(({ name := dotName, node := i } : Entry).name == dotName) &&
      !(({ name := dotName, node := i } : Entry).name == ddotName) &&
      isDirAt s ({ name := dotName, node := i } : Entry).node) = false := by
    simp
  have h2 : (!(({ name := ddotName, node := ddotTarget nd } : Entry).name == dotName) &&
      !(({ name := ddotName, node := ddotTarget nd } : Entry).name == ddotName) &&
      isDirAt s ({ name := ddotName, node := ddotTarget nd } : Entry).node) = false := by
    simp
  rw [h1, h2]
  simp only [Bool.false_eq_true, if_false, Nat.add_zero]
  rw [dirChildren, List.countP_congr]
  intro e he
  have := hname e he
  simp [this.1, this.2]

/-- The heaps reachable from a fresh filesystem by successful operations, with
every move moving a regular file under the repository's rename validation.
Creation goes through the bridge wrappers (`ramMknod`, `ramMkdir` with its
`.`/`..` install, `ramLink` which rejects directories); release and move are
the core operations, unrestricted except that the inode a move carries must be
a regular file and the move's paths pass `isValidRename` (the caller duties of
spec §4.5, enforced by `ramRename`). -/
inductive Reach : State → Prop where
  | fresh : Reach fs0
  | mknod (s s' : State) (p : List Char) (f : Iid) :
      Reach s → ramMknod s 0 p = (.ok f, s') → Reach s'
  | mkdir (s s' : State) (p : List Char) (d : Iid) :
      Reach s → ramMkdir s 0 p = (.ok d, s') → Reach s'
  | link (s s' : State) (p q : List Char) (f : Iid) :
      Reach s → ramLink s 0 p q = (.ok f, s') → Reach s'
  | release (s s' : State) (p : List Char) :
      Reach s → releaseNode s p 0 = (.ok (), s') → Reach s'
  | move (s s' : State) (p q : List Char) (f : Iid) (fn : Inode) :
      Reach s → isValidRename p q = true → moveNode s true p q 0 = (.ok f, s') →
      s.find f = some fn → fn.isdir = false → Reach s'

/-- Inversion of a successful `addNode` with a succeeding allocator: the path
split, the failed existence check, and the exact output heap. -/
theorem addNode_ok_inv {s : State} {p : List Char} {root node v : Iid} {s' : State}
    (h : addNode s true p root node = (.ok v, s')) :
    v = node ∧ ∃ d bn dn e nn,
      getParentDirectory s p root = .ok (d, bn) ∧
      pathfind s bn d = .err e ∧
      s.find d = some dn ∧ dn.entries ≠ [] ∧
      (s.set d { dn with entries := dn.entries ++ [{ name := bn, node := node }] }).find node
        = some nn ∧
      s' = (s.set d { dn with entries := dn.entries ++ [{ name := bn, node := node }] }).set
        node { nn with
          nlink := nn.nlink + 1,
          parent := if nn.parent = none then some d else nn.parent } := by
  cases hgp : getParentDirectory s p root with
  | err e =>
    simp only [addNode, hgp] at h
    exact Res.noConfusion (congrArg Prod.fst h)
  | ub =>
    simp only [addNode, hgp] at h
    exact Res.noConfusion (congrArg Prod.fst h)
  | ok df =>
    obtain ⟨d, bn⟩ := df
    cases hpf : pathfind s bn d with
    | ok t =>
      simp only [addNode, hgp, hpf] at h
      exact Res.noConfusion (congrArg Prod.fst h)
    | ub =>
      simp only [addNode, hgp, hpf] at h
      exact Res.noConfusion (congrArg Prod.fst h)
    | err e =>
      cases hfd : s.find d with
      | none =>
        simp only [addNode, hgp, hpf, hfd] at h
        exact Res.noConfusion (congrArg Prod.fst h)
      | some dn =>
        cases hl : dn.entries with
        | nil =>
          simp only [addNode, hgp, hpf, hfd, hl, addEntry] at h
          exact Res.noConfusion (congrArg Prod.fst h)
        | cons c t2 =>
          cases hfn : (s.set d { dn with entries := dn.entries ++
              [{ name := bn, node := node }] }).find node with
          | none =>
            rw [hl] at hfn
            simp only [List.cons_append] at hfn
            simp only [addNode, hgp, hpf, hfd, hl, addEntry, Bool.not_true,
              Bool.false_eq_true, if_false, List.cons_append, hfn] at h
            exact Res.noConfusion (congrArg Prod.fst h)
          | some nn =>
            have hfn' := hfn
            rw [hl] at hfn'
            simp only [List.cons_append] at hfn'
            simp only [addNode, hgp, hpf, hfd, hl, addEntry, Bool.not_true,
              Bool.false_eq_true, if_false, List.cons_append, hfn', Prod.mk.injEq] at h
            obtain ⟨hv, hs⟩ := h
            cases hv
            refine ⟨rfl, d, bn, dn, e, nn, rfl, hpf, hfd, by simp [hl], hfn, ?_⟩
            rw [← hs]
            rw [hl]
            simp [List.cons_append]

/-- Names of dot and dot-dot differ from any separator-free name that fails
the existence check; packaged facts about the appended entry's name. -/
theorem bn_not_dot {s : State} {d : Iid} {bn : List Char} {dn : Inode}
    (hfd : s.find d = some dn) (hdir : dn.isdir = true)
    (hshape : dn.entries = { name := dotName, node := d } ::
      { name := ddotName, node := ddotTarget dn } :: dirRest dn)
    (hnone : dn.entries.find? (fun e => e.name == bn) = none) :
    bn ≠ dotName ∧ bn ≠ ddotName := by
  rw [List.find?_eq_none] at hnone
  constructor
  · intro he
    have := hnone { name := dotName, node := d } (by rw [hshape]; exact List.mem_cons_self _ _)
    simp [he] at this
  · intro he
    have := hnone { name := ddotName, node := ddotTarget dn }
      (by rw [hshape]; exact List.mem_cons_of_mem _ (List.mem_cons_self _ _))
    simp [he] at this

/-- The failed existence check of `addNode` means no entry of the parent is
named `bn`. -/
theorem no_entry_named {s : State} {d : Iid} {bn : List Char} {dn : Inode} {e : Errno}
    (hsep : sep ∉ bn) (hne : bn ≠ []) (hfd : s.find d = some dn) (hdir : dn.isdir = true)
    (hpf : pathfind s bn d = .err e) :
    dn.entries.find? (fun x => x.name == bn) = none := by
  have hsingle := pathfind_single hsep hne hfd hdir
  rw [hpf] at hsingle
  cases hq : dn.entries.find? (fun x => x.name == bn) with
  | none => rfl
  | some x =>
    rw [hq] at hsingle
    exact Res.noConfusion hsingle

/-- Reading the `..` target off an explicit list shape. -/
theorem ddotTarget_of_shape {nd : Inode} {a b : Entry} {r : List Entry}
    (h : nd.entries = a :: b :: r) : ddotTarget nd = b.node := by
  unfold ddotTarget
  rw [h]

theorem wf_addNode_file {s : State} (hwf : Wf s) {p : List Char} {node v : Iid} {s' : State}
    (h : addNode s true p 0 node = (.ok v, s'))
    {fn : Inode} (hnode : s.find node = some fn) (hfile : fn.isdir = false) :
    Wf s' := by
  rcases addNode_ok_inv h with ⟨hv, d, bn, dn, e, nn, hgp, hpf, hfd, hnonempty, hfn, hs'⟩
  have hdir : dn.isdir = true := by
    rcases getParentDirectory_ok_inv hgp with ⟨n, dn2, _, _, _, hfd2, hdir2⟩
    rw [hfd] at hfd2
    cases hfd2
    exact hdir2
  have hnd : node ≠ d := by
    intro he
    rw [he, hfd] at hnode
    cases hnode
    rw [hfile] at hdir
    cases hdir
  have hsep : sep ∉ bn := getParentDirectory_bn_sep hgp
  have hbne : bn ≠ [] := by
    intro he
    rw [he, pathfind_nil] at hpf
    exact Res.noConfusion hpf
  have hshape : dn.entries = { name := dotName, node := d } ::
      { name := ddotName, node := ddotTarget dn } :: dirRest dn :=
    hwf.dirShape (d, dn) (mem_of_lfind hfd) hdir
  have hnone := no_entry_named hsep hbne hfd hdir hpf
  have hbn := bn_not_dot hfd hdir hshape hnone
  have hnn : nn = fn := by
    rw [find_set_ne _ hnd, hnode] at hfn
    cases hfn
    rfl
  subst hnn
  -- the two written records
  set newE : Entry := { name := bn, node := node } with hnewE
  set dn' : Inode := { dn with entries := dn.entries ++ [newE] } with hdn'
  set nn' : Inode := { nn with
    nlink := nn.nlink + 1,
    parent := if nn.parent = none then some d else nn.parent } with hnn'
  have hkeys : keysOf s'.inodes = keysOf s.inodes := by
    rw [hs']
    show keysOf (setf (setf s.inodes d dn') node nn') = keysOf s.inodes
    rw [keysOf_setf, keysOf_setf]
  have hnodup' : (keysOf s'.inodes).Nodup := hkeys ▸ hwf.nodup
  have hnext : s'.nextId = s.nextId := by rw [hs']; rfl
  have hAfindd : (s.set d dn').find d = some dn' := find_set_self hfd
  have hfind' : ∀ j, s'.find j =
      if j = node then some nn' else if j = d then some dn' else s.find j := by
    intro j
    by_cases hj1 : j = node
    · subst hj1
      rw [if_pos rfl, hs']
      exact find_set_self hfn
    · rw [if_neg hj1]
      by_cases hj2 : j = d
      · subst hj2
        rw [if_pos rfl, hs', find_set_ne _ hj1]
        exact hAfindd
      · rw [if_neg hj2, hs', find_set_ne _ hj1, find_set_ne _ hj2]
  have hIsDirAt : ∀ j, isDirAt s' j = isDirAt s j := by
    intro j
    rw [isDirAt, isDirAt, hfind' j]
    by_cases hj1 : j = node
    · subst hj1
      rw [if_pos rfl, hnode]
      simp only [Option.any_some]
    · rw [if_neg hj1]
      by_cases hj2 : j = d
      · subst hj2
        rw [if_pos rfl, hfd]
        rfl
      · rw [if_neg hj2]
  have hChild : ∀ m : Inode, dirChildren s' m = dirChildren s m := by
    intro m
    rw [dirChildren, dirChildren]
    exact List.countP_congr (fun x _ => by rw [hIsDirAt x.node])
  have hlen2 : 2 ≤ dn.entries.length := by
    rw [hshape]
    simp
  have hentries' : dn'.entries = { name := dotName, node := d } ::
      { name := ddotName, node := ddotTarget dn } :: (dirRest dn ++ [newE]) := by
    show dn.entries ++ [newE] = _
    rw [hshape]
    simp
  have hddotT : ddotTarget dn' = ddotTarget dn := by
    rw [ddotTarget_of_shape hentries']
  have hrest' : dirRest dn' = dirRest dn ++ [newE] := by
    rw [dirRest, dirRest, show dn'.entries = dn.entries ++ [newE] from rfl,
      List.drop_append_of_le_length hlen2]
  have hcnt : ∀ t, cnt s' t = cnt s t + (if node = t then 1 else 0) := by
    intro t
    have hAnodup : (keysOf (s.set d dn').inodes).Nodup := by
      show (keysOf (setf s.inodes d dn')).Nodup
      rw [keysOf_setf]
      exact hwf.nodup
    have hc1 : cnt (s.set d dn') t + contrib (d, dn) t =
        cnt s t + contrib (d, dn') t := cnt_set hwf.nodup hfd dn' t
    have hc2 : cnt s' t + contrib (node, nn) t =
        cnt (s.set d dn') t + contrib (node, nn') t := by
      rw [hs']
      exact cnt_set hAnodup hfn nn' t
    have hcc : contrib (node, nn') t = contrib (node, nn) t := rfl
    have hcd : contrib (d, dn') t = contrib (d, dn) t + (if node = t then 1 else 0) := by
      simp only [contrib, show dn'.isdir = dn.isdir from rfl, hdir, if_true, hrest',
        List.countP_append]
      congr 1
      simp only [List.countP_cons, List.countP_nil, Nat.zero_add]
      by_cases hnt : node = t
      · simp [hnewE, hnt]
      · simp [hnewE, hnt]
    rw [hcc] at hc2
    omega
  have hnode0 : node ≠ 0 := by
    intro he
    have := hwf.rootLive
    rw [← he, hnode] at this
    simp only [Option.any_some] at this
    rw [hfile] at this
    cases this
  constructor
  · exact hnodup'
  · rintro ⟨qi, qn⟩ hq
    rw [hnext]
    have : qi ∈ keysOf s.inodes := by
      rw [← hkeys]
      exact List.mem_map.mpr ⟨(qi, qn), hq, rfl⟩
    rcases List.mem_map.mp this with ⟨r, hr, hre⟩
    rw [← hre]
    exact hwf.bound r hr
  · show (s'.find 0).any Inode.isdir = true
    have := hIsDirAt 0
    rw [isDirAt, isDirAt] at this
    rw [this]
    exact hwf.rootLive
  · rintro ⟨qi, qn⟩ hq hqdir
    have hqf : s'.find qi = some qn := lfind_eq_some_of_mem hnodup' hq
    rw [hfind' qi] at hqf
    by_cases hj1 : qi = node
    · rw [if_pos hj1] at hqf
      cases hqf
      rw [show nn'.isdir = nn.isdir from rfl, hfile] at hqdir
      cases hqdir
    · rw [if_neg hj1] at hqf
      by_cases hj2 : qi = d
      · rw [if_pos hj2] at hqf
        cases hqf
        show dn'.entries = { name := dotName, node := qi } ::
          { name := ddotName, node := ddotTarget dn' } :: dirRest dn'
        rw [hddotT, hrest', show dn'.entries = dn.entries ++ [newE] from rfl, hshape, hj2]
        simp
      · rw [if_neg hj2] at hqf
        exact hwf.dirShape (qi, qn) (mem_of_lfind hqf) hqdir
  · rintro ⟨qi, qn⟩ hq hqdir
    have hqf : s'.find qi = some qn := lfind_eq_some_of_mem hnodup' hq
    rw [hfind' qi] at hqf
    show isDirAt s' (ddotTarget qn) = true
    rw [hIsDirAt]
    by_cases hj1 : qi = node
    · rw [if_pos hj1] at hqf
      cases hqf
      rw [show nn'.isdir = nn.isdir from rfl, hfile] at hqdir
      cases hqdir
    · rw [if_neg hj1] at hqf
      by_cases hj2 : qi = d
      · rw [if_pos hj2] at hqf
        cases hqf
        rw [show ddotTarget dn' = ddotTarget dn from hddotT]
        exact hwf.ddotLive (d, dn) (mem_of_lfind hfd) hdir
      · rw [if_neg hj2] at hqf
        exact hwf.ddotLive (qi, qn) (mem_of_lfind hqf) hqdir
  · rintro ⟨qi, qn⟩ hq hq0
    have hq0' : qi = 0 := hq0
    have hqf : s'.find qi = some qn := lfind_eq_some_of_mem hnodup' hq
    rw [hfind' qi, hq0'] at hqf
    rw [if_neg (fun he => hnode0 he.symm)] at hqf
    by_cases hj2 : (0 : Iid) = d
    · rw [if_pos hj2] at hqf
      cases hqf
      show ddotTarget dn' = 0
      rw [hddotT]
      exact hwf.rootDdot (d, dn) (mem_of_lfind hfd) hj2.symm
    · rw [if_neg hj2] at hqf
      exact hwf.rootDdot (qi, qn) (mem_of_lfind (hq0' ▸ hqf)) hq0'
  · rintro ⟨qi, qn⟩ hq hqdir x hx
    have hqf : s'.find qi = some qn := lfind_eq_some_of_mem hnodup' hq
    rw [hfind' qi] at hqf
    by_cases hj1 : qi = node
    · rw [if_pos hj1] at hqf
      cases hqf
      rw [show nn'.isdir = nn.isdir from rfl, hfile] at hqdir
      cases hqdir
    · rw [if_neg hj1] at hqf
      by_cases hj2 : qi = d
      · rw [if_pos hj2] at hqf
        cases hqf
        rw [hrest'] at hx
        rcases List.mem_append.mp hx with hx | hx
        · exact hwf.restName (d, dn) (mem_of_lfind hfd) hdir x hx
        · rw [List.mem_singleton] at hx
          subst hx
          exact hbn
      · rw [if_neg hj2] at hqf
        exact hwf.restName (qi, qn) (mem_of_lfind hqf) hqdir x hx
  · rintro ⟨qi, qn⟩ hq hqdir x hx
    have hqf : s'.find qi = some qn := lfind_eq_some_of_mem hnodup' hq
    rw [hfind' qi] at hqf
    have hLive : ∀ j, (s.find j).isSome = true → (s'.find j).isSome = true := by
      intro j hj
      rw [hfind' j]
      by_cases hj1 : j = node
      · simp [hj1]
      · rw [if_neg hj1]
        by_cases hj2 : j = d
        · simp [hj2]
        · rw [if_neg hj2]
          exact hj
    by_cases hj1 : qi = node
    · rw [if_pos hj1] at hqf
      cases hqf
      rw [show nn'.isdir = nn.isdir from rfl, hfile] at hqdir
      cases hqdir
    · rw [if_neg hj1] at hqf
      by_cases hj2 : qi = d
      · rw [if_pos hj2] at hqf
        cases hqf
        rw [hrest'] at hx
        rcases List.mem_append.mp hx with hx | hx
        · exact hLive _ (hwf.restLive (d, dn) (mem_of_lfind hfd) hdir x hx)
        · rw [List.mem_singleton] at hx
          subst hx
          rw [hfind' newE.node, show newE.node = node from rfl, if_pos rfl]
          rfl
      · rw [if_neg hj2] at hqf
        exact hLive _ (hwf.restLive (qi, qn) (mem_of_lfind hqf) hqdir x hx)
  · rintro ⟨qi, qn⟩ hq hqdir x hx cn hcn hcndir
    have hqf : s'.find qi = some qn := lfind_eq_some_of_mem hnodup' hq
    rw [hfind' qi] at hqf
    rw [hfind' x.node] at hcn
    by_cases hxn : x.node = node
    · rw [if_pos hxn] at hcn
      cases hcn
      rw [show nn'.isdir = nn.isdir from rfl, hfile] at hcndir
      cases hcndir
    · rw [if_neg hxn] at hcn
      by_cases hj1 : qi = node
      · rw [if_pos hj1] at hqf
        cases hqf
        rw [show nn'.isdir = nn.isdir from rfl, hfile] at hqdir
        cases hqdir
      · rw [if_neg hj1] at hqf
        by_cases hxd : x.node = d
        · rw [if_pos hxd] at hcn
          cases hcn
          by_cases hj2 : qi = d
          · rw [if_pos hj2] at hqf
            cases hqf
            rw [hrest'] at hx
            rcases List.mem_append.mp hx with hx | hx
            · have := hwf.dirTgt (d, dn) (mem_of_lfind hfd) hdir x hx dn
                (hxd ▸ hfd) hdir
              rw [hddotT]
              exact ⟨this.1, hj2 ▸ this.2⟩
            · rw [List.mem_singleton] at hx
              subst hx
              exact absurd hxn (by simp [hnewE])
          · rw [if_neg hj2] at hqf
            have := hwf.dirTgt (qi, qn) (mem_of_lfind hqf) hqdir x hx dn (hxd ▸ hfd) hdir
            rw [hddotT]
            exact this
        · rw [if_neg hxd] at hcn
          by_cases hj2 : qi = d
          · rw [if_pos hj2] at hqf
            cases hqf
            rw [hrest'] at hx
            rcases List.mem_append.mp hx with hx | hx
            · exact hwf.dirTgt (d, dn) (mem_of_lfind hfd) hdir x hx cn hcn hcndir
              |>.imp id (fun hh => hj2 ▸ hh)
            · rw [List.mem_singleton] at hx
              subst hx
              exact absurd rfl hxn
          · rw [if_neg hj2] at hqf
            exact hwf.dirTgt (qi, qn) (mem_of_lfind hqf) hqdir x hx cn hcn hcndir
  · rintro ⟨qi, qn⟩ hq hqdir hq0
    have hqf : s'.find qi = some qn := lfind_eq_some_of_mem hnodup' hq
    rw [hfind' qi] at hqf
    rw [hcnt qi]
    by_cases hj1 : qi = node
    · rw [if_pos hj1] at hqf
      cases hqf
      rw [show nn'.isdir = nn.isdir from rfl, hfile] at hqdir
      cases hqdir
    · rw [if_neg hj1] at hqf
      rw [if_neg (fun he => hj1 he.symm)]
      by_cases hj2 : qi = d
      · rw [if_pos hj2] at hqf
        cases hqf
        rw [hj2]
        have h2 : cnt s d = 1 := hwf.dirCnt (d, dn) (mem_of_lfind hfd) hdir (hj2 ▸ hq0)
        omega
      · rw [if_neg hj2] at hqf
        have h2 : cnt s qi = 1 := hwf.dirCnt (qi, qn) (mem_of_lfind hqf) hqdir hq0
        omega
  · rw [hcnt 0, if_neg hnode0, hwf.rootCnt]
  · rintro ⟨qi, qn⟩ hq hqdir
    have hqf : s'.find qi = some qn := lfind_eq_some_of_mem hnodup' hq
    rw [hfind' qi] at hqf
    rw [hChild qn]
    by_cases hj1 : qi = node
    · rw [if_pos hj1] at hqf
      cases hqf
      rw [show nn'.isdir = nn.isdir from rfl, hfile] at hqdir
      cases hqdir
    · rw [if_neg hj1] at hqf
      by_cases hj2 : qi = d
      · rw [if_pos hj2] at hqf
        cases hqf
        have hch : dirChildren s dn' = dirChildren s dn := by
          rw [dirChildren, dirChildren, hrest', List.countP_append]
          have hi : isDirAt s node = false := by
            simp [isDirAt, hnode, hfile]
          have : List.countP (fun e => isDirAt s e.node) [newE] = 0 := by
            simp [hnewE, hi]
          omega
        rw [hch, hj2]
        exact hwf.dirNlink (d, dn) (mem_of_lfind hfd) hdir
      · rw [if_neg hj2] at hqf
        exact hwf.dirNlink (qi, qn) (mem_of_lfind hqf) hqdir
  · rintro ⟨qi, qn⟩ hq hqfile
    have hqf : s'.find qi = some qn := lfind_eq_some_of_mem hnodup' hq
    rw [hfind' qi] at hqf
    rw [hcnt qi]
    by_cases hj1 : qi = node
    · rw [if_pos hj1] at hqf
      cases hqf
      rw [if_pos hj1.symm]
      have h2 : nn.nlink = (cnt s node : Int) :=
        hwf.fileNlink (node, nn) (mem_of_lfind hnode) hfile
      show nn.nlink + 1 = ((cnt s qi + 1 : Nat) : Int)
      rw [h2, hj1]
      push_cast
      ring
    · rw [if_neg hj1] at hqf
      rw [if_neg (fun he => hj1 he.symm), Nat.add_zero]
      by_cases hj2 : qi = d
      · rw [if_pos hj2] at hqf
        cases hqf
        rw [show dn'.isdir = dn.isdir from rfl, hdir] at hqfile
        cases hqfile
      · rw [if_neg hj2] at hqf
        exact hwf.fileNlink (qi, qn) (mem_of_lfind hqf) hqfile
  · rintro ⟨qi, qn⟩ hq
    have hqf : s'.find qi = some qn := lfind_eq_some_of_mem hnodup' hq
    rw [hfind' qi] at hqf
    by_cases hj1 : qi = node
    · rw [if_pos hj1] at hqf
      cases hqf
      show nn.nopen = 0
      exact hwf.nopenZero (node, nn) (mem_of_lfind hnode)
    · rw [if_neg hj1] at hqf
      by_cases hj2 : qi = d
      · rw [if_pos hj2] at hqf
        cases hqf
        show dn.nopen = 0
        exact hwf.nopenZero (d, dn) (mem_of_lfind hfd)
      · rw [if_neg hj2] at hqf
        exact hwf.nopenZero (qi, qn) (mem_of_lfind hqf)

/-!  Allocation lemmas: before the `calloc` the fresh id is dead, lookups of
other ids pass through the extended heap, and a record with an empty child
section contributes no name edges. -/

theorem keysOf_append (l l2 : List (Iid × Inode)) :
    keysOf (l ++ l2) = keysOf l ++ keysOf l2 := List.map_append _ _ _

theorem find_nextId_none {s : State} (hb : ∀ p ∈ s.inodes, p.1 < s.nextId) :
    s.find s.nextId = none := by
  rw [state_find_eq, lfind_eq_none_iff]
  intro p hp he
  exact absurd (he ▸ hb p hp) (lt_irrefl _)

theorem find_alloc {s : State} (hb : ∀ p ∈ s.inodes, p.1 < s.nextId) (nd : Inode) (j : Iid) :
    (s.alloc nd).2.find j = if j = s.nextId then some nd else s.find j := by
  by_cases hj : j = s.nextId
  · subst hj
    rw [if_pos rfl]
    show lfind (s.inodes ++ [(s.nextId, nd)]) s.nextId = some nd
    rw [lfind_append_of_none (find_nextId_none hb), lfind_cons_of_pos rfl]
  · rw [if_neg hj]
    show lfind (s.inodes ++ [(s.nextId, nd)]) j = s.find j
    cases hf : s.find j with
    | some o => exact lfind_append_of_some hf
    | none =>
      rw [lfind_append_of_none hf, lfind_cons_of_neg (fun he => hj he.symm)]
      rfl

theorem cnt_alloc (s : State) (nd : Inode) (t : Iid) :
    cnt (s.alloc nd).2 t = cnt s t + contrib (s.nextId, nd) t := by
  show cntL (s.inodes ++ [(s.nextId, nd)]) t = _
  rw [cntL_append, cntL_cons]
  show cntL s.inodes t + (contrib (s.nextId, nd) t + cntL [] t) =
    cntL s.inodes t + contrib (s.nextId, nd) t
  simp [cntL]

/-- A dead id has no name edges into it: every child-section entry of a live
directory targets a live inode. -/
theorem cnt_dead_zero {s : State} (hwf : Wf s) {t : Iid} (hd : s.find t = none) :
    cnt s t = 0 := by
  by_contra h
  have h' : cntL s.inodes t ≠ 0 := h
  rcases cntL_pos h' with ⟨p, hp, hdir, e, he, ht⟩
  have := hwf.restLive p hp hdir e he
  rw [ht, hd] at this
  cases this

/-- When `t` has no name edges, no child-section entry of any live directory
references it. -/
theorem no_edge_of_cnt_zero {s : State} {t : Iid} (hz : cnt s t = 0) {i : Iid} {nd : Inode}
    (hmem : (i, nd) ∈ s.inodes) (hdir : nd.isdir = true) {e : Entry} (he : e ∈ dirRest nd) :
    e.node ≠ t := fun ht => cntL_pos_of_mem hmem hdir he ht hz

/-- Decomposition of a successful linear search: the first match splits the
list, everything before it failing the test. -/
theorem find_decomp {α : Type} {p : α → Bool} {l : List α} {e : α}
    (h : l.find? p = some e) :
    ∃ pre post, l = pre ++ e :: post ∧ (∀ x ∈ pre, p x = false) ∧ p e = true := by
  induction l with
  | nil => cases h
  | cons a t ih =>
    cases hp : p a with
    | true =>
      rw [List.find?_cons_of_pos t hp] at h
      cases h
      exact ⟨[], t, rfl, fun x hx => absurd hx (List.not_mem_nil x), hp⟩
    | false =>
      rw [List.find?_cons_of_neg t (by simp [hp])] at h
      rcases ih h with ⟨pre, post, hl, hpre, he⟩
      refine ⟨a :: pre, post, by rw [hl, List.cons_append], ?_, he⟩
      intro x hx
      rcases List.mem_cons.mp hx with h1 | h1
      · rw [h1]; exact hp
      · exact hpre x h1

/-- The zeroed regular-file record `ramMknod` allocates. -/
def freshFile : Inode :=
  { isdir := false, nlink := 0, nopen := 0, entries := [], parent := none, traversing := false }

/-- `calloc` of a fresh regular-file record (all fields zero, as `ramMknod`
builds it) preserves the invariant: the new id is referenced nowhere, matching
its zero link count. -/
theorem wf_alloc_file {s : State} (hwf : Wf s) :
    Wf (s.alloc freshFile).2 := by
  set fresh : Inode := freshFile with hfresh
  set s1 := (s.alloc fresh).2 with hs1
  have hfind1 : ∀ j, s1.find j = if j = s.nextId then some fresh else s.find j :=
    find_alloc hwf.bound fresh
  have hdead : s.find s.nextId = none := find_nextId_none hwf.bound
  have h0 : (0 : Iid) ≠ s.nextId := by
    intro he
    have := hwf.rootLive
    rw [he, hdead] at this
    cases this
  have hIsDirAt : ∀ j, isDirAt s1 j = isDirAt s j := by
    intro j
    rw [isDirAt, isDirAt, hfind1 j]
    by_cases hj : j = s.nextId
    · rw [if_pos hj, hj, hdead]
      rfl
    · rw [if_neg hj]
  have hcnt : ∀ t, cnt s1 t = cnt s t := by
    intro t
    rw [hs1, cnt_alloc]
    simp [contrib, hfresh, freshFile]
  have hChild : ∀ m : Inode, dirChildren s1 m = dirChildren s m := by
    intro m
    rw [dirChildren, dirChildren]
    exact List.countP_congr (fun x _ => by rw [hIsDirAt x.node])
  have hmem1 : ∀ p : Iid × Inode, p ∈ s1.inodes → p ∈ s.inodes ∨ p = (s.nextId, fresh) := by
    intro p hp
    have hp' : p ∈ s.inodes ++ [(s.nextId, fresh)] := hp
    rcases List.mem_append.mp hp' with h1 | h1
    · exact Or.inl h1
    · exact Or.inr (List.mem_singleton.mp h1)
  have hmemS : ∀ p : Iid × Inode, p ∈ s.inodes → p ∈ s1.inodes := by
    intro p hp
    show p ∈ s.inodes ++ [(s.nextId, fresh)]
    exact List.mem_append.mpr (Or.inl hp)
  have hLive : ∀ j, (s.find j).isSome = true → (s1.find j).isSome = true := by
    intro j hj
    rw [hfind1 j]
    by_cases hjn : j = s.nextId
    · rw [if_pos hjn]; rfl
    · rw [if_neg hjn]; exact hj
  have hkeys : keysOf s1.inodes = keysOf s.inodes ++ [s.nextId] := by
    rw [hs1]
    show keysOf (s.inodes ++ [(s.nextId, fresh)]) = _
    rw [keysOf_append]
    rfl
  constructor
  · rw [hkeys]
    apply List.Nodup.append hwf.nodup (List.nodup_singleton _)
    intro a ha hb
    rw [List.mem_singleton] at hb
    subst hb
    rcases List.mem_map.mp ha with ⟨q, hq, hqe⟩
    exact absurd (hqe ▸ hwf.bound q hq) (lt_irrefl _)
  · intro p hp
    have hn1 : s1.nextId = s.nextId + 1 := rfl
    rw [hn1]
    rcases hmem1 p hp with h1 | h1
    · exact Nat.lt_succ_of_lt (hwf.bound p h1)
    · rw [h1]
      exact Nat.lt_succ_self _
  · show (s1.find 0).any Inode.isdir = true
    rw [hfind1 0, if_neg h0]
    exact hwf.rootLive
  · rintro ⟨qi, qn⟩ hq hqdir
    rcases hmem1 _ hq with h1 | h1
    · exact hwf.dirShape (qi, qn) h1 hqdir
    · cases h1
      exact Bool.noConfusion hqdir
  · rintro ⟨qi, qn⟩ hq hqdir
    rcases hmem1 _ hq with h1 | h1
    · show isDirAt s1 (ddotTarget qn) = true
      rw [hIsDirAt]
      exact hwf.ddotLive (qi, qn) h1 hqdir
    · cases h1
      exact Bool.noConfusion hqdir
  · rintro ⟨qi, qn⟩ hq hq0
    rcases hmem1 _ hq with h1 | h1
    · exact hwf.rootDdot (qi, qn) h1 hq0
    · cases h1
      exact absurd (show (0 : Iid) = s.nextId from hq0.symm ▸ rfl) h0
  · rintro ⟨qi, qn⟩ hq hqdir x hx
    rcases hmem1 _ hq with h1 | h1
    · exact hwf.restName (qi, qn) h1 hqdir x hx
    · cases h1
      exact Bool.noConfusion hqdir
  · rintro ⟨qi, qn⟩ hq hqdir x hx
    rcases hmem1 _ hq with h1 | h1
    · exact hLive _ (hwf.restLive (qi, qn) h1 hqdir x hx)
    · cases h1
      exact Bool.noConfusion hqdir
  · rintro ⟨qi, qn⟩ hq hqdir x hx cn hcn hcndir
    rcases hmem1 _ hq with h1 | h1
    · rw [hfind1 x.node] at hcn
      by_cases hxn : x.node = s.nextId
      · rw [if_pos hxn] at hcn
        cases hcn
        exact Bool.noConfusion hcndir
      · rw [if_neg hxn] at hcn
        exact hwf.dirTgt (qi, qn) h1 hqdir x hx cn hcn hcndir
    · cases h1
      exact Bool.noConfusion hqdir
  · rintro ⟨qi, qn⟩ hq hqdir hq0
    rcases hmem1 _ hq with h1 | h1
    · rw [hcnt qi]
      exact hwf.dirCnt (qi, qn) h1 hqdir hq0
    · cases h1
      exact Bool.noConfusion hqdir
  · rw [hcnt 0]
    exact hwf.rootCnt
  · rintro ⟨qi, qn⟩ hq hqdir
    rcases hmem1 _ hq with h1 | h1
    · rw [hChild qn]
      exact hwf.dirNlink (qi, qn) h1 hqdir
    · cases h1
      exact Bool.noConfusion hqdir
  · rintro ⟨qi, qn⟩ hq hqfile
    rcases hmem1 _ hq with h1 | h1
    · rw [hcnt qi]
      exact hwf.fileNlink (qi, qn) h1 hqfile
    · cases h1
      show fresh.nlink = ((cnt s1 s.nextId : Nat) : Int)
      rw [hcnt s.nextId, cnt_dead_zero hwf hdead]
      rfl
  · rintro ⟨qi, qn⟩ hq
    rcases hmem1 _ hq with h1 | h1
    · exact hwf.nopenZero (qi, qn) h1
    · cases h1
      rfl

/-- `ramMknod` preserves the invariant: it is exactly an allocation of a fresh
zeroed file record followed by a file `addNode`. -/
theorem wf_mknod {s : State} (hwf : Wf s) {p : List Char} {f : Iid} {s' : State}
    (h : ramMknod s 0 p = (.ok f, s')) : Wf s' := by
  have h' : addNode (s.alloc freshFile).2 true p 0 s.nextId = (.ok f, s') := h
  exact wf_addNode_file (wf_alloc_file hwf) h'
    (show (s.alloc freshFile).2.find s.nextId = some freshFile by
      rw [find_alloc hwf.bound, if_pos rfl]) rfl

/-- `ramLink` preserves the invariant: the source resolves to a live
non-directory (directories are refused with `EPERM`), so the underlying
`addNode` links a regular file. -/
theorem wf_link {s : State} (hwf : Wf s) {p q : List Char} {f : Iid} {s' : State}
    (h : ramLink s 0 p q = (.ok f, s')) : Wf s' := by
  cases hpf : pathfind s p 0 with
  | err e =>
    simp only [ramLink, hpf] at h
    exact Res.noConfusion (congrArg Prod.fst h)
  | ub =>
    simp only [ramLink, hpf] at h
    exact Res.noConfusion (congrArg Prod.fst h)
  | ok node =>
    cases hfn : s.find node with
    | none =>
      simp only [ramLink, hpf, hfn] at h
      exact Res.noConfusion (congrArg Prod.fst h)
    | some nd =>
      cases hdir : nd.isdir with
      | true =>
        simp only [ramLink, hpf, hfn, hdir, if_true] at h
        exact Res.noConfusion (congrArg Prod.fst h)
      | false =>
        simp only [ramLink, hpf, hfn, hdir, Bool.false_eq_true, if_false] at h
        exact wf_addNode_file hwf h hfn hdir


/-- The zeroed directory record `ramMkdir` allocates. -/
def freshDir : Inode :=
  { isdir := true, nlink := 0, nopen := 0, entries := [], parent := none, traversing := false }

/-- The fresh directory right after its `addNode`: one link, parent recorded. -/
def dirInit (dpar : Iid) : Inode :=
  { isdir := true, nlink := 1, nopen := 0, entries := [], parent := some dpar,
    traversing := false }

/-- The fresh directory after `ramMkdir` installs its `.` and `..`. -/
def dirFinal (d dpar : Iid) : Inode :=
  { isdir := true, nlink := 2, nopen := 0,
    entries := [{ name := dotName, node := d }, { name := ddotName, node := dpar }],
    parent := some dpar, traversing := false }

theorem ramMkdir_ok_inv {s : State} (hwf : Wf s) {p : List Char} {d0 : Iid} {s' : State}
    (h : ramMkdir s 0 p = (.ok d0, s')) :
    d0 = s.nextId ∧ ∃ dpar bn dn e,
      getParentDirectory (s.alloc freshDir).2 p 0 = .ok (dpar, bn) ∧
      pathfind (s.alloc freshDir).2 bn dpar = .err e ∧
      dpar ≠ s.nextId ∧
      (s.alloc freshDir).2.find dpar = some dn ∧ dn.entries ≠ [] ∧
      s' = ((((s.alloc freshDir).2.set dpar
          { dn with entries := dn.entries ++ [{ name := bn, node := s.nextId }] }).set
          s.nextId (dirInit dpar)).set dpar
          { dn with
            entries := dn.entries ++ [{ name := bn, node := s.nextId }],
            nlink := dn.nlink + 1 }).set s.nextId (dirFinal s.nextId dpar) := by
  simp only [ramMkdir, State.alloc] at h
  cases ha : addNode { inodes := s.inodes ++ [(s.nextId,
      { isdir := true, nlink := 0, nopen := 0, entries := [], parent := none,
        traversing := false })], nextId := s.nextId + 1 } true p 0 s.nextId with
  | mk r s2 =>
    rw [ha] at h
    cases r with
    | err e2 => exact Res.noConfusion (congrArg Prod.fst h)
    | ub => exact Res.noConfusion (congrArg Prod.fst h)
    | ok v =>
      have ha2 : addNode (s.alloc freshDir).2 true p 0 s.nextId = (.ok v, s2) := ha
      rcases addNode_ok_inv ha2 with ⟨hv, dpar, bn, dn, e, nn, hgp, hpf, hfd, hne, hfn, hs2⟩
      subst hv
      have hfind_nid : (s.alloc freshDir).2.find s.nextId = some freshDir := by
        rw [find_alloc hwf.bound freshDir s.nextId, if_pos rfl]
      have hdparne : dpar ≠ s.nextId := by
        intro he
        rw [he, hfind_nid] at hfd
        cases hfd
        exact hne rfl
      have hnidne : s.nextId ≠ dpar := fun he => hdparne he.symm
      have hfn0 : ((s.alloc freshDir).2.set dpar { dn with entries := dn.entries ++
          [{ name := bn, node := s.nextId }] }).find s.nextId = some freshDir := by
        rw [find_set_ne _ hnidne]
        exact hfind_nid
      rw [hfn0] at hfn
      cases hfn
      have hNN : ({ freshDir with
          nlink := freshDir.nlink + 1,
          parent := if freshDir.parent = none then some dpar else freshDir.parent } : Inode) =
          dirInit dpar := rfl
      rw [hNN] at hs2
      subst hs2
      have hfd2 : (((s.alloc freshDir).2.set dpar { dn with entries := dn.entries ++
          [{ name := bn, node := s.nextId }] }).set s.nextId (dirInit dpar)).find s.nextId =
          some (dirInit dpar) := find_set_self hfn0
      have hpar : (dirInit dpar).parent = some dpar := rfl
      have hfd3 : (((s.alloc freshDir).2.set dpar { dn with entries := dn.entries ++
          [{ name := bn, node := s.nextId }] }).set s.nextId (dirInit dpar)).find dpar =
          some { dn with entries := dn.entries ++ [{ name := bn, node := s.nextId }] } := by
        rw [find_set_ne _ hdparne]
        exact find_set_self hfd
      have hfd4 : ((((s.alloc freshDir).2.set dpar { dn with entries := dn.entries ++
          [{ name := bn, node := s.nextId }] }).set s.nextId (dirInit dpar)).set dpar
          { dn with
            entries := dn.entries ++ [{ name := bn, node := s.nextId }],
            nlink := dn.nlink + 1 }).find s.nextId = some (dirInit dpar) := by
        rw [find_set_ne _ hnidne]
        exact hfd2
      have hfin : ({
          isdir := (dirInit dpar).isdir,
          nlink := (dirInit dpar).nlink + 1,
          nopen := (dirInit dpar).nopen,
          entries := [{ name := dotName, node := s.nextId },
            { name := ddotName, node := dpar }],
          parent := (dirInit dpar).parent,
          traversing := (dirInit dpar).traversing } : Inode) = dirFinal s.nextId dpar := rfl
      simp only [hfd2, hpar, hfd3, hfd4, hfin, Prod.mk.injEq, Res.ok.injEq] at h
      obtain ⟨hd, hs⟩ := h
      subst hd
      exact ⟨rfl, dpar, bn, dn, e, hgp, hpf, hdparne, hfd, hne, hs.symm⟩

/-- A heap-extending `calloc` keeps the live keys duplicate-free. -/
theorem nodup_alloc {s : State} (hwf : Wf s) (nd : Inode) :
    (keysOf (s.alloc nd).2.inodes).Nodup := by
  show (keysOf (s.inodes ++ [(s.nextId, nd)])).Nodup
  rw [keysOf_append]
  apply List.Nodup.append hwf.nodup (List.nodup_singleton _)
  intro a ha hb
  rw [List.mem_singleton] at hb
  subst hb
  rcases List.mem_map.mp ha with ⟨q, hq, hqe⟩
  exact absurd (hqe ▸ hwf.bound q hq) (lt_irrefl _)

/-- `ramMkdir` preserves the invariant end to end: the parent gains one name
entry, one subdirectory and one link, and the fresh directory is a well-formed
leaf with link count 2 whose `..` names its parent. -/
theorem wf_mkdir {s : State} (hwf : Wf s) {p : List Char} {d0 : Iid} {s' : State}
    (h : ramMkdir s 0 p = (.ok d0, s')) : Wf s' := by
  rcases ramMkdir_ok_inv hwf h with ⟨hd0, dpar, bn, dn, e, hgp, hpf, hdparne, hfd1, hne, hs'⟩
  have hnidne : s.nextId ≠ dpar := fun he => hdparne he.symm
  have hdead : s.find s.nextId = none := find_nextId_none hwf.bound
  have hfind1 : ∀ j, (s.alloc freshDir).2.find j =
      if j = s.nextId then some freshDir else s.find j := find_alloc hwf.bound freshDir
  have hfind_nid : (s.alloc freshDir).2.find s.nextId = some freshDir := by
    rw [hfind1, if_pos rfl]
  have hdir : dn.isdir = true := by
    rcases getParentDirectory_ok_inv hgp with ⟨n, dn2, _, _, _, hfd2, hdir2⟩
    rw [hfd1] at hfd2
    cases hfd2
    exact hdir2
  have hsfd : s.find dpar = some dn := by
    have := hfd1
    rw [hfind1, if_neg hdparne] at this
    exact this
  have hsep : sep ∉ bn := getParentDirectory_bn_sep hgp
  have hbne : bn ≠ [] := by
    intro he
    rw [he, pathfind_nil] at hpf
    exact Res.noConfusion hpf
  have hshape : dn.entries = { name := dotName, node := dpar } ::
      { name := ddotName, node := ddotTarget dn } :: dirRest dn :=
    hwf.dirShape (dpar, dn) (mem_of_lfind hsfd) hdir
  have hnone := no_entry_named hsep hbne hfd1 hdir hpf
  have hbn := bn_not_dot hfd1 hdir hshape hnone
  have hdZero : cnt s s.nextId = 0 := cnt_dead_zero hwf hdead
  have hd0ne : (0 : Iid) ≠ s.nextId := by
    intro he
    have := hwf.rootLive
    rw [he, hdead] at this
    cases this
  have hddne : ∀ j, isDirAt s j = true → j ≠ s.nextId := by
    intro j hj he
    rw [isDirAt, he, hdead] at hj
    cases hj
  set newE : Entry := { name := bn, node := s.nextId } with hnewE
  set dnA : Inode := { dn with entries := dn.entries ++ [newE] } with hdnA
  set dnC : Inode := { dn with entries := dn.entries ++ [newE], nlink := dn.nlink + 1 }
    with hdnC
  set dFin : Inode := dirFinal s.nextId dpar with hdFin
  have hedgene : ∀ q : Iid × Inode, q ∈ s.inodes → q.2.isdir = true →
      ∀ x ∈ dirRest q.2, x.node ≠ s.nextId := by
    intro q hq hqd x hx
    exact no_edge_of_cnt_zero hdZero hq hqd hx
  have hA : ((s.alloc freshDir).2.set dpar dnA).find dpar = some dnA := find_set_self hfd1
  have hfn0 : ((s.alloc freshDir).2.set dpar dnA).find s.nextId = some freshDir := by
    rw [find_set_ne _ hnidne]
    exact hfind_nid
  have hB : (((s.alloc freshDir).2.set dpar dnA).set s.nextId (dirInit dpar)).find s.nextId =
      some (dirInit dpar) := find_set_self hfn0
  have hB2 : (((s.alloc freshDir).2.set dpar dnA).set s.nextId (dirInit dpar)).find dpar =
      some dnA := by
    rw [find_set_ne _ hdparne]
    exact hA
  have hC : ((((s.alloc freshDir).2.set dpar dnA).set s.nextId (dirInit dpar)).set dpar
      dnC).find dpar = some dnC := find_set_self hB2
  have hC2 : ((((s.alloc freshDir).2.set dpar dnA).set s.nextId (dirInit dpar)).set dpar
      dnC).find s.nextId = some (dirInit dpar) := by
    rw [find_set_ne _ hnidne]
    exact hB
  have hfind' : ∀ j, s'.find j =
      if j = s.nextId then some dFin else if j = dpar then some dnC else s.find j := by
    intro j
    by_cases hj1 : j = s.nextId
    · subst hj1
      rw [if_pos rfl, hs']
      exact find_set_self hC2
    · rw [if_neg hj1]
      by_cases hj2 : j = dpar
      · subst hj2
        rw [if_pos rfl, hs', find_set_ne _ hj1]
        exact hC
      · rw [if_neg hj2, hs', find_set_ne _ hj1, find_set_ne _ hj2, find_set_ne _ hj1,
          find_set_ne _ hj2, hfind1 j, if_neg hj1]
  have hkeys : keysOf s'.inodes = keysOf s.inodes ++ [s.nextId] := by
    rw [hs']
    show keysOf (setf (setf (setf (setf (s.alloc freshDir).2.inodes dpar dnA)
      s.nextId (dirInit dpar)) dpar dnC) s.nextId dFin) = _
    rw [keysOf_setf, keysOf_setf, keysOf_setf, keysOf_setf]
    show keysOf (s.inodes ++ [(s.nextId, freshDir)]) = _
    rw [keysOf_append]
    rfl
  have hnodup' : (keysOf s'.inodes).Nodup := by
    rw [hkeys]
    apply List.Nodup.append hwf.nodup (List.nodup_singleton _)
    intro a ha hb
    rw [List.mem_singleton] at hb
    subst hb
    rcases List.mem_map.mp ha with ⟨q, hq, hqe⟩
    exact absurd (hqe ▸ hwf.bound q hq) (lt_irrefl _)
  have hnext : s'.nextId = s.nextId + 1 := by
    rw [hs']
    rfl
  have hIsD_ne : ∀ j, j ≠ s.nextId → isDirAt s' j = isDirAt s j := by
    intro j hj
    rw [isDirAt, isDirAt, hfind' j, if_neg hj]
    by_cases hj2 : j = dpar
    · subst hj2
      rw [if_pos rfl, hsfd]
      rfl
    · rw [if_neg hj2]
  have hIsD_nid : isDirAt s' s.nextId = true := by
    rw [isDirAt, hfind' _, if_pos rfl]
    rfl
  have hLive : ∀ j, (s.find j).isSome = true → (s'.find j).isSome = true := by
    intro j hj
    rw [hfind' j]
    by_cases hj1 : j = s.nextId
    · rw [if_pos hj1]
      rfl
    · rw [if_neg hj1]
      by_cases hj2 : j = dpar
      · rw [if_pos hj2]
        rfl
      · rw [if_neg hj2]
        exact hj
  have hlen2 : 2 ≤ dn.entries.length := by
    rw [hshape]
    simp
  have hrestC : dirRest dnC = dirRest dn ++ [newE] := by
    rw [dirRest, dirRest, show dnC.entries = dn.entries ++ [newE] from rfl,
      List.drop_append_of_le_length hlen2]
  have hddotC : ddotTarget dnC = ddotTarget dn := by
    have h1 : dnC.entries = { name := dotName, node := dpar } ::
        { name := ddotName, node := ddotTarget dn } :: (dirRest dn ++ [newE]) := by
      show dn.entries ++ [newE] = _
      rw [hshape]
      simp
    rw [ddotTarget_of_shape h1]
  have hrestF : dirRest dFin = [] := rfl
  have hcnt : ∀ t, cnt s' t = cnt s t + (if s.nextId = t then 1 else 0) := by
    intro t
    have hnd1 : (keysOf (s.alloc freshDir).2.inodes).Nodup := nodup_alloc hwf freshDir
    have hnd2 : (keysOf ((s.alloc freshDir).2.set dpar dnA).inodes).Nodup := by
      show (keysOf (setf (s.alloc freshDir).2.inodes dpar dnA)).Nodup
      rw [keysOf_setf]
      exact hnd1
    have hnd3 : (keysOf (((s.alloc freshDir).2.set dpar dnA).set s.nextId
        (dirInit dpar)).inodes).Nodup := by
      show (keysOf (setf ((s.alloc freshDir).2.set dpar dnA).inodes s.nextId
        (dirInit dpar))).Nodup
      rw [keysOf_setf]
      exact hnd2
    have hnd4 : (keysOf ((((s.alloc freshDir).2.set dpar dnA).set s.nextId
        (dirInit dpar)).set dpar dnC).inodes).Nodup := by
      show (keysOf (setf (((s.alloc freshDir).2.set dpar dnA).set s.nextId
        (dirInit dpar)).inodes dpar dnC)).Nodup
      rw [keysOf_setf]
      exact hnd3
    have hc0 : cnt (s.alloc freshDir).2 t = cnt s t := by
      rw [cnt_alloc]
      simp [contrib, freshDir, dirRest]
    have hc1 : cnt ((s.alloc freshDir).2.set dpar dnA) t + contrib (dpar, dn) t =
        cnt (s.alloc freshDir).2 t + contrib (dpar, dnA) t := cnt_set hnd1 hfd1 dnA t
    have hc2 : cnt (((s.alloc freshDir).2.set dpar dnA).set s.nextId (dirInit dpar)) t +
        contrib (s.nextId, freshDir) t =
        cnt ((s.alloc freshDir).2.set dpar dnA) t + contrib (s.nextId, dirInit dpar) t :=
      cnt_set hnd2 hfn0 (dirInit dpar) t
    have hc3 : cnt ((((s.alloc freshDir).2.set dpar dnA).set s.nextId (dirInit dpar)).set
        dpar dnC) t + contrib (dpar, dnA) t =
        cnt (((s.alloc freshDir).2.set dpar dnA).set s.nextId (dirInit dpar)) t +
        contrib (dpar, dnC) t := cnt_set hnd3 hB2 dnC t
    have hc4 : cnt s' t + contrib (s.nextId, dirInit dpar) t =
        cnt ((((s.alloc freshDir).2.set dpar dnA).set s.nextId (dirInit dpar)).set
        dpar dnC) t + contrib (s.nextId, dFin) t := by
      rw [hs']
      exact cnt_set hnd4 hC2 dFin t
    have he1 : contrib (s.nextId, freshDir) t = 0 := by
      simp [contrib, freshDir, dirRest]
    have he2 : contrib (s.nextId, dirInit dpar) t = 0 := by
      simp [contrib, dirInit, dirRest]
    have he3 : contrib (s.nextId, dFin) t = 0 := by
      simp [contrib, hdFin, dirFinal, dirRest]
    have he4 : contrib (dpar, dnC) t = contrib (dpar, dnA) t := rfl
    have he5 : contrib (dpar, dnA) t = contrib (dpar, dn) t + (if s.nextId = t then 1 else 0) := by
      simp only [contrib, show dnA.isdir = dn.isdir from rfl, hdir, if_true,
        show dirRest dnA = dirRest dn ++ [newE] from by
          rw [dirRest, dirRest, show dnA.entries = dn.entries ++ [newE] from rfl,
            List.drop_append_of_le_length hlen2],
        List.countP_append]
      congr 1
      simp only [List.countP_cons, List.countP_nil, Nat.zero_add]
      by_cases hnt : s.nextId = t
      · simp [hnewE, hnt]
      · simp [hnewE, hnt]
    omega
  have hChild : ∀ m : Inode, (∀ x ∈ dirRest m, x.node ≠ s.nextId) →
      dirChildren s' m = dirChildren s m := by
    intro m hm
    rw [dirChildren, dirChildren]
    exact List.countP_congr (fun x hx => by rw [hIsD_ne x.node (hm x hx)])
  have hChildC : dirChildren s' dnC = dirChildren s dn + 1 := by
    rw [dirChildren, dirChildren, hrestC, List.countP_append]
    have h1 : List.countP (fun x => isDirAt s' x.node) (dirRest dn) =
        List.countP (fun x => isDirAt s x.node) (dirRest dn) :=
      List.countP_congr (fun x hx => by
        rw [hIsD_ne x.node (hedgene (dpar, dn) (mem_of_lfind hsfd) hdir x hx)])
    have h2 : List.countP (fun x => isDirAt s' x.node) [newE] = 1 := by
      simp only [List.countP_cons, List.countP_nil, Nat.zero_add,
        show newE.node = s.nextId from rfl, hIsD_nid, if_true]
    omega
  constructor
  · exact hnodup'
  · rintro ⟨qi, qn⟩ hq
    rw [hnext]
    have : qi ∈ keysOf s.inodes ++ [s.nextId] := by
      rw [← hkeys]
      exact List.mem_map.mpr ⟨_, hq, rfl⟩
    rcases List.mem_append.mp this with h1 | h1
    · rcases List.mem_map.mp h1 with ⟨r, hr, hre⟩
      rw [← hre]
      exact Nat.lt_succ_of_lt (hwf.bound r hr)
    · rw [List.mem_singleton.mp h1]
      exact Nat.lt_succ_self _
  · show (s'.find 0).any Inode.isdir = true
    have := hIsD_ne 0 hd0ne
    rw [isDirAt, isDirAt] at this
    rw [this]
    exact hwf.rootLive
  · rintro ⟨qi, qn⟩ hq hqdir
    have hqf : s'.find qi = some qn := lfind_eq_some_of_mem hnodup' hq
    rw [hfind' qi] at hqf
    by_cases hj1 : qi = s.nextId
    · rw [if_pos hj1] at hqf
      cases hqf
      subst hj1
      rfl
    · rw [if_neg hj1] at hqf
      by_cases hj2 : qi = dpar
      · rw [if_pos hj2] at hqf
        cases hqf
        show dnC.entries = { name := dotName, node := qi } ::
          { name := ddotName, node := ddotTarget dnC } :: dirRest dnC
        rw [hddotC, hrestC, show dnC.entries = dn.entries ++ [newE] from rfl, hshape, hj2]
        simp
      · rw [if_neg hj2] at hqf
        exact hwf.dirShape (qi, qn) (mem_of_lfind hqf) hqdir
  · rintro ⟨qi, qn⟩ hq hqdir
    have hqf : s'.find qi = some qn := lfind_eq_some_of_mem hnodup' hq
    rw [hfind' qi] at hqf
    show isDirAt s' (ddotTarget qn) = true
    by_cases hj1 : qi = s.nextId
    · rw [if_pos hj1] at hqf
      cases hqf
      rw [show ddotTarget dFin = dpar from rfl, hIsD_ne dpar hdparne, isDirAt, hsfd]
      simpa using hdir
    · rw [if_neg hj1] at hqf
      by_cases hj2 : qi = dpar
      · rw [if_pos hj2] at hqf
        cases hqf
        have hold : isDirAt s (ddotTarget dn) = true :=
          hwf.ddotLive (dpar, dn) (mem_of_lfind hsfd) hdir
        rw [hddotC, hIsD_ne _ (hddne _ hold)]
        exact hold
      · rw [if_neg hj2] at hqf
        have hold : isDirAt s (ddotTarget qn) = true :=
          hwf.ddotLive (qi, qn) (mem_of_lfind hqf) hqdir
        rw [hIsD_ne _ (hddne _ hold)]
        exact hold
  · rintro ⟨qi, qn⟩ hq hq0
    have hq0' : qi = 0 := hq0
    have hqf : s'.find qi = some qn := lfind_eq_some_of_mem hnodup' hq
    rw [hfind' qi, hq0'] at hqf
    rw [if_neg (fun he => hd0ne he)] at hqf
    by_cases hj2 : (0 : Iid) = dpar
    · rw [if_pos hj2] at hqf
      cases hqf
      show ddotTarget dnC = 0
      rw [hddotC]
      exact hwf.rootDdot (dpar, dn) (mem_of_lfind hsfd) hj2.symm
    · rw [if_neg hj2] at hqf
      exact hwf.rootDdot (qi, qn) (mem_of_lfind (hq0' ▸ hqf)) hq0'
  · rintro ⟨qi, qn⟩ hq hqdir x hx
    have hqf : s'.find qi = some qn := lfind_eq_some_of_mem hnodup' hq
    rw [hfind' qi] at hqf
    by_cases hj1 : qi = s.nextId
    · rw [if_pos hj1] at hqf
      cases hqf
      rw [hrestF] at hx
      cases hx
    · rw [if_neg hj1] at hqf
      by_cases hj2 : qi = dpar
      · rw [if_pos hj2] at hqf
        cases hqf
        rw [hrestC] at hx
        rcases List.mem_append.mp hx with hx | hx
        · exact hwf.restName (dpar, dn) (mem_of_lfind hsfd) hdir x hx
        · rw [List.mem_singleton] at hx
          subst hx
          exact hbn
      · rw [if_neg hj2] at hqf
        exact hwf.restName (qi, qn) (mem_of_lfind hqf) hqdir x hx
  · rintro ⟨qi, qn⟩ hq hqdir x hx
    have hqf : s'.find qi = some qn := lfind_eq_some_of_mem hnodup' hq
    rw [hfind' qi] at hqf
    by_cases hj1 : qi = s.nextId
    · rw [if_pos hj1] at hqf
      cases hqf
      rw [hrestF] at hx
      cases hx
    · rw [if_neg hj1] at hqf
      by_cases hj2 : qi = dpar
      · rw [if_pos hj2] at hqf
        cases hqf
        rw [hrestC] at hx
        rcases List.mem_append.mp hx with hx | hx
        · exact hLive _ (hwf.restLive (dpar, dn) (mem_of_lfind hsfd) hdir x hx)
        · rw [List.mem_singleton] at hx
          subst hx
          rw [hfind' newE.node, show newE.node = s.nextId from rfl, if_pos rfl]
          rfl
      · rw [if_neg hj2] at hqf
        exact hLive _ (hwf.restLive (qi, qn) (mem_of_lfind hqf) hqdir x hx)
  · rintro ⟨qi, qn⟩ hq hqdir x hx cn hcn hcndir
    have hqf : s'.find qi = some qn := lfind_eq_some_of_mem hnodup' hq
    rw [hfind' qi] at hqf
    rw [hfind' x.node] at hcn
    by_cases hj1 : qi = s.nextId
    · rw [if_pos hj1] at hqf
      cases hqf
      rw [hrestF] at hx
      cases hx
    · rw [if_neg hj1] at hqf
      by_cases hxn : x.node = s.nextId
      · rw [if_pos hxn] at hcn
        cases hcn
        by_cases hj2 : qi = dpar
        · rw [if_pos hj2] at hqf
          cases hqf
          rw [hrestC] at hx
          rcases List.mem_append.mp hx with hx | hx
          · exact absurd hxn (hedgene (dpar, dn) (mem_of_lfind hsfd) hdir x hx)
          · rw [List.mem_singleton] at hx
            subst hx
            refine ⟨fun he => hd0ne (hxn ▸ he).symm, ?_⟩
            rw [show ddotTarget dFin = dpar from rfl, hj2]
        · rw [if_neg hj2] at hqf
          exact absurd hxn (hedgene (qi, qn) (mem_of_lfind hqf) hqdir x hx)
      · rw [if_neg hxn] at hcn
        by_cases hxd : x.node = dpar
        · rw [if_pos hxd] at hcn
          cases hcn
          by_cases hj2 : qi = dpar
          · rw [if_pos hj2] at hqf
            cases hqf
            rw [hrestC] at hx
            rcases List.mem_append.mp hx with hx | hx
            · have := hwf.dirTgt (dpar, dn) (mem_of_lfind hsfd) hdir x hx dn
                (hxd ▸ hsfd) hdir
              rw [hddotC]
              exact ⟨this.1, hj2 ▸ this.2⟩
            · rw [List.mem_singleton] at hx
              subst hx
              exact absurd rfl hxn
          · rw [if_neg hj2] at hqf
            have := hwf.dirTgt (qi, qn) (mem_of_lfind hqf) hqdir x hx dn (hxd ▸ hsfd) hdir
            rw [hddotC]
            exact this
        · rw [if_neg hxd] at hcn
          by_cases hj2 : qi = dpar
          · rw [if_pos hj2] at hqf
            cases hqf
            rw [hrestC] at hx
            rcases List.mem_append.mp hx with hx | hx
            · exact hwf.dirTgt (dpar, dn) (mem_of_lfind hsfd) hdir x hx cn hcn hcndir
              |>.imp id (fun hh => hj2 ▸ hh)
            · rw [List.mem_singleton] at hx
              subst hx
              exact absurd rfl hxn
          · rw [if_neg hj2] at hqf
            exact hwf.dirTgt (qi, qn) (mem_of_lfind hqf) hqdir x hx cn hcn hcndir
  · rintro ⟨qi, qn⟩ hq hqdir hq0
    have hqf : s'.find qi = some qn := lfind_eq_some_of_mem hnodup' hq
    rw [hfind' qi] at hqf
    rw [hcnt qi]
    by_cases hj1 : qi = s.nextId
    · rw [if_pos hj1] at hqf
      rw [if_pos hj1.symm, hj1, hdZero]
    · rw [if_neg hj1] at hqf
      rw [if_neg (fun he => hj1 he.symm), Nat.add_zero]
      by_cases hj2 : qi = dpar
      · rw [if_pos hj2] at hqf
        cases hqf
        rw [hj2]
        exact hwf.dirCnt (dpar, dn) (mem_of_lfind hsfd) hdir (hj2 ▸ hq0)
      · rw [if_neg hj2] at hqf
        exact hwf.dirCnt (qi, qn) (mem_of_lfind hqf) hqdir hq0
  · rw [hcnt 0, if_neg (fun he => hd0ne he.symm), Nat.add_zero]
    exact hwf.rootCnt
  · rintro ⟨qi, qn⟩ hq hqdir
    have hqf : s'.find qi = some qn := lfind_eq_some_of_mem hnodup' hq
    rw [hfind' qi] at hqf
    by_cases hj1 : qi = s.nextId
    · rw [if_pos hj1] at hqf
      cases hqf
      have hch : dirChildren s' dFin = 0 := by
        rw [dirChildren, hrestF]
        rfl
      rw [hch, if_neg (fun he => hd0ne (hj1 ▸ he).symm)]
      show (2 : Int) = 2 + ((0 : Nat) : Int)
      norm_num
    · rw [if_neg hj1] at hqf
      by_cases hj2 : qi = dpar
      · rw [if_pos hj2] at hqf
        cases hqf
        rw [hChildC]
        have hold := hwf.dirNlink (dpar, dn) (mem_of_lfind hsfd) hdir
        show dn.nlink + 1 = (if qi = 0 then 3 else 2) + ((dirChildren s dn + 1 : Nat) : Int)
        rw [hj2]
        push_cast
        push_cast at hold
        omega
      · rw [if_neg hj2] at hqf
        rw [hChild qn (hedgene (qi, qn) (mem_of_lfind hqf) hqdir)]
        exact hwf.dirNlink (qi, qn) (mem_of_lfind hqf) hqdir
  · rintro ⟨qi, qn⟩ hq hqfile
    have hqf : s'.find qi = some qn := lfind_eq_some_of_mem hnodup' hq
    rw [hfind' qi] at hqf
    by_cases hj1 : qi = s.nextId
    · rw [if_pos hj1] at hqf
      cases hqf
      exact Bool.noConfusion hqfile
    · rw [if_neg hj1] at hqf
      by_cases hj2 : qi = dpar
      · rw [if_pos hj2] at hqf
        cases hqf
        rw [show dnC.isdir = dn.isdir from rfl, hdir] at hqfile
        cases hqfile
      · rw [if_neg hj2] at hqf
        rw [hcnt qi, if_neg (fun he => hj1 he.symm), Nat.add_zero]
        exact hwf.fileNlink (qi, qn) (mem_of_lfind hqf) hqfile
  · rintro ⟨qi, qn⟩ hq
    have hqf : s'.find qi = some qn := lfind_eq_some_of_mem hnodup' hq
    rw [hfind' qi] at hqf
    by_cases hj1 : qi = s.nextId
    · rw [if_pos hj1] at hqf
      cases hqf
      rfl
    · rw [if_neg hj1] at hqf
      by_cases hj2 : qi = dpar
      · rw [if_pos hj2] at hqf
        cases hqf
        show dn.nopen = 0
        exact hwf.nopenZero (dpar, dn) (mem_of_lfind hsfd)
      · rw [if_neg hj2] at hqf
        exact hwf.nopenZero (qi, qn) (mem_of_lfind hqf)

/-- Inside a live directory, looking up `"."` yields the directory itself. -/
theorem pathfind_dot {s : State} {dirI : Iid} {dnd : Inode}
    (hfdir : s.find dirI = some dnd) (hdir : dnd.isdir = true)
    (hshape : dnd.entries = { name := dotName, node := dirI } ::
      { name := ddotName, node := ddotTarget dnd } :: dirRest dnd) :
    pathfind s dotName dirI = .ok dirI := by
  rw [pathfind_single (by decide) (by decide) hfdir hdir, hshape]
  simp [dotName]

/-- Inside a live directory, looking up `".."` yields the `..` target. -/
theorem pathfind_ddot {s : State} {dirI : Iid} {dnd : Inode}
    (hfdir : s.find dirI = some dnd) (hdir : dnd.isdir = true)
    (hshape : dnd.entries = { name := dotName, node := dirI } ::
      { name := ddotName, node := ddotTarget dnd } :: dirRest dnd) :
    pathfind s ddotName dirI = .ok (ddotTarget dnd) := by
  rw [pathfind_single (by decide) (by decide) hfdir hdir, hshape]
  simp [dotName, ddotName]

/-- A successful basename lookup that is neither `"."` nor `".."` names an
entry of the child section, and `removeEntry` detaches exactly that entry. -/
theorem entry_lookup_rest {s : State} {dirI nodeI : Iid} {dnd : Inode} {fileN : List Char}
    (hfdir : s.find dirI = some dnd) (hdir : dnd.isdir = true)
    (hshape : dnd.entries = { name := dotName, node := dirI } ::
      { name := ddotName, node := ddotTarget dnd } :: dirRest dnd)
    (hsepf : sep ∉ fileN) (hfne : fileN ≠ [])
    (hnedot : fileN ≠ dotName) (hneddot : fileN ≠ ddotName)
    (hpf : pathfind s fileN dirI = .ok nodeI) :
    ∃ preR eE postR, dirRest dnd = preR ++ eE :: postR ∧ eE.name = fileN ∧
      eE.node = nodeI ∧
      removeEntry dnd.entries fileN = (.ok nodeI, { name := dotName, node := dirI } ::
        { name := ddotName, node := ddotTarget dnd } :: (preR ++ postR)) := by
  have hsingle := pathfind_single hsepf hfne hfdir hdir
  rw [hpf] at hsingle
  cases hq : dnd.entries.find? (fun e => e.name == fileN) with
  | none =>
    rw [hq] at hsingle
    exact Res.noConfusion hsingle
  | some eE =>
    rw [hq] at hsingle
    have hnodeE : eE.node = nodeI := by
      have := hsingle.symm
      injection this
    rcases find_decomp hq with ⟨pre, post, hsplit, hpre, hmatch⟩
    have hnameE : eE.name = fileN := by simpa using hmatch
    rw [hshape] at hsplit
    cases pre with
    | nil =>
      rw [List.nil_append] at hsplit
      injection hsplit with h1 h2
      have h3 : ({ name := dotName, node := dirI } : Entry).name = eE.name :=
        congrArg Entry.name h1
      rw [hnameE] at h3
      exact absurd h3.symm hnedot
    | cons a pre1 =>
      rw [List.cons_append] at hsplit
      injection hsplit with h1 hsplit
      cases pre1 with
      | nil =>
        rw [List.nil_append] at hsplit
        injection hsplit with h2 h3
        have h4 : ({ name := ddotName, node := ddotTarget dnd } : Entry).name = eE.name :=
          congrArg Entry.name h2
        rw [hnameE] at h4
        exact absurd h4.symm hneddot
      | cons b pre2 =>
        rw [List.cons_append] at hsplit
        injection hsplit with h2 hsplit
        refine ⟨pre2, eE, post, hsplit, hnameE, hnodeE, ?_⟩
        rw [hshape, removeEntry]
        have hbname : b.name ≠ fileN := by
          rw [← h2]
          exact fun he => hneddot he.symm
        have hpre2 : ∀ x ∈ pre2, x.name ≠ fileN := by
          intro x hx
          have hxm : x ∈ a :: b :: pre2 :=
            List.mem_cons_of_mem _ (List.mem_cons_of_mem _ hx)
          have := hpre x hxm
          simpa using this
        have hrf : removeFirst ({ name := ddotName, node := ddotTarget dnd } :: pre2 ++
            eE :: post) fileN = some (eE.node,
            { name := ddotName, node := ddotTarget dnd } :: pre2 ++ post) := by
          have := @removeFirst_eq_some ({ name := ddotName, node := ddotTarget dnd }
            :: pre2) eE post fileN hnameE ?_
          · simpa using this
          · intro x hx
            rcases List.mem_cons.mp hx with h4 | h4
            · rw [h4]
              exact fun he => hneddot he.symm
            · exact hpre2 x h4
        rw [show ({ name := ddotName, node := ddotTarget dnd } :: dirRest dnd : List Entry)
          = { name := ddotName, node := ddotTarget dnd } :: pre2 ++ eE :: post from by
            rw [hsplit, List.cons_append], hrf, hnodeE]
        simp

/-- Common core of the `releaseNode` preservation argument.  One child-section
entry `eE` of the live directory `dirI` is detached; the inode `nodeI` it
referenced is either freed (`onode = none`, legitimate only when that was its
last name edge) or kept as a regular file with its link count decremented; the
directory's link count moves by `dlink`, matching the change of its
subdirectory count. -/
theorem wf_detach_master {s s' : State} (hwf : Wf s)
    {dirI nodeI : Iid} {dnd nd : Inode} {preR postR : List Entry} {eE : Entry}
    {newlink : Int} {onode : Option Inode}
    (hfdir : s.find dirI = some dnd) (hdirdir : dnd.isdir = true)
    (hfn : s.find nodeI = some nd)
    (hrest : dirRest dnd = preR ++ eE :: postR)
    (hnedir : nodeI ≠ dirI) (hnode0 : nodeI ≠ 0)
    (hfind' : ∀ j, s'.find j = if j = dirI then
        some { dnd with
          nlink := newlink,
          entries := { name := dotName, node := dirI } ::
            { name := ddotName, node := ddotTarget dnd } :: (preR ++ postR) }
      else if j = nodeI then onode else s.find j)
    (hnodup' : (keysOf s'.inodes).Nodup)
    (hnext : s'.nextId = s.nextId)
    (hcnt : ∀ t, cnt s' t + (if nodeI = t then 1 else 0) = cnt s t)
    (hDD : ∀ q : Iid × Inode, q ∈ s.inodes → q.2.isdir = true → ddotTarget q.2 ≠ nodeI)
    (hChDir : (dirChildren s' { dnd with
        nlink := newlink,
        entries := { name := dotName, node := dirI } ::
          { name := ddotName, node := ddotTarget dnd } :: (preR ++ postR) } : Int) =
      (dirChildren s dnd : Int) + newlink - dnd.nlink)
    (hChOther : ∀ qi qn, s.find qi = some qn → qn.isdir = true → qi ≠ dirI → qi ≠ nodeI →
      dirChildren s' qn = dirChildren s qn)
    (hcase : (onode = none ∧ cnt s nodeI = 1) ∨
      (∃ nd2, onode = some nd2 ∧ nd.isdir = false ∧ nd2.isdir = false ∧
        nd2.nlink = nd.nlink - 1 ∧ nd2.entries = nd.entries ∧ nd2.nopen = nd.nopen)) :
    Wf s' := by
  set ND : Inode := { dnd with
    nlink := newlink,
    entries := { name := dotName, node := dirI } ::
      { name := ddotName, node := ddotTarget dnd } :: (preR ++ postR) } with hND
  have hsub : ∀ x, x ∈ preR ++ postR → x ∈ dirRest dnd := by
    intro x hx
    rw [hrest]
    rcases List.mem_append.mp hx with h1 | h1
    · exact List.mem_append.mpr (Or.inl h1)
    · exact List.mem_append.mpr (Or.inr (List.mem_cons_of_mem _ h1))
  have hIsD : ∀ j, j ≠ nodeI → isDirAt s' j = isDirAt s j := by
    intro j hj
    rw [isDirAt, isDirAt, hfind' j]
    by_cases hj1 : j = dirI
    · subst hj1
      rw [if_pos rfl, hfdir]
      simp only [Option.any_some]
    · rw [if_neg hj1, if_neg hj]
  have hzero : onode = none → cnt s' nodeI = 0 := by
    intro ho
    have hc := hcnt nodeI
    rw [if_pos rfl] at hc
    rcases hcase with ⟨_, h1⟩ | ⟨nd2, ho2, _⟩
    · omega
    · rw [ho] at ho2
      cases ho2
  have hnoref : onode = none → ∀ q : Iid × Inode, q ∈ s'.inodes → q.2.isdir = true →
      ∀ x ∈ dirRest q.2, x.node ≠ nodeI := by
    intro ho q hq hqd x hx
    exact no_edge_of_cnt_zero (hzero ho) hq hqd hx
  constructor
  · exact hnodup'
  · rintro ⟨qi, qn⟩ hq
    rw [hnext]
    have hqf : s'.find qi = some qn := lfind_eq_some_of_mem hnodup' hq
    rw [hfind' qi] at hqf
    by_cases hj1 : qi = dirI
    · subst hj1
      exact hwf.bound (qi, dnd) (mem_of_lfind hfdir)
    · rw [if_neg hj1] at hqf
      by_cases hj2 : qi = nodeI
      · subst hj2
        exact hwf.bound (qi, nd) (mem_of_lfind hfn)
      · rw [if_neg hj2] at hqf
        exact hwf.bound (qi, qn) (mem_of_lfind hqf)
  · show (s'.find 0).any Inode.isdir = true
    rw [hfind' 0]
    by_cases hj1 : (0 : Iid) = dirI
    · rw [if_pos hj1]
      simp only [Option.any_some]
      exact hdirdir
    · rw [if_neg hj1, if_neg (fun he => hnode0 he.symm)]
      exact hwf.rootLive
  · rintro ⟨qi, qn⟩ hq hqdir
    have hqf : s'.find qi = some qn := lfind_eq_some_of_mem hnodup' hq
    rw [hfind' qi] at hqf
    by_cases hj1 : qi = dirI
    · rw [if_pos hj1] at hqf
      cases hqf
      subst hj1
      rfl
    · rw [if_neg hj1] at hqf
      by_cases hj2 : qi = nodeI
      · rw [if_pos hj2] at hqf
        rcases hcase with ⟨ho, _⟩ | ⟨nd2, ho, hndf, hnd2f, _⟩
        · rw [ho] at hqf
          cases hqf
        · rw [ho] at hqf
          cases hqf
          rw [hnd2f] at hqdir
          cases hqdir
      · rw [if_neg hj2] at hqf
        exact hwf.dirShape (qi, qn) (mem_of_lfind hqf) hqdir
  · rintro ⟨qi, qn⟩ hq hqdir
    have hqf : s'.find qi = some qn := lfind_eq_some_of_mem hnodup' hq
    rw [hfind' qi] at hqf
    show isDirAt s' (ddotTarget qn) = true
    by_cases hj1 : qi = dirI
    · rw [if_pos hj1] at hqf
      cases hqf
      rw [show ddotTarget ND = ddotTarget dnd from rfl,
        hIsD _ (hDD (dirI, dnd) (mem_of_lfind hfdir) hdirdir)]
      exact hwf.ddotLive (dirI, dnd) (mem_of_lfind hfdir) hdirdir
    · rw [if_neg hj1] at hqf
      by_cases hj2 : qi = nodeI
      · rw [if_pos hj2] at hqf
        rcases hcase with ⟨ho, _⟩ | ⟨nd2, ho, hndf, hnd2f, _⟩
        · rw [ho] at hqf
          cases hqf
        · rw [ho] at hqf
          cases hqf
          rw [hnd2f] at hqdir
          cases hqdir
      · rw [if_neg hj2] at hqf
        rw [hIsD _ (hDD (qi, qn) (mem_of_lfind hqf) hqdir)]
        exact hwf.ddotLive (qi, qn) (mem_of_lfind hqf) hqdir
  · rintro ⟨qi, qn⟩ hq hq0
    have hq0' : qi = 0 := hq0
    have hqf : s'.find qi = some qn := lfind_eq_some_of_mem hnodup' hq
    rw [hfind' qi, hq0'] at hqf
    by_cases hj1 : (0 : Iid) = dirI
    · rw [if_pos hj1] at hqf
      cases hqf
      show ddotTarget ND = 0
      rw [show ddotTarget ND = ddotTarget dnd from rfl]
      exact hwf.rootDdot (dirI, dnd) (mem_of_lfind hfdir) hj1.symm
    · rw [if_neg hj1, if_neg (fun he => hnode0 he.symm)] at hqf
      exact hwf.rootDdot (qi, qn) (mem_of_lfind (hq0' ▸ hqf)) hq0'
  · rintro ⟨qi, qn⟩ hq hqdir x hx
    have hqf : s'.find qi = some qn := lfind_eq_some_of_mem hnodup' hq
    rw [hfind' qi] at hqf
    by_cases hj1 : qi = dirI
    · rw [if_pos hj1] at hqf
      cases hqf
      rw [show dirRest ND = preR ++ postR from rfl] at hx
      exact hwf.restName (dirI, dnd) (mem_of_lfind hfdir) hdirdir x (hsub x hx)
    · rw [if_neg hj1] at hqf
      by_cases hj2 : qi = nodeI
      · rw [if_pos hj2] at hqf
        rcases hcase with ⟨ho, _⟩ | ⟨nd2, ho, hndf, hnd2f, _⟩
        · rw [ho] at hqf
          cases hqf
        · rw [ho] at hqf
          cases hqf
          rw [hnd2f] at hqdir
          cases hqdir
      · rw [if_neg hj2] at hqf
        exact hwf.restName (qi, qn) (mem_of_lfind hqf) hqdir x hx
  · rintro ⟨qi, qn⟩ hq hqdir x hx
    have hqf : s'.find qi = some qn := lfind_eq_some_of_mem hnodup' hq
    have hqf' := hqf
    rw [hfind' qi] at hqf
    have hxs : x ∈ dirRest qn →
        (x.node ≠ nodeI ∨ (∃ nd2, onode = some nd2)) := by
      intro hxq
      rcases hcase with ⟨ho, _⟩ | ⟨nd2, ho, _⟩
      · exact Or.inl (hnoref ho (qi, qn) hq hqdir x hxq)
      · exact Or.inr ⟨nd2, ho⟩
    have main : (s.find x.node).isSome = true → (s'.find x.node).isSome = true := by
      intro hlv
      rw [hfind' x.node]
      by_cases hx1 : x.node = dirI
      · rw [if_pos hx1]
        rfl
      · rw [if_neg hx1]
        by_cases hx2 : x.node = nodeI
        · rw [if_pos hx2]
          rcases hxs (by assumption) with h1 | ⟨nd2, ho⟩
          · exact absurd hx2 h1
          · rw [ho]
            rfl
        · rw [if_neg hx2]
          exact hlv
    by_cases hj1 : qi = dirI
    · rw [if_pos hj1] at hqf
      cases hqf
      rw [show dirRest ND = preR ++ postR from rfl] at hx
      exact main (hwf.restLive (dirI, dnd) (mem_of_lfind hfdir) hdirdir x (hsub x hx))
    · rw [if_neg hj1] at hqf
      by_cases hj2 : qi = nodeI
      · rw [if_pos hj2] at hqf
        rcases hcase with ⟨ho, _⟩ | ⟨nd2, ho, hndf, hnd2f, _⟩
        · rw [ho] at hqf
          cases hqf
        · rw [ho] at hqf
          cases hqf
          rw [hnd2f] at hqdir
          cases hqdir
      · rw [if_neg hj2] at hqf
        exact main (hwf.restLive (qi, qn) (mem_of_lfind hqf) hqdir x hx)
  · rintro ⟨qi, qn⟩ hq hqdir x hx cn hcn hcndir
    have hqf : s'.find qi = some qn := lfind_eq_some_of_mem hnodup' hq
    rw [hfind' qi] at hqf
    rw [hfind' x.node] at hcn
    by_cases hxd : x.node = dirI
    · rw [if_pos hxd] at hcn
      cases hcn
      by_cases hj1 : qi = dirI
      · rw [if_pos hj1] at hqf
        cases hqf
        rw [show dirRest ND = preR ++ postR from rfl] at hx
        have := hwf.dirTgt (dirI, dnd) (mem_of_lfind hfdir) hdirdir x (hsub x hx) dnd
          (hxd ▸ hfdir) hdirdir
        rw [show ddotTarget ND = ddotTarget dnd from rfl]
        exact ⟨this.1, hj1 ▸ this.2⟩
      · rw [if_neg hj1] at hqf
        by_cases hj2 : qi = nodeI
        · rw [if_pos hj2] at hqf
          rcases hcase with ⟨ho, _⟩ | ⟨nd2, ho, hndf, hnd2f, _⟩
          · rw [ho] at hqf
            cases hqf
          · rw [ho] at hqf
            cases hqf
            rw [hnd2f] at hqdir
            cases hqdir
        · rw [if_neg hj2] at hqf
          have := hwf.dirTgt (qi, qn) (mem_of_lfind hqf) hqdir x hx dnd
            (hxd ▸ hfdir) hdirdir
          rw [show ddotTarget ND = ddotTarget dnd from rfl]
          exact this
    · rw [if_neg hxd] at hcn
      by_cases hxn : x.node = nodeI
      · rw [if_pos hxn] at hcn
        rcases hcase with ⟨ho, _⟩ | ⟨nd2, ho, hndf, hnd2f, _⟩
        · rw [ho] at hcn
          cases hcn
        · rw [ho] at hcn
          cases hcn
          rw [hnd2f] at hcndir
          cases hcndir
      · rw [if_neg hxn] at hcn
        by_cases hj1 : qi = dirI
        · rw [if_pos hj1] at hqf
          cases hqf
          rw [show dirRest ND = preR ++ postR from rfl] at hx
          have := hwf.dirTgt (dirI, dnd) (mem_of_lfind hfdir) hdirdir x (hsub x hx) cn
            hcn hcndir
          exact ⟨this.1, hj1 ▸ this.2⟩
        · rw [if_neg hj1] at hqf
          by_cases hj2 : qi = nodeI
          · rw [if_pos hj2] at hqf
            rcases hcase with ⟨ho, _⟩ | ⟨nd2, ho, hndf, hnd2f, _⟩
            · rw [ho] at hqf
              cases hqf
            · rw [ho] at hqf
              cases hqf
              rw [hnd2f] at hqdir
              cases hqdir
          · rw [if_neg hj2] at hqf
            exact hwf.dirTgt (qi, qn) (mem_of_lfind hqf) hqdir x hx cn hcn hcndir
  · rintro ⟨qi, qn⟩ hq hqdir hq0
    have hq0' : qi ≠ 0 := hq0
    have hqf : s'.find qi = some qn := lfind_eq_some_of_mem hnodup' hq
    rw [hfind' qi] at hqf
    show cnt s' qi = 1
    by_cases hj2 : qi = nodeI
    · rw [if_neg (fun he => hnedir (hj2.symm.trans he)), if_pos hj2] at hqf
      rcases hcase with ⟨ho, _⟩ | ⟨nd2, ho, hndf, hnd2f, _⟩
      · rw [ho] at hqf
        cases hqf
      · rw [ho] at hqf
        cases hqf
        rw [hnd2f] at hqdir
        cases hqdir
    · have hc := hcnt qi
      rw [if_neg (fun he => hj2 he.symm)] at hc
      by_cases hj1 : qi = dirI
      · rw [if_pos hj1] at hqf
        cases hqf
        have h1 : cnt s dirI = 1 :=
          hwf.dirCnt (dirI, dnd) (mem_of_lfind hfdir) hdirdir (hj1 ▸ hq0')
        rw [hj1] at hc ⊢
        omega
      · rw [if_neg hj1, if_neg hj2] at hqf
        have h1 : cnt s qi = 1 := hwf.dirCnt (qi, qn) (mem_of_lfind hqf) hqdir hq0'
        omega
  · have hc := hcnt 0
    rw [if_neg hnode0, hwf.rootCnt] at hc
    omega
  · rintro ⟨qi, qn⟩ hq hqdir
    have hqf : s'.find qi = some qn := lfind_eq_some_of_mem hnodup' hq
    rw [hfind' qi] at hqf
    by_cases hj1 : qi = dirI
    · rw [if_pos hj1] at hqf
      cases hqf
      show newlink = (if qi = 0 then 3 else 2) + (dirChildren s' ND : Int)
      have hold : dnd.nlink = (if dirI = 0 then 3 else 2) + (dirChildren s dnd : Int) :=
        hwf.dirNlink (dirI, dnd) (mem_of_lfind hfdir) hdirdir
      rw [hj1]
      omega
    · rw [if_neg hj1] at hqf
      by_cases hj2 : qi = nodeI
      · rw [if_pos hj2] at hqf
        rcases hcase with ⟨ho, _⟩ | ⟨nd2, ho, hndf, hnd2f, _⟩
        · rw [ho] at hqf
          cases hqf
        · rw [ho] at hqf
          cases hqf
          rw [hnd2f] at hqdir
          cases hqdir
      · rw [if_neg hj2] at hqf
        rw [hChOther qi qn hqf hqdir hj1 hj2]
        exact hwf.dirNlink (qi, qn) (mem_of_lfind hqf) hqdir
  · rintro ⟨qi, qn⟩ hq hqfile
    have hqf : s'.find qi = some qn := lfind_eq_some_of_mem hnodup' hq
    rw [hfind' qi] at hqf
    by_cases hj1 : qi = dirI
    · rw [if_pos hj1] at hqf
      cases hqf
      rw [show ND.isdir = dnd.isdir from rfl, hdirdir] at hqfile
      cases hqfile
    · rw [if_neg hj1] at hqf
      by_cases hj2 : qi = nodeI
      · rw [if_pos hj2] at hqf
        rcases hcase with ⟨ho, _⟩ | ⟨nd2, ho, hndf, hnd2f, hnd2l, _⟩
        · rw [ho] at hqf
          cases hqf
        · rw [ho] at hqf
          cases hqf
          show qn.nlink = (cnt s' qi : Int)
          have hf : nd.nlink = (cnt s nodeI : Int) :=
            hwf.fileNlink (nodeI, nd) (mem_of_lfind hfn) hndf
          have hc := hcnt nodeI
          rw [if_pos rfl] at hc
          rw [hj2, hnd2l]
          omega
      · rw [if_neg hj2] at hqf
        show qn.nlink = (cnt s' qi : Int)
        have hc := hcnt qi
        rw [if_neg (fun he => hj2 he.symm)] at hc
        have h1 : qn.nlink = (cnt s qi : Int) :=
          hwf.fileNlink (qi, qn) (mem_of_lfind hqf) hqfile
        omega
  · rintro ⟨qi, qn⟩ hq
    have hqf : s'.find qi = some qn := lfind_eq_some_of_mem hnodup' hq
    rw [hfind' qi] at hqf
    by_cases hj1 : qi = dirI
    · rw [if_pos hj1] at hqf
      cases hqf
      show dnd.nopen = 0
      exact hwf.nopenZero (dirI, dnd) (mem_of_lfind hfdir)
    · rw [if_neg hj1] at hqf
      by_cases hj2 : qi = nodeI
      · rw [if_pos hj2] at hqf
        rcases hcase with ⟨ho, _⟩ | ⟨nd2, ho, hndf, hnd2f, hnd2l, hnd2e, hnd2o⟩
        · rw [ho] at hqf
          cases hqf
        · rw [ho] at hqf
          cases hqf
          rw [hnd2o]
          exact hwf.nopenZero (nodeI, nd) (mem_of_lfind hfn)
      · rw [if_neg hj2] at hqf
        exact hwf.nopenZero (qi, qn) (mem_of_lfind hqf)

set_option linter.unusedVariables false

theorem contrib_dir {i : Iid} {nd : Inode} (hd : nd.isdir = true) (t : Iid) :
    contrib (i, nd) t = List.countP (fun e => e.node == t) (dirRest nd) := by
  simp [contrib, hd]

theorem countP_detach (preR postR : List Entry) (eE : Entry) (p : Entry → Bool) :
    List.countP p (preR ++ eE :: postR) =
    List.countP p (preR ++ postR) + (if p eE then 1 else 0) := by
  rw [List.countP_append, List.countP_cons, List.countP_append]
  omega

theorem wf_releaseNode {s : State} (hwf : Wf s) {p : List Char} {s' : State}
    (h : releaseNode s p 0 = (.ok (), s')) : Wf s' := by
  cases hgp : getParentDirectory s p 0 with
  | err e =>
    simp only [releaseNode, hgp] at h
    exact Res.noConfusion (congrArg Prod.fst h)
  | ub =>
    simp only [releaseNode, hgp] at h
    exact Res.noConfusion (congrArg Prod.fst h)
  | ok df =>
    obtain ⟨dirI, fileN⟩ := df
    cases hpf : pathfind s fileN dirI with
    | err e =>
      simp only [releaseNode, hgp, hpf] at h
      exact Res.noConfusion (congrArg Prod.fst h)
    | ub =>
      simp only [releaseNode, hgp, hpf] at h
      exact Res.noConfusion (congrArg Prod.fst h)
    | ok nodeI =>
      cases hfn : s.find nodeI with
      | none =>
        simp only [releaseNode, hgp, hpf, hfn] at h
        exact Res.noConfusion (congrArg Prod.fst h)
      | some nd =>
        rcases getParentDirectory_ok_inv hgp with ⟨n, dnd0, _, _, _, hfdir, hdirdir⟩
        have hshape0 : dnd0.entries = { name := dotName, node := dirI } ::
            { name := ddotName, node := ddotTarget dnd0 } :: dirRest dnd0 :=
          hwf.dirShape (dirI, dnd0) (mem_of_lfind hfdir) hdirdir
        have hsep : sep ∉ fileN := getParentDirectory_bn_sep hgp
        cases hdircase : nd.isdir with
        | false =>
          have hnedir : nodeI ≠ dirI := by
            intro he
            rw [he, hfdir] at hfn
            injection hfn with h2
            rw [← h2, hdirdir] at hdircase
            cases hdircase
          have hfne : fileN ≠ [] := by
            intro he
            rw [he, pathfind_nil] at hpf
            injection hpf with h2
            exact hnedir h2.symm
          have hnedot : fileN ≠ dotName := by
            intro he
            rw [he, pathfind_dot hfdir hdirdir hshape0] at hpf
            injection hpf with h2
            exact hnedir h2.symm
          have hneddot : fileN ≠ ddotName := by
            intro he
            rw [he, pathfind_ddot hfdir hdirdir hshape0] at hpf
            injection hpf with h2
            have hDL : isDirAt s (ddotTarget dnd0) = true :=
              hwf.ddotLive (dirI, dnd0) (mem_of_lfind hfdir) hdirdir
            rw [h2, isDirAt, hfn] at hDL
            simp only [Option.any_some] at hDL
            rw [hdircase] at hDL
            cases hDL
          have hnode0 : nodeI ≠ 0 := by
            intro he
            have := hwf.rootLive
            rw [← he, hfn] at this
            simp only [Option.any_some] at this
            rw [hdircase] at this
            cases this
          have hnopen : nd.nopen = 0 := hwf.nopenZero (nodeI, nd) (mem_of_lfind hfn)
          rcases entry_lookup_rest hfdir hdirdir hshape0 hsep hfne hnedot hneddot hpf with
            ⟨preR, eE, postR, hrest, hename, henode, hremove⟩
          have hfnl : nd.nlink = (cnt s nodeI : Int) :=
            hwf.fileNlink (nodeI, nd) (mem_of_lfind hfn) hdircase
          have hcges : cnt s nodeI ≠ 0 :=
            cntL_pos_of_mem (mem_of_lfind hfdir) hdirdir
              (by rw [hrest]; exact List.mem_append.mpr (Or.inr (List.mem_cons_self _ _)))
              henode
          simp only [releaseNode, hgp, hpf, hfn, hdircase, Bool.false_eq_true, if_false] at h
          by_cases hlast : nd.nlink - 1 = 0
          · rw [if_pos ⟨hlast, hnopen⟩] at h
            have hfde : (s.erase nodeI).find dirI = some dnd0 := by
              rw [find_erase_ne (fun he => hnedir he.symm)]
              exact hfdir
            simp only [releaseNode.releaseFinish, hfde, hremove] at h
            have hs' : s' = (s.erase nodeI).set dirI { dnd0 with
                entries := { name := dotName, node := dirI } ::
                  { name := ddotName, node := ddotTarget dnd0 } :: (preR ++ postR) } :=
              (congrArg Prod.snd h).symm
            have hfind' : ∀ j, s'.find j = if j = dirI then
                some { dnd0 with
                entries := { name := dotName, node := dirI } ::
                  { name := ddotName, node := ddotTarget dnd0 } :: (preR ++ postR) }
              else if j = nodeI then none else s.find j := by
              intro j
              by_cases hj1 : j = dirI
              · subst hj1
                rw [if_pos rfl, hs']
                exact find_set_self hfde
              · rw [if_neg hj1]
                by_cases hj2 : j = nodeI
                · subst hj2
                  rw [if_pos rfl, hs', find_set_ne _ hj1]
                  exact find_erase_self s j
                · rw [if_neg hj2, hs', find_set_ne _ hj1, find_erase_ne hj2]
            have hnodup' : (keysOf s'.inodes).Nodup := by
              rw [hs']
              show (keysOf (setf (erasef s.inodes nodeI) dirI _)).Nodup
              rw [keysOf_setf]
              exact keysOf_erasef_nodup _ hwf.nodup
            have hnext : s'.nextId = s.nextId := by
              rw [hs']
              rfl
            have hcnt : ∀ t, cnt s' t + (if nodeI = t then 1 else 0) = cnt s t := by
              intro t
              have hc1 : cnt (s.erase nodeI) t + contrib (nodeI, nd) t = cnt s t :=
                cnt_erase hwf.nodup hfn t
              have hndk : (keysOf (s.erase nodeI).inodes).Nodup :=
                keysOf_erasef_nodup _ hwf.nodup
              have hc2 : cnt s' t + contrib (dirI, dnd0) t =
                  cnt (s.erase nodeI) t + contrib (dirI, { dnd0 with
                entries := { name := dotName, node := dirI } ::
                  { name := ddotName, node := ddotTarget dnd0 } :: (preR ++ postR) }) t := by
                rw [hs']
                exact cnt_set hndk hfde _ t
              have he1 : contrib (nodeI, nd) t = 0 := by
                simp [contrib, hdircase]
              have he2 : contrib (dirI, dnd0) t = contrib (dirI, { dnd0 with
                entries := { name := dotName, node := dirI } ::
                  { name := ddotName, node := ddotTarget dnd0 } :: (preR ++ postR) }) t +
                  (if nodeI = t then 1 else 0) := by
                rw [contrib_dir hdirdir, contrib_dir (show ({ dnd0 with
                entries := { name := dotName, node := dirI } ::
                  { name := ddotName, node := ddotTarget dnd0 } :: (preR ++ postR) } : Inode).isdir = true
                  from hdirdir), hrest, show dirRest { dnd0 with
                entries := { name := dotName, node := dirI } ::
                  { name := ddotName, node := ddotTarget dnd0 } :: (preR ++ postR) } = preR ++ postR from rfl,
                  countP_detach]
                congr 1
                rw [henode]
                by_cases ht : nodeI = t
                · simp [ht]
                · simp [ht]
              omega
            have hIsDall : ∀ j, isDirAt s' j = isDirAt s j := by
              intro j
              rw [isDirAt, isDirAt, hfind' j]
              by_cases hj1 : j = dirI
              · subst hj1
                rw [if_pos rfl, hfdir]
                rfl
              · rw [if_neg hj1]
                by_cases hj2 : j = nodeI
                · subst hj2
                  rw [if_pos rfl, hfn]
                  simp [hdircase]
                · rw [if_neg hj2]
            have hChAll : ∀ m : Inode, dirChildren s' m = dirChildren s m := by
              intro m
              rw [dirChildren, dirChildren]
              exact List.countP_congr (fun x _ => by rw [hIsDall x.node])
            have hDD : ∀ q : Iid × Inode, q ∈ s.inodes → q.2.isdir = true →
                ddotTarget q.2 ≠ nodeI := by
              intro q hq hqd he
              have hDL : isDirAt s (ddotTarget q.2) = true := hwf.ddotLive q hq hqd
              rw [he, isDirAt, hfn] at hDL
              simp only [Option.any_some] at hDL
              rw [hdircase] at hDL
              cases hDL
            have hChDir : (dirChildren s' { dnd0 with
                entries := { name := dotName, node := dirI } ::
                  { name := ddotName, node := ddotTarget dnd0 } :: (preR ++ postR) } : Int) =
                (dirChildren s dnd0 : Int) + dnd0.nlink - dnd0.nlink := by
              rw [hChAll]
              have heq : dirChildren s dnd0 = dirChildren s { dnd0 with
                entries := { name := dotName, node := dirI } ::
                  { name := ddotName, node := ddotTarget dnd0 } :: (preR ++ postR) } := by
                rw [dirChildren, dirChildren, hrest,
                  show dirRest { dnd0 with
                entries := { name := dotName, node := dirI } ::
                  { name := ddotName, node := ddotTarget dnd0 } :: (preR ++ postR) } = preR ++ postR from rfl, countP_detach]
                have hz : isDirAt s eE.node = false := by
                  rw [henode, isDirAt, hfn]
                  simp [hdircase]
                rw [hz]
                simp
              rw [← heq]
              ring
            have hcnt1 : cnt s nodeI = 1 := by
              omega
            exact wf_detach_master hwf hfdir hdirdir hfn hrest hnedir hnode0 hfind' hnodup'
              hnext hcnt hDD hChDir (fun qi qn _ _ _ _ => hChAll qn) (Or.inl ⟨rfl, hcnt1⟩)
          · have hcondneg : ¬(nd.nlink - 1 = 0 ∧ nd.nopen = 0) := fun hc => hlast hc.1
            rw [if_neg hcondneg] at h
            have hfds : (s.set nodeI { isdir := false, nlink := nd.nlink - 1, nopen := nd.nopen, entries := nd.entries, parent := nd.parent, traversing := nd.traversing }).find dirI = some dnd0 := by
              rw [find_set_ne _ (fun he => hnedir he.symm)]
              exact hfdir
            simp only [releaseNode.releaseFinish, hfds, hremove] at h
            have hs' : s' = (s.set nodeI { isdir := false, nlink := nd.nlink - 1, nopen := nd.nopen, entries := nd.entries, parent := nd.parent, traversing := nd.traversing }).set dirI { dnd0 with
                entries := { name := dotName, node := dirI } ::
                  { name := ddotName, node := ddotTarget dnd0 } :: (preR ++ postR) } :=
              (congrArg Prod.snd h).symm
            have hfind' : ∀ j, s'.find j = if j = dirI then
                some { dnd0 with
                entries := { name := dotName, node := dirI } ::
                  { name := ddotName, node := ddotTarget dnd0 } :: (preR ++ postR) }
              else if j = nodeI then some { isdir := false, nlink := nd.nlink - 1, nopen := nd.nopen, entries := nd.entries, parent := nd.parent, traversing := nd.traversing } else s.find j := by
              intro j
              by_cases hj1 : j = dirI
              · subst hj1
                rw [if_pos rfl, hs']
                exact find_set_self hfds
              · rw [if_neg hj1]
                by_cases hj2 : j = nodeI
                · subst hj2
                  rw [if_pos rfl, hs', find_set_ne _ hj1]
                  exact find_set_self hfn
                · rw [if_neg hj2, hs', find_set_ne _ hj1, find_set_ne _ hj2]
            have hnodup' : (keysOf s'.inodes).Nodup := by
              rw [hs']
              show (keysOf (setf (setf s.inodes nodeI { isdir := false, nlink := nd.nlink - 1, nopen := nd.nopen, entries := nd.entries, parent := nd.parent, traversing := nd.traversing }) dirI _)).Nodup
              rw [keysOf_setf, keysOf_setf]
              exact hwf.nodup
            have hnext : s'.nextId = s.nextId := by
              rw [hs']
              rfl
            have hndk : (keysOf (s.set nodeI { isdir := false, nlink := nd.nlink - 1, nopen := nd.nopen, entries := nd.entries, parent := nd.parent, traversing := nd.traversing }).inodes).Nodup := by
              show (keysOf (setf s.inodes nodeI { isdir := false, nlink := nd.nlink - 1, nopen := nd.nopen, entries := nd.entries, parent := nd.parent, traversing := nd.traversing })).Nodup
              rw [keysOf_setf]
              exact hwf.nodup
            have hcnt : ∀ t, cnt s' t + (if nodeI = t then 1 else 0) = cnt s t := by
              intro t
              have hc1 : cnt (s.set nodeI { isdir := false, nlink := nd.nlink - 1, nopen := nd.nopen, entries := nd.entries, parent := nd.parent, traversing := nd.traversing }) t + contrib (nodeI, nd) t =
                  cnt s t + contrib (nodeI, { isdir := false, nlink := nd.nlink - 1, nopen := nd.nopen, entries := nd.entries, parent := nd.parent, traversing := nd.traversing }) t := cnt_set hwf.nodup hfn _ t
              have hc2 : cnt s' t + contrib (dirI, dnd0) t =
                  cnt (s.set nodeI { isdir := false, nlink := nd.nlink - 1, nopen := nd.nopen, entries := nd.entries, parent := nd.parent, traversing := nd.traversing }) t + contrib (dirI, { dnd0 with
                entries := { name := dotName, node := dirI } ::
                  { name := ddotName, node := ddotTarget dnd0 } :: (preR ++ postR) }) t := by
                rw [hs']
                exact cnt_set hndk hfds _ t
              have he1 : contrib (nodeI, nd) t = 0 := by
                simp [contrib, hdircase]
              have he1b : contrib (nodeI, { isdir := false, nlink := nd.nlink - 1, nopen := nd.nopen, entries := nd.entries, parent := nd.parent, traversing := nd.traversing }) t = 0 := by
                simp [contrib]
              have he2 : contrib (dirI, dnd0) t = contrib (dirI, { dnd0 with
                entries := { name := dotName, node := dirI } ::
                  { name := ddotName, node := ddotTarget dnd0 } :: (preR ++ postR) }) t +
                  (if nodeI = t then 1 else 0) := by
                rw [contrib_dir hdirdir, contrib_dir (show ({ dnd0 with
                entries := { name := dotName, node := dirI } ::
                  { name := ddotName, node := ddotTarget dnd0 } :: (preR ++ postR) } : Inode).isdir = true
                  from hdirdir), hrest, show dirRest { dnd0 with
                entries := { name := dotName, node := dirI } ::
                  { name := ddotName, node := ddotTarget dnd0 } :: (preR ++ postR) } = preR ++ postR from rfl,
                  countP_detach]
                congr 1
                rw [henode]
                by_cases ht : nodeI = t
                · simp [ht]
                · simp [ht]
              omega
            have hIsDall : ∀ j, isDirAt s' j = isDirAt s j := by
              intro j
              rw [isDirAt, isDirAt, hfind' j]
              by_cases hj1 : j = dirI
              · subst hj1
                rw [if_pos rfl, hfdir]
                rfl
              · rw [if_neg hj1]
                by_cases hj2 : j = nodeI
                · subst hj2
                  rw [if_pos rfl, hfn]
                  simp [hdircase]
                · rw [if_neg hj2]
            have hChAll : ∀ m : Inode, dirChildren s' m = dirChildren s m := by
              intro m
              rw [dirChildren, dirChildren]
              exact List.countP_congr (fun x _ => by rw [hIsDall x.node])
            have hDD : ∀ q : Iid × Inode, q ∈ s.inodes → q.2.isdir = true →
                ddotTarget q.2 ≠ nodeI := by
              intro q hq hqd he
              have hDL : isDirAt s (ddotTarget q.2) = true := hwf.ddotLive q hq hqd
              rw [he, isDirAt, hfn] at hDL
              simp only [Option.any_some] at hDL
              rw [hdircase] at hDL
              cases hDL
            have hChDir : (dirChildren s' { dnd0 with
                entries := { name := dotName, node := dirI } ::
                  { name := ddotName, node := ddotTarget dnd0 } :: (preR ++ postR) } : Int) =
                (dirChildren s dnd0 : Int) + dnd0.nlink - dnd0.nlink := by
              rw [hChAll]
              have heq : dirChildren s dnd0 = dirChildren s { dnd0 with
                entries := { name := dotName, node := dirI } ::
                  { name := ddotName, node := ddotTarget dnd0 } :: (preR ++ postR) } := by
                rw [dirChildren, dirChildren, hrest,
                  show dirRest { dnd0 with
                entries := { name := dotName, node := dirI } ::
                  { name := ddotName, node := ddotTarget dnd0 } :: (preR ++ postR) } = preR ++ postR from rfl, countP_detach]
                have hz : isDirAt s eE.node = false := by
                  rw [henode, isDirAt, hfn]
                  simp [hdircase]
                rw [hz]
                simp
              rw [← heq]
              ring
            exact wf_detach_master hwf hfdir hdirdir hfn hrest hnedir hnode0 hfind' hnodup'
              hnext hcnt hDD hChDir (fun qi qn _ _ _ _ => hChAll qn)
              (Or.inr ⟨{ isdir := false, nlink := nd.nlink - 1, nopen := nd.nopen, entries := nd.entries, parent := nd.parent, traversing := nd.traversing }, rfl, hdircase, rfl, rfl, rfl, rfl⟩)
        | true =>
          have hshapeN : nd.entries = { name := dotName, node := nodeI } ::
              { name := ddotName, node := ddotTarget nd } :: dirRest nd :=
            hwf.dirShape (nodeI, nd) (mem_of_lfind hfn) hdircase
          simp only [releaseNode, hgp, hpf, hfn, hdircase, if_true] at h
          cases hie : isEmpty nd.entries with
          | ub =>
            simp only [hie] at h
            exact Res.noConfusion (congrArg Prod.fst h)
          | err e2 =>
            simp only [hie] at h
            exact Res.noConfusion (congrArg Prod.fst h)
          | ok b =>
            cases b with
            | false =>
              simp only [hie] at h
              exact Res.noConfusion (congrArg Prod.fst h)
            | true =>
              simp only [hie] at h
              by_cases hnl : nd.nlink ≠ 2
              · rw [if_pos hnl] at h
                exact Res.noConfusion (congrArg Prod.fst h)
              · rw [if_neg hnl] at h
                have hnl2 : nd.nlink = 2 := not_not.mp hnl
                have hlen : nd.entries.length = 2 := by
                  by_cases h2 : nd.entries.length > 2
                  · rw [isEmpty, if_pos h2] at hie
                    injection hie with h3
                    cases h3
                  · by_cases h3 : nd.entries.length = 2
                    · exact h3
                    · rw [isEmpty, if_neg h2, if_neg h3] at hie
                      exact Res.noConfusion hie
                have hrestN : dirRest nd = [] := by
                  have hl2 := congrArg List.length hshapeN
                  rw [hlen] at hl2
                  simp only [List.length_cons] at hl2
                  have h4 : (dirRest nd).length = 0 := by omega
                  exact List.length_eq_zero.mp h4
                have hentN : nd.entries = [{ name := dotName, node := nodeI },
                    { name := ddotName, node := ddotTarget nd }] := by
                  rw [hshapeN, hrestN]
                have hrem2 : removeEntry nd.entries ddotName =
                    (.ok (ddotTarget nd), [{ name := dotName, node := nodeI }]) := by
                  rw [hentN]
                  rfl
                simp only [hrem2] at h
                cases hfd1 : (s.set nodeI { isdir := true, nlink := nd.nlink, nopen := nd.nopen, entries := [{ name := dotName, node := nodeI }], parent := nd.parent, traversing := nd.traversing }).find dirI with
                | none =>
                  simp only [hfd1] at h
                  exact Res.noConfusion (congrArg Prod.fst h)
                | some dnd1 =>
                  simp only [hfd1] at h
                  rw [if_neg (show ¬(([{ name := dotName, node := nodeI }] :
                    List Entry).length ≠ 1) by simp)] at h
                  cases hfd3 : (((s.set nodeI { isdir := true, nlink := nd.nlink, nopen := nd.nopen, entries := [{ name := dotName, node := nodeI }], parent := nd.parent, traversing := nd.traversing }).set dirI { isdir := dnd1.isdir, nlink := dnd1.nlink - 1, nopen := dnd1.nopen, entries := dnd1.entries, parent := dnd1.parent, traversing := dnd1.traversing }).erase nodeI).find dirI with
                  | none =>
                    simp only [releaseNode.releaseFinish, hfd3] at h
                    exact Res.noConfusion (congrArg Prod.fst h)
                  | some dnd3 =>
                    have hnedir : nodeI ≠ dirI := by
                      intro he
                      rw [← he, find_erase_self] at hfd3
                      cases hfd3
                    have hfd1' : (s.set nodeI { isdir := true, nlink := nd.nlink, nopen := nd.nopen, entries := [{ name := dotName, node := nodeI }], parent := nd.parent, traversing := nd.traversing }).find dirI = some dnd0 := by
                      rw [find_set_ne _ (fun he => hnedir he.symm)]
                      exact hfdir
                    have hEq1 : dnd1 = dnd0 := by
                      rw [hfd1'] at hfd1
                      injection hfd1 with h4
                      exact h4.symm
                    rw [hEq1] at h hfd3
                    have hfd3' : (((s.set nodeI { isdir := true, nlink := nd.nlink, nopen := nd.nopen, entries := [{ name := dotName, node := nodeI }], parent := nd.parent, traversing := nd.traversing }).set dirI { isdir := dnd0.isdir, nlink := dnd0.nlink - 1, nopen := dnd0.nopen, entries := dnd0.entries, parent := dnd0.parent, traversing := dnd0.traversing }).erase nodeI).find dirI =
                        some { isdir := dnd0.isdir, nlink := dnd0.nlink - 1, nopen := dnd0.nopen, entries := dnd0.entries, parent := dnd0.parent, traversing := dnd0.traversing } := by
                      rw [find_erase_ne (fun he => hnedir he.symm)]
                      exact find_set_self hfd1'
                    have hEq3 : dnd3 = { isdir := dnd0.isdir, nlink := dnd0.nlink - 1, nopen := dnd0.nopen, entries := dnd0.entries, parent := dnd0.parent, traversing := dnd0.traversing } := by
                      rw [hfd3'] at hfd3
                      injection hfd3 with h4
                      exact h4.symm
                    subst hEq3
                    have hnode0 : nodeI ≠ 0 := by
                      intro he
                      have hold : nd.nlink = (if (0 : Iid) = 0 then 3 else 2) +
                          (dirChildren s nd : Int) :=
                        hwf.dirNlink (0, nd) (mem_of_lfind (he ▸ hfn)) hdircase
                      rw [if_pos rfl] at hold
                      omega
                    have hc1 : cnt s nodeI = 1 :=
                      hwf.dirCnt (nodeI, nd) (mem_of_lfind hfn) hdircase hnode0
                    have hDD : ∀ q : Iid × Inode, q ∈ s.inodes → q.2.isdir = true →
                        ddotTarget q.2 ≠ nodeI := by
                      intro q hq hqd he
                      by_cases hq0 : q.1 = 0
                      · have hrd : ddotTarget q.2 = 0 := hwf.rootDdot q hq hq0
                        rw [hrd] at he
                        exact hnode0 he.symm
                      · have hcq : cnt s q.1 = 1 := hwf.dirCnt q hq hqd hq0
                        have hcne : cntL s.inodes q.1 ≠ 0 := by
                          intro hz
                          have hzz : cnt s q.1 = 0 := hz
                          omega
                        rcases cntL_pos hcne with ⟨r, hr, hrd2, y, hy, hyn⟩
                        have hfq : s.find q.1 = some q.2 := lfind_eq_some_of_mem hwf.nodup hq
                        have hdt := hwf.dirTgt r hr hrd2 y hy q.2 (by rw [hyn]; exact hfq) hqd
                        have hr1 : r.1 = nodeI := by
                          rw [← hdt.2]
                          exact he
                        have hfr : s.find r.1 = some r.2 := lfind_eq_some_of_mem hwf.nodup hr
                        rw [hr1, hfn] at hfr
                        injection hfr with h5
                        have hy2 : y ∈ dirRest nd := by
                          rw [h5]
                          exact hy
                        rw [hrestN] at hy2
                        cases hy2
                    have hfne : fileN ≠ [] := by
                      intro he
                      rw [he, pathfind_nil] at hpf
                      injection hpf with h4
                      exact hnedir h4.symm
                    have hnedot : fileN ≠ dotName := by
                      intro he
                      rw [he, pathfind_dot hfdir hdirdir hshape0] at hpf
                      injection hpf with h4
                      exact hnedir h4.symm
                    have hneddot : fileN ≠ ddotName := by
                      intro he
                      rw [he, pathfind_ddot hfdir hdirdir hshape0] at hpf
                      injection hpf with h4
                      exact hDD (dirI, dnd0) (mem_of_lfind hfdir) hdirdir h4
                    rcases entry_lookup_rest hfdir hdirdir hshape0 hsep hfne hnedot hneddot
                      hpf with ⟨preR, eE, postR, hrest, hename, henode, hremove⟩
                    simp only [releaseNode.releaseFinish, hfd3', hremove] at h
                    have hs' : s' = ((((s.set nodeI { isdir := true, nlink := nd.nlink, nopen := nd.nopen, entries := [{ name := dotName, node := nodeI }], parent := nd.parent, traversing := nd.traversing }).set dirI { isdir := dnd0.isdir, nlink := dnd0.nlink - 1, nopen := dnd0.nopen, entries := dnd0.entries, parent := dnd0.parent, traversing := dnd0.traversing }).erase nodeI).set dirI
                        { dnd0 with
                      nlink := dnd0.nlink - 1,
                      entries := { name := dotName, node := dirI } ::
                        { name := ddotName, node := ddotTarget dnd0 } :: (preR ++ postR) }) := (congrArg Prod.snd h).symm
                    have hfind' : ∀ j, s'.find j = if j = dirI then
                        some { dnd0 with
                      nlink := dnd0.nlink - 1,
                      entries := { name := dotName, node := dirI } ::
                        { name := ddotName, node := ddotTarget dnd0 } :: (preR ++ postR) }
                      else if j = nodeI then none else s.find j := by
                      intro j
                      by_cases hj1 : j = dirI
                      · subst hj1
                        rw [if_pos rfl, hs']
                        exact find_set_self hfd3'
                      · rw [if_neg hj1]
                        by_cases hj2 : j = nodeI
                        · subst hj2
                          rw [if_pos rfl, hs', find_set_ne _ hj1]
                          exact find_erase_self _ j
                        · rw [if_neg hj2, hs', find_set_ne _ hj1, find_erase_ne hj2,
                            find_set_ne _ hj1, find_set_ne _ hj2]
                    have hnodup' : (keysOf s'.inodes).Nodup := by
                      rw [hs']
                      show (keysOf (setf (erasef (setf (setf s.inodes nodeI { isdir := true, nlink := nd.nlink, nopen := nd.nopen, entries := [{ name := dotName, node := nodeI }], parent := nd.parent, traversing := nd.traversing }) dirI { isdir := dnd0.isdir, nlink := dnd0.nlink - 1, nopen := dnd0.nopen, entries := dnd0.entries, parent := dnd0.parent, traversing := dnd0.traversing })
                        nodeI) dirI { dnd0 with
                      nlink := dnd0.nlink - 1,
                      entries := { name := dotName, node := dirI } ::
                        { name := ddotName, node := ddotTarget dnd0 } :: (preR ++ postR) })).Nodup
                      rw [keysOf_setf]
                      apply keysOf_erasef_nodup
                      rw [keysOf_setf, keysOf_setf]
                      exact hwf.nodup
                    have hnext : s'.nextId = s.nextId := by
                      rw [hs']
                      rfl
                    have hnods1 : (keysOf (s.set nodeI { isdir := true, nlink := nd.nlink, nopen := nd.nopen, entries := [{ name := dotName, node := nodeI }], parent := nd.parent, traversing := nd.traversing }).inodes).Nodup := by
                      show (keysOf (setf s.inodes nodeI { isdir := true, nlink := nd.nlink, nopen := nd.nopen, entries := [{ name := dotName, node := nodeI }], parent := nd.parent, traversing := nd.traversing })).Nodup
                      rw [keysOf_setf]
                      exact hwf.nodup
                    have hnods2 : (keysOf ((s.set nodeI { isdir := true, nlink := nd.nlink, nopen := nd.nopen, entries := [{ name := dotName, node := nodeI }], parent := nd.parent, traversing := nd.traversing }).set dirI { isdir := dnd0.isdir, nlink := dnd0.nlink - 1, nopen := dnd0.nopen, entries := dnd0.entries, parent := dnd0.parent, traversing := dnd0.traversing }).inodes).Nodup := by
                      show (keysOf (setf (s.set nodeI { isdir := true, nlink := nd.nlink, nopen := nd.nopen, entries := [{ name := dotName, node := nodeI }], parent := nd.parent, traversing := nd.traversing }).inodes dirI { isdir := dnd0.isdir, nlink := dnd0.nlink - 1, nopen := dnd0.nopen, entries := dnd0.entries, parent := dnd0.parent, traversing := dnd0.traversing })).Nodup
                      rw [keysOf_setf]
                      exact hnods1
                    have hnods3 : (keysOf (((s.set nodeI { isdir := true, nlink := nd.nlink, nopen := nd.nopen, entries := [{ name := dotName, node := nodeI }], parent := nd.parent, traversing := nd.traversing }).set dirI { isdir := dnd0.isdir, nlink := dnd0.nlink - 1, nopen := dnd0.nopen, entries := dnd0.entries, parent := dnd0.parent, traversing := dnd0.traversing }).erase
                        nodeI).inodes).Nodup := keysOf_erasef_nodup _ hnods2
                    have hfindNDX : ((s.set nodeI { isdir := true, nlink := nd.nlink, nopen := nd.nopen, entries := [{ name := dotName, node := nodeI }], parent := nd.parent, traversing := nd.traversing }).set dirI { isdir := dnd0.isdir, nlink := dnd0.nlink - 1, nopen := dnd0.nopen, entries := dnd0.entries, parent := dnd0.parent, traversing := dnd0.traversing }).find nodeI =
                        some { isdir := true, nlink := nd.nlink, nopen := nd.nopen, entries := [{ name := dotName, node := nodeI }], parent := nd.parent, traversing := nd.traversing } := by
                      rw [find_set_ne _ hnedir]
                      exact find_set_self hfn
                    have hcnt : ∀ t, cnt s' t + (if nodeI = t then 1 else 0) = cnt s t := by
                      intro t
                      have hb1 : cnt (s.set nodeI { isdir := true, nlink := nd.nlink, nopen := nd.nopen, entries := [{ name := dotName, node := nodeI }], parent := nd.parent, traversing := nd.traversing }) t + contrib (nodeI, nd) t =
                          cnt s t + contrib (nodeI, { isdir := true, nlink := nd.nlink, nopen := nd.nopen, entries := [{ name := dotName, node := nodeI }], parent := nd.parent, traversing := nd.traversing }) t := cnt_set hwf.nodup hfn _ t
                      have hb2 : cnt ((s.set nodeI { isdir := true, nlink := nd.nlink, nopen := nd.nopen, entries := [{ name := dotName, node := nodeI }], parent := nd.parent, traversing := nd.traversing }).set dirI { isdir := dnd0.isdir, nlink := dnd0.nlink - 1, nopen := dnd0.nopen, entries := dnd0.entries, parent := dnd0.parent, traversing := dnd0.traversing }) t +
                          contrib (dirI, dnd0) t =
                          cnt (s.set nodeI { isdir := true, nlink := nd.nlink, nopen := nd.nopen, entries := [{ name := dotName, node := nodeI }], parent := nd.parent, traversing := nd.traversing }) t + contrib (dirI, { isdir := dnd0.isdir, nlink := dnd0.nlink - 1, nopen := dnd0.nopen, entries := dnd0.entries, parent := dnd0.parent, traversing := dnd0.traversing }) t :=
                        cnt_set hnods1 hfd1' _ t
                      have hb3 : cnt (((s.set nodeI { isdir := true, nlink := nd.nlink, nopen := nd.nopen, entries := [{ name := dotName, node := nodeI }], parent := nd.parent, traversing := nd.traversing }).set dirI { isdir := dnd0.isdir, nlink := dnd0.nlink - 1, nopen := dnd0.nopen, entries := dnd0.entries, parent := dnd0.parent, traversing := dnd0.traversing }).erase nodeI) t +
                          contrib (nodeI, { isdir := true, nlink := nd.nlink, nopen := nd.nopen, entries := [{ name := dotName, node := nodeI }], parent := nd.parent, traversing := nd.traversing }) t =
                          cnt ((s.set nodeI { isdir := true, nlink := nd.nlink, nopen := nd.nopen, entries := [{ name := dotName, node := nodeI }], parent := nd.parent, traversing := nd.traversing }).set dirI { isdir := dnd0.isdir, nlink := dnd0.nlink - 1, nopen := dnd0.nopen, entries := dnd0.entries, parent := dnd0.parent, traversing := dnd0.traversing }) t :=
                        cnt_erase hnods2 hfindNDX t
                      have hb4 : cnt s' t + contrib (dirI, { isdir := dnd0.isdir, nlink := dnd0.nlink - 1, nopen := dnd0.nopen, entries := dnd0.entries, parent := dnd0.parent, traversing := dnd0.traversing }) t =
                          cnt (((s.set nodeI { isdir := true, nlink := nd.nlink, nopen := nd.nopen, entries := [{ name := dotName, node := nodeI }], parent := nd.parent, traversing := nd.traversing }).set dirI { isdir := dnd0.isdir, nlink := dnd0.nlink - 1, nopen := dnd0.nopen, entries := dnd0.entries, parent := dnd0.parent, traversing := dnd0.traversing }).erase nodeI) t +
                          contrib (dirI, { dnd0 with
                      nlink := dnd0.nlink - 1,
                      entries := { name := dotName, node := dirI } ::
                        { name := ddotName, node := ddotTarget dnd0 } :: (preR ++ postR) }) t := by
                        rw [hs']
                        exact cnt_set hnods3 hfd3' _ t
                      have he1 : contrib (nodeI, nd) t = 0 := by
                        rw [contrib_dir hdircase, hrestN]
                        rfl
                      have he1b : contrib (nodeI, { isdir := true, nlink := nd.nlink, nopen := nd.nopen, entries := [{ name := dotName, node := nodeI }], parent := nd.parent, traversing := nd.traversing }) t = 0 := by
                        simp [contrib, dirRest]
                      have he2 : contrib (dirI, dnd0) t = contrib (dirI, { dnd0 with
                      nlink := dnd0.nlink - 1,
                      entries := { name := dotName, node := dirI } ::
                        { name := ddotName, node := ddotTarget dnd0 } :: (preR ++ postR) }) t +
                          (if nodeI = t then 1 else 0) := by
                        rw [contrib_dir hdirdir, contrib_dir (show ({ dnd0 with
                      nlink := dnd0.nlink - 1,
                      entries := { name := dotName, node := dirI } ::
                        { name := ddotName, node := ddotTarget dnd0 } :: (preR ++ postR) } : Inode).isdir =
                          true from hdirdir), hrest, show dirRest { dnd0 with
                      nlink := dnd0.nlink - 1,
                      entries := { name := dotName, node := dirI } ::
                        { name := ddotName, node := ddotTarget dnd0 } :: (preR ++ postR) } = preR ++ postR
                          from rfl, countP_detach]
                        congr 1
                        rw [henode]
                        by_cases ht : nodeI = t
                        · simp [ht]
                        · simp [ht]
                      have he3 : contrib (dirI, { isdir := dnd0.isdir, nlink := dnd0.nlink - 1, nopen := dnd0.nopen, entries := dnd0.entries, parent := dnd0.parent, traversing := dnd0.traversing }) t = contrib (dirI, dnd0) t := by
                        rw [contrib_dir (show ({ isdir := dnd0.isdir, nlink := dnd0.nlink - 1, nopen := dnd0.nopen, entries := dnd0.entries, parent := dnd0.parent, traversing := dnd0.traversing } : Inode).isdir = true from hdirdir),
                          contrib_dir hdirdir]
                        rfl
                      omega
                    have hzero' : cnt s' nodeI = 0 := by
                      have hc := hcnt nodeI
                      rw [if_pos rfl] at hc
                      omega
                    have hmemD : (dirI, { dnd0 with
                      nlink := dnd0.nlink - 1,
                      entries := { name := dotName, node := dirI } ::
                        { name := ddotName, node := ddotTarget dnd0 } :: (preR ++ postR) }) ∈ s'.inodes := by
                      have h6 : s'.find dirI = some { dnd0 with
                      nlink := dnd0.nlink - 1,
                      entries := { name := dotName, node := dirI } ::
                        { name := ddotName, node := ddotTarget dnd0 } :: (preR ++ postR) } := by
                        rw [hfind' dirI, if_pos rfl]
                      exact mem_of_lfind h6
                    have hnoref2 : ∀ x ∈ preR ++ postR, x.node ≠ nodeI := by
                      intro x hx
                      exact no_edge_of_cnt_zero hzero' hmemD
                        (show ({ dnd0 with
                      nlink := dnd0.nlink - 1,
                      entries := { name := dotName, node := dirI } ::
                        { name := ddotName, node := ddotTarget dnd0 } :: (preR ++ postR) } : Inode).isdir = true from hdirdir)
                        (show x ∈ dirRest { dnd0 with
                      nlink := dnd0.nlink - 1,
                      entries := { name := dotName, node := dirI } ::
                        { name := ddotName, node := ddotTarget dnd0 } :: (preR ++ postR) } from hx)
                    have hIsDne : ∀ j, j ≠ nodeI → isDirAt s' j = isDirAt s j := by
                      intro j hj
                      rw [isDirAt, isDirAt, hfind' j]
                      by_cases hj1 : j = dirI
                      · subst hj1
                        rw [if_pos rfl, hfdir]
                        rfl
                      · rw [if_neg hj1, if_neg hj]
                    have hChDir : (dirChildren s' { dnd0 with
                      nlink := dnd0.nlink - 1,
                      entries := { name := dotName, node := dirI } ::
                        { name := ddotName, node := ddotTarget dnd0 } :: (preR ++ postR) } : Int) =
                        (dirChildren s dnd0 : Int) + (dnd0.nlink - 1) - dnd0.nlink := by
                      have hA : dirChildren s' { dnd0 with
                      nlink := dnd0.nlink - 1,
                      entries := { name := dotName, node := dirI } ::
                        { name := ddotName, node := ddotTarget dnd0 } :: (preR ++ postR) } =
                          List.countP (fun x => isDirAt s x.node) (preR ++ postR) := by
                        rw [dirChildren, show dirRest { dnd0 with
                      nlink := dnd0.nlink - 1,
                      entries := { name := dotName, node := dirI } ::
                        { name := ddotName, node := ddotTarget dnd0 } :: (preR ++ postR) } = preR ++ postR from rfl]
                        exact List.countP_congr (fun x hx => by
                          rw [hIsDne x.node (hnoref2 x hx)])
                      have hB : dirChildren s dnd0 =
                          List.countP (fun x => isDirAt s x.node) (preR ++ postR) + 1 := by
                        rw [dirChildren, hrest, countP_detach]
                        have ht : isDirAt s eE.node = true := by
                          rw [henode, isDirAt, hfn]
                          simp [hdircase]
                        rw [ht]
                        simp
                      rw [hA, hB]
                      push_cast
                      ring
                    have hChOther : ∀ qi qn, s.find qi = some qn → qn.isdir = true →
                        qi ≠ dirI → qi ≠ nodeI →
                        dirChildren s' qn = dirChildren s qn := by
                      intro qi qn hq hqd hq1 hq2
                      have h6 : s'.find qi = some qn := by
                        rw [hfind' qi, if_neg hq1, if_neg hq2]
                        exact hq
                      have hmemq : (qi, qn) ∈ s'.inodes := mem_of_lfind h6
                      rw [dirChildren, dirChildren]
                      exact List.countP_congr (fun x hx => by
                        rw [hIsDne x.node (no_edge_of_cnt_zero hzero' hmemq hqd hx)])
                    exact wf_detach_master hwf hfdir hdirdir hfn hrest hnedir hnode0 hfind'
                      hnodup' hnext hcnt hDD hChDir hChOther (Or.inl ⟨rfl, hc1⟩)

/-- Inversion of a successful `removeFirst`: the first match splits the list. -/
theorem removeFirst_some_inv {l : List Entry} {name : List Char} {i : Iid} {l2 : List Entry}
    (h : removeFirst l name = some (i, l2)) :
    ∃ pre e post, l = pre ++ e :: post ∧ (∀ x ∈ pre, x.name ≠ name) ∧ e.name = name ∧
      e.node = i ∧ l2 = pre ++ post := by
  induction l generalizing l2 with
  | nil => cases h
  | cons a t ih =>
    by_cases ha : a.name = name
    · rw [removeFirst, if_pos ha] at h
      injection h with h1
      injection h1 with h2 h3
      exact ⟨[], a, t, rfl, fun x hx => absurd hx (List.not_mem_nil x), ha, h2, h3.symm⟩
    · rw [removeFirst, if_neg ha] at h
      cases hrt : removeFirst t name with
      | none =>
        rw [hrt] at h
        cases h
      | some it =>
        obtain ⟨i0, t'⟩ := it
        rw [hrt] at h
        injection h with h1
        injection h1 with h2 h3
        subst h2
        rcases ih hrt with ⟨pre, e, post, hsplit, hpre, hname, hnode, hl2⟩
        refine ⟨a :: pre, e, post, by rw [List.cons_append, hsplit], ?_, hname, hnode, ?_⟩
        · intro x hx
          rcases List.mem_cons.mp hx with hx | hx
          · rw [hx]
            exact ha
          · exact hpre x hx
        · rw [← h3, hl2, List.cons_append]

/-- Common core of the `moveNode` preservation argument for a moved regular
file: the source and destination directories get new child sections (equal
when they are the same directory), all link counts, name-edge counts and the
directory bits of every inode are unchanged, and both new child sections obey
the naming, liveness and `..`-back-reference discipline. -/
theorem wf_move_master {s s' : State} (hwf : Wf s)
    {d1 d2 : Iid} {od nd2 : Inode} {rest1 rest2 : List Entry}
    (hf1 : s.find d1 = some od) (hd1 : od.isdir = true)
    (hf2 : s.find d2 = some nd2) (hd2 : nd2.isdir = true)
    (hfind' : ∀ j, s'.find j = if j = d2 then
        some { nd2 with entries := { name := dotName, node := d2 } ::
          { name := ddotName, node := ddotTarget nd2 } :: rest2 }
      else if j = d1 then
        some { od with entries := { name := dotName, node := d1 } ::
          { name := ddotName, node := ddotTarget od } :: rest1 }
      else s.find j)
    (hnodup' : (keysOf s'.inodes).Nodup)
    (hnext : s'.nextId = s.nextId)
    (hcnt : ∀ t, cnt s' t = cnt s t)
    (hIsD : ∀ j, isDirAt s' j = isDirAt s j)
    (hCh1 : dirChildren s' { od with entries := { name := dotName, node := d1 } ::
      { name := ddotName, node := ddotTarget od } :: rest1 } = dirChildren s od)
    (hCh2 : dirChildren s' { nd2 with entries := { name := dotName, node := d2 } ::
      { name := ddotName, node := ddotTarget nd2 } :: rest2 } = dirChildren s nd2)
    (hn1 : ∀ x ∈ rest1, x.name ≠ dotName ∧ x.name ≠ ddotName)
    (hn2 : ∀ x ∈ rest2, x.name ≠ dotName ∧ x.name ≠ ddotName)
    (hl1 : ∀ x ∈ rest1, (s.find x.node).isSome = true)
    (hl2 : ∀ x ∈ rest2, (s.find x.node).isSome = true)
    (ht1 : ∀ x ∈ rest1, ∀ cn, s.find x.node = some cn → cn.isdir = true →
      x.node ≠ 0 ∧ ddotTarget cn = d1)
    (ht2 : ∀ x ∈ rest2, ∀ cn, s.find x.node = some cn → cn.isdir = true →
      x.node ≠ 0 ∧ ddotTarget cn = d2) :
    Wf s' := by
  set R1 : Inode := { od with entries := { name := dotName, node := d1 } ::
    { name := ddotName, node := ddotTarget od } :: rest1 } with hR1
  set R2 : Inode := { nd2 with entries := { name := dotName, node := d2 } ::
    { name := ddotName, node := ddotTarget nd2 } :: rest2 } with hR2
  have hLive : ∀ j, (s.find j).isSome = true → (s'.find j).isSome = true := by
    intro j hj
    rw [hfind' j]
    by_cases hj2 : j = d2
    · rw [if_pos hj2]
      rfl
    · rw [if_neg hj2]
      by_cases hj1 : j = d1
      · rw [if_pos hj1]
        rfl
      · rw [if_neg hj1]
        exact hj
  have hChAll : ∀ qi qn, s.find qi = some qn → qn.isdir = true → qi ≠ d2 → qi ≠ d1 →
      dirChildren s' qn = dirChildren s qn := by
    intro qi qn hq hqd h2 h1
    rw [dirChildren, dirChildren]
    exact List.countP_congr (fun x hx => by rw [hIsD x.node])
  constructor
  · exact hnodup'
  · rintro ⟨qi, qn⟩ hq
    rw [hnext]
    have hqf : s'.find qi = some qn := lfind_eq_some_of_mem hnodup' hq
    rw [hfind' qi] at hqf
    by_cases hj2 : qi = d2
    · subst hj2
      exact hwf.bound (qi, nd2) (mem_of_lfind hf2)
    · rw [if_neg hj2] at hqf
      by_cases hj1 : qi = d1
      · subst hj1
        exact hwf.bound (qi, od) (mem_of_lfind hf1)
      · rw [if_neg hj1] at hqf
        exact hwf.bound (qi, qn) (mem_of_lfind hqf)
  · show (s'.find 0).any Inode.isdir = true
    rw [hfind' 0]
    by_cases hj2 : (0 : Iid) = d2
    · rw [if_pos hj2]
      simp only [Option.any_some]
      exact hd2
    · rw [if_neg hj2]
      by_cases hj1 : (0 : Iid) = d1
      · rw [if_pos hj1]
        simp only [Option.any_some]
        exact hd1
      · rw [if_neg hj1]
        exact hwf.rootLive
  · rintro ⟨qi, qn⟩ hq hqdir
    have hqf : s'.find qi = some qn := lfind_eq_some_of_mem hnodup' hq
    rw [hfind' qi] at hqf
    by_cases hj2 : qi = d2
    · rw [if_pos hj2] at hqf
      cases hqf
      subst hj2
      rfl
    · rw [if_neg hj2] at hqf
      by_cases hj1 : qi = d1
      · rw [if_pos hj1] at hqf
        cases hqf
        subst hj1
        rfl
      · rw [if_neg hj1] at hqf
        exact hwf.dirShape (qi, qn) (mem_of_lfind hqf) hqdir
  · rintro ⟨qi, qn⟩ hq hqdir
    have hqf : s'.find qi = some qn := lfind_eq_some_of_mem hnodup' hq
    rw [hfind' qi] at hqf
    show isDirAt s' (ddotTarget qn) = true
    rw [hIsD]
    by_cases hj2 : qi = d2
    · rw [if_pos hj2] at hqf
      cases hqf
      rw [show ddotTarget R2 = ddotTarget nd2 from rfl]
      exact hwf.ddotLive (d2, nd2) (mem_of_lfind hf2) hd2
    · rw [if_neg hj2] at hqf
      by_cases hj1 : qi = d1
      · rw [if_pos hj1] at hqf
        cases hqf
        rw [show ddotTarget R1 = ddotTarget od from rfl]
        exact hwf.ddotLive (d1, od) (mem_of_lfind hf1) hd1
      · rw [if_neg hj1] at hqf
        exact hwf.ddotLive (qi, qn) (mem_of_lfind hqf) hqdir
  · rintro ⟨qi, qn⟩ hq hq0
    have hq0' : qi = 0 := hq0
    have hqf : s'.find qi = some qn := lfind_eq_some_of_mem hnodup' hq
    rw [hfind' qi, hq0'] at hqf
    by_cases hj2 : (0 : Iid) = d2
    · rw [if_pos hj2] at hqf
      cases hqf
      show ddotTarget R2 = 0
      rw [show ddotTarget R2 = ddotTarget nd2 from rfl]
      exact hwf.rootDdot (d2, nd2) (mem_of_lfind hf2) hj2.symm
    · rw [if_neg hj2] at hqf
      by_cases hj1 : (0 : Iid) = d1
      · rw [if_pos hj1] at hqf
        cases hqf
        show ddotTarget R1 = 0
        rw [show ddotTarget R1 = ddotTarget od from rfl]
        exact hwf.rootDdot (d1, od) (mem_of_lfind hf1) hj1.symm
      · rw [if_neg hj1] at hqf
        exact hwf.rootDdot (qi, qn) (mem_of_lfind (hq0' ▸ hqf)) hq0'
  · rintro ⟨qi, qn⟩ hq hqdir x hx
    have hqf : s'.find qi = some qn := lfind_eq_some_of_mem hnodup' hq
    rw [hfind' qi] at hqf
    by_cases hj2 : qi = d2
    · rw [if_pos hj2] at hqf
      cases hqf
      exact hn2 x (show x ∈ rest2 from hx)
    · rw [if_neg hj2] at hqf
      by_cases hj1 : qi = d1
      · rw [if_pos hj1] at hqf
        cases hqf
        exact hn1 x (show x ∈ rest1 from hx)
      · rw [if_neg hj1] at hqf
        exact hwf.restName (qi, qn) (mem_of_lfind hqf) hqdir x hx
  · rintro ⟨qi, qn⟩ hq hqdir x hx
    have hqf : s'.find qi = some qn := lfind_eq_some_of_mem hnodup' hq
    rw [hfind' qi] at hqf
    by_cases hj2 : qi = d2
    · rw [if_pos hj2] at hqf
      cases hqf
      exact hLive _ (hl2 x (show x ∈ rest2 from hx))
    · rw [if_neg hj2] at hqf
      by_cases hj1 : qi = d1
      · rw [if_pos hj1] at hqf
        cases hqf
        exact hLive _ (hl1 x (show x ∈ rest1 from hx))
      · rw [if_neg hj1] at hqf
        exact hLive _ (hwf.restLive (qi, qn) (mem_of_lfind hqf) hqdir x hx)
  · rintro ⟨qi, qn⟩ hq hqdir x hx cn hcn hcndir
    have hqf : s'.find qi = some qn := lfind_eq_some_of_mem hnodup' hq
    rw [hfind' qi] at hqf
    rw [hfind' x.node] at hcn
    have hback : ∀ dd : Iid, (∀ cn2, s.find x.node = some cn2 → cn2.isdir = true →
        x.node ≠ 0 ∧ ddotTarget cn2 = dd) →
        x.node ≠ 0 ∧ (if x.node = d2 then ddotTarget nd2 else if x.node = d1 then
          ddotTarget od else ddotTarget cn) = dd := by
      intro dd hbase
      by_cases hx2 : x.node = d2
      · rw [if_pos hx2]
        have := hbase nd2 (hx2 ▸ hf2) hd2
        exact ⟨this.1, this.2⟩
      · rw [if_neg hx2]
        by_cases hx1 : x.node = d1
        · rw [if_pos hx1]
          have := hbase od (hx1 ▸ hf1) hd1
          exact ⟨this.1, this.2⟩
        · rw [if_neg hx1]
          rw [if_neg hx2, if_neg hx1] at hcn
          by_cases hcd : cn.isdir = true
          · exact hbase cn hcn hcd
          · exact absurd hcndir hcd
    have hcnval : (if x.node = d2 then ddotTarget nd2 else if x.node = d1 then
        ddotTarget od else ddotTarget cn) = ddotTarget cn := by
      by_cases hx2 : x.node = d2
      · rw [if_pos hx2]
        rw [if_pos hx2] at hcn
        cases hcn
        rfl
      · rw [if_neg hx2]
        rw [if_neg hx2] at hcn
        by_cases hx1 : x.node = d1
        · rw [if_pos hx1]
          rw [if_pos hx1] at hcn
          cases hcn
          rfl
        · rw [if_neg hx1]
    by_cases hj2 : qi = d2
    · rw [if_pos hj2] at hqf
      cases hqf
      have := hback d2 (fun cn2 h2 h3 => ht2 x (show x ∈ rest2 from hx) cn2 h2 h3)
      rw [hcnval] at this
      exact ⟨this.1, hj2 ▸ this.2⟩
    · rw [if_neg hj2] at hqf
      by_cases hj1 : qi = d1
      · rw [if_pos hj1] at hqf
        cases hqf
        have := hback d1 (fun cn2 h2 h3 => ht1 x (show x ∈ rest1 from hx) cn2 h2 h3)
        rw [hcnval] at this
        exact ⟨this.1, hj1 ▸ this.2⟩
      · rw [if_neg hj1] at hqf
        have := hback qi (fun cn2 h2 h3 =>
          hwf.dirTgt (qi, qn) (mem_of_lfind hqf) hqdir x hx cn2 h2 h3)
        rw [hcnval] at this
        exact this
  · rintro ⟨qi, qn⟩ hq hqdir hq0
    have hq0' : qi ≠ 0 := hq0
    have hqf : s'.find qi = some qn := lfind_eq_some_of_mem hnodup' hq
    rw [hfind' qi] at hqf
    show cnt s' qi = 1
    rw [hcnt qi]
    by_cases hj2 : qi = d2
    · rw [if_pos hj2] at hqf
      cases hqf
      exact hwf.dirCnt (qi, nd2) (mem_of_lfind (hj2 ▸ hf2)) hd2 hq0'
    · rw [if_neg hj2] at hqf
      by_cases hj1 : qi = d1
      · rw [if_pos hj1] at hqf
        cases hqf
        exact hwf.dirCnt (qi, od) (mem_of_lfind (hj1 ▸ hf1)) hd1 hq0'
      · rw [if_neg hj1] at hqf
        exact hwf.dirCnt (qi, qn) (mem_of_lfind hqf) hqdir hq0'
  · rw [show cnt s' 0 = cnt s 0 from hcnt 0]
    exact hwf.rootCnt
  · rintro ⟨qi, qn⟩ hq hqdir
    have hqf : s'.find qi = some qn := lfind_eq_some_of_mem hnodup' hq
    rw [hfind' qi] at hqf
    by_cases hj2 : qi = d2
    · rw [if_pos hj2] at hqf
      cases hqf
      show R2.nlink = (if qi = 0 then 3 else 2) + (dirChildren s' R2 : Int)
      rw [hCh2, show R2.nlink = nd2.nlink from rfl, hj2]
      exact hwf.dirNlink (d2, nd2) (mem_of_lfind hf2) hd2
    · rw [if_neg hj2] at hqf
      by_cases hj1 : qi = d1
      · rw [if_pos hj1] at hqf
        cases hqf
        show R1.nlink = (if qi = 0 then 3 else 2) + (dirChildren s' R1 : Int)
        rw [hCh1, show R1.nlink = od.nlink from rfl, hj1]
        exact hwf.dirNlink (d1, od) (mem_of_lfind hf1) hd1
      · rw [if_neg hj1] at hqf
        rw [hChAll qi qn hqf hqdir hj2 hj1]
        exact hwf.dirNlink (qi, qn) (mem_of_lfind hqf) hqdir
  · rintro ⟨qi, qn⟩ hq hqfile
    have hqf : s'.find qi = some qn := lfind_eq_some_of_mem hnodup' hq
    rw [hfind' qi] at hqf
    show qn.nlink = (cnt s' qi : Int)
    rw [hcnt qi]
    by_cases hj2 : qi = d2
    · rw [if_pos hj2] at hqf
      cases hqf
      rw [show R2.isdir = nd2.isdir from rfl, hd2] at hqfile
      cases hqfile
    · rw [if_neg hj2] at hqf
      by_cases hj1 : qi = d1
      · rw [if_pos hj1] at hqf
        cases hqf
        rw [show R1.isdir = od.isdir from rfl, hd1] at hqfile
        cases hqfile
      · rw [if_neg hj1] at hqf
        exact hwf.fileNlink (qi, qn) (mem_of_lfind hqf) hqfile
  · rintro ⟨qi, qn⟩ hq
    have hqf : s'.find qi = some qn := lfind_eq_some_of_mem hnodup' hq
    rw [hfind' qi] at hqf
    by_cases hj2 : qi = d2
    · rw [if_pos hj2] at hqf
      cases hqf
      show nd2.nopen = 0
      exact hwf.nopenZero (d2, nd2) (mem_of_lfind hf2)
    · rw [if_neg hj2] at hqf
      by_cases hj1 : qi = d1
      · rw [if_pos hj1] at hqf
        cases hqf
        show od.nopen = 0
        exact hwf.nopenZero (d1, od) (mem_of_lfind hf1)
      · rw [if_neg hj1] at hqf
        exact hwf.nopenZero (qi, qn) (mem_of_lfind hqf)

/-- A validated rename names no `'.'` byte anywhere in either path. -/
theorem rename_no_dots {pth npth : List Char} (h : isValidRename pth npth = true) :
    ('.' : Char) ∉ pth ∧ ('.' : Char) ∉ npth := by
  constructor
  · intro hm
    have hc : (npth.contains '.' || pth.contains '.') = true := by
      rw [Bool.or_eq_true]
      exact Or.inr (List.elem_eq_true_of_mem hm)
    rw [isValidRename, hc] at h
    simp at h
  · intro hm
    have hc : (npth.contains '.' || pth.contains '.') = true := by
      rw [Bool.or_eq_true]
      exact Or.inl (List.elem_eq_true_of_mem hm)
    rw [isValidRename, hc] at h
    simp at h

/-- A basename cut out of a dot-free path is neither `"."` nor `".."`. -/
theorem drop_no_dot {pth bn : List Char} (hnd : ('.' : Char) ∉ pth) {k : Nat}
    (hbn : bn = pth.drop k) : bn ≠ dotName ∧ bn ≠ ddotName := by
  have hmem : ('.' : Char) ∉ bn := by
    rw [hbn]
    intro hm
    exact hnd (List.drop_subset k pth hm)
  constructor
  · intro he
    rw [he] at hmem
    exact hmem (List.mem_singleton.mpr rfl)
  · intro he
    rw [he] at hmem
    exact hmem (List.mem_cons_self _ _)

theorem wf_moveNode {s : State} (hwf : Wf s) {pth npth : List Char} {f : Iid} {fn : Inode}
    {s' : State} (hvr : isValidRename pth npth = true)
    (h : moveNode s true pth npth 0 = (.ok f, s'))
    (hff : s.find f = some fn) (hfile : fn.isdir = false) : Wf s' := by
  cases hgp1 : getParentDirectory s pth 0 with
  | err e =>
    simp only [moveNode, hgp1] at h
    exact Res.noConfusion (congrArg Prod.fst h)
  | ub =>
    simp only [moveNode, hgp1] at h
    exact Res.noConfusion (congrArg Prod.fst h)
  | ok df1 =>
    obtain ⟨d1, file1⟩ := df1
    cases hgp2 : getParentDirectory s npth 0 with
    | err e =>
      simp only [moveNode, hgp1, hgp2] at h
      exact Res.noConfusion (congrArg Prod.fst h)
    | ub =>
      simp only [moveNode, hgp1, hgp2] at h
      exact Res.noConfusion (congrArg Prod.fst h)
    | ok df2 =>
      obtain ⟨d2, file2⟩ := df2
      cases hfod : s.find d1 with
      | none =>
        simp only [moveNode, hgp1, hgp2, hfod] at h
        exact Res.noConfusion (congrArg Prod.fst h)
      | some od =>
        have hd1dir : od.isdir = true := by
          rcases getParentDirectory_ok_inv hgp1 with ⟨n1, odx, _, _, _, hfodx, hdx⟩
          rw [hfod] at hfodx
          injection hfodx with h4
          rw [h4]
          exact hdx
        rcases getParentDirectory_ok_inv hgp2 with ⟨n2, ond2, hlsi2, hbn2, _, hfd2s, hd2dir⟩
        have hdots := rename_no_dots hvr
        have hf1d : file1 ≠ dotName ∧ file1 ≠ ddotName := by
          rcases getParentDirectory_ok_inv hgp1 with ⟨n1, odx, _, hbn, _, _, _⟩
          exact drop_no_dot hdots.1 hbn
        have hf2d : file2 ≠ dotName ∧ file2 ≠ ddotName :=
          drop_no_dot hdots.2 hbn2
        have hshape1 : od.entries = { name := dotName, node := d1 } ::
            { name := ddotName, node := ddotTarget od } :: dirRest od :=
          hwf.dirShape (d1, od) (mem_of_lfind hfod) hd1dir
        have hshape2 : ond2.entries = { name := dotName, node := d2 } ::
            { name := ddotName, node := ddotTarget ond2 } :: dirRest ond2 :=
          hwf.dirShape (d2, ond2) (mem_of_lfind hfd2s) hd2dir
        cases hre : removeEntry od.entries file1 with
        | mk r l' =>
          cases r with
          | err e =>
            simp only [moveNode, hgp1, hgp2, hfod, hre] at h
            exact Res.noConfusion (congrArg Prod.fst h)
          | ub =>
            simp only [moveNode, hgp1, hgp2, hfod, hre] at h
            exact Res.noConfusion (congrArg Prod.fst h)
          | ok nodeV =>
            have hre' := hre
            rw [hshape1] at hre'
            simp only [removeEntry] at hre'
            cases hrf : removeFirst ({ name := ddotName, node := ddotTarget od } ::
                dirRest od) file1 with
            | none =>
              rw [hrf] at hre'
              exact Res.noConfusion (congrArg Prod.fst hre')
            | some it =>
              obtain ⟨i0, t'⟩ := it
              rw [hrf] at hre'
              have hi0 : i0 = nodeV := congrArg (fun z => match Prod.fst z with
                | Res.ok v => v
                | _ => i0) hre'
              have hl' : l' = { name := dotName, node := d1 } :: t' :=
                (congrArg Prod.snd hre').symm
              subst hi0
              rcases removeFirst_some_inv hrf with
                ⟨pre, e, post, hsplit, hpre, hname, hnode, hl2'⟩
              cases pre with
              | nil =>
                rw [List.nil_append] at hsplit
                injection hsplit with h4 h5
                have h6 : ({ name := ddotName, node := ddotTarget od } : Entry).name =
                    e.name := congrArg Entry.name h4
                rw [hname] at h6
                exact absurd h6 (fun hh => hf1d.2 hh.symm)
              | cons b preR =>
                rw [List.cons_append] at hsplit
                injection hsplit with h4 hsplit
                have hl2v : t' = { name := ddotName, node := ddotTarget od } ::
                    (preR ++ post) := by
                  rw [hl2', ← h4, List.cons_append]
                simp only [moveNode, hgp1, hgp2, hfod, hre] at h
                cases hfnd2 : (s.set d1 { isdir := od.isdir, nlink := od.nlink, nopen := od.nopen, entries := l', parent := od.parent, traversing := od.traversing }).find d2 with
                | none =>
                  rw [hfnd2] at h
                  exact Res.noConfusion (congrArg Prod.fst h)
                | some nnd =>
                  simp only [hfnd2] at h
                  cases haeq : addEntry true nnd.entries file2 i0 with
                  | ub =>
                    rw [haeq] at h
                    exact Res.noConfusion (congrArg Prod.fst h)
                  | err e2 =>
                    rw [haeq] at h
                    exact Res.noConfusion (congrArg Prod.fst h)
                  | ok l2 =>
                    simp only [haeq] at h
                    have hif : i0 = f := by
                      have h7 := congrArg Prod.fst h
                      injection h7
                    have hs' : s' = (s.set d1 { isdir := od.isdir, nlink := od.nlink, nopen := od.nopen, entries := l', parent := od.parent, traversing := od.traversing }).set d2 { isdir := nnd.isdir, nlink := nnd.nlink, nopen := nnd.nopen, entries := l2, parent := nnd.parent, traversing := nnd.traversing } :=
                      (congrArg Prod.snd h).symm
                    have hffi : s.find i0 = some fn := by
                      rw [hif]
                      exact hff
                    have hl'v : l' = { name := dotName, node := d1 } ::
                        { name := ddotName, node := ddotTarget od } :: (preR ++ post) := by
                      rw [hl', hl2v]
                    have hl2v2 : l2 = nnd.entries ++ [{ name := file2, node := i0 }] := by
                      cases hce : nnd.entries with
                      | nil =>
                        rw [hce] at haeq
                        exact Res.noConfusion haeq
                      | cons c t0 =>
                        rw [hce] at haeq
                        simp only [addEntry, Bool.not_true, Bool.false_eq_true,
                          if_false] at haeq
                        injection haeq with h7
                        rw [← h7]
                    have henf : s.find e.node = some fn := by
                      rw [hnode]
                      exact hffi
                    have hend : ∀ {j : Iid} {dj : Inode}, s.find j = some dj →
                        dj.isdir = true → e.node ≠ j := by
                      intro j dj hj hdj he2
                      have h8 := henf
                      rw [he2, hj] at h8
                      injection h8 with h7
                      have h9 := hfile
                      rw [← h7, hdj] at h9
                      exact Bool.noConfusion h9
                    have hen0 : e.node ≠ 0 := by
                      intro he2
                      have h8 := hwf.rootLive
                      rw [← he2, henf] at h8
                      simp only [Option.any_some] at h8
                      rw [hfile] at h8
                      cases h8
                    have hend1 : e.node ≠ d1 := hend hfod hd1dir
                    have hend2 : e.node ≠ d2 := hend hfd2s hd2dir
                    have hisDe : isDirAt s e.node = false := by
                      rw [isDirAt, henf]
                      simp [hfile]
                    have hsubOD : ∀ x, x ∈ preR ++ post → x ∈ dirRest od := by
                      intro x hx
                      rw [hsplit]
                      rcases List.mem_append.mp hx with h7 | h7
                      · exact List.mem_append.mpr (Or.inl h7)
                      · exact List.mem_append.mpr (Or.inr (List.mem_cons_of_mem _ h7))
                    have hXrest : dirRest { isdir := od.isdir, nlink := od.nlink, nopen := od.nopen, entries := l', parent := od.parent, traversing := od.traversing } = preR ++ post := by
                      rw [dirRest, show ({ isdir := od.isdir, nlink := od.nlink, nopen := od.nopen, entries := l', parent := od.parent, traversing := od.traversing } : Inode).entries = l' from rfl, hl'v]
                      rfl
                    have hXdir : ({ isdir := od.isdir, nlink := od.nlink, nopen := od.nopen, entries := l', parent := od.parent, traversing := od.traversing } : Inode).isdir = true := hd1dir
                    by_cases hsame : d2 = d1
                    · rw [hsame] at hfnd2 hs'
                      have hnnd : nnd = { isdir := od.isdir, nlink := od.nlink, nopen := od.nopen, entries := l', parent := od.parent, traversing := od.traversing } := by
                        rw [find_set_self hfod] at hfnd2
                        injection hfnd2 with h7
                        exact h7.symm
                      have hnndir : nnd.isdir = true := by
                        rw [hnnd]
                        exact hXdir
                      have hnne : nnd.entries = l' := by
                        rw [hnnd]
                      have hl2A : l2 = { name := dotName, node := d1 } ::
                          { name := ddotName, node := ddotTarget od } ::
                          ((preR ++ post) ++ [{ name := file2, node := i0 }]) := by
                        rw [hl2v2, hnne, hl'v]
                        rfl
                      have hfind' : ∀ j, s'.find j = if j = d1 then
                          some { od with entries := { name := dotName, node := d1 } ::
                            { name := ddotName, node := ddotTarget od } ::
                            ((preR ++ post) ++ [{ name := file2, node := i0 }]) }
                        else if j = d1 then
                          some { od with entries := { name := dotName, node := d1 } ::
                            { name := ddotName, node := ddotTarget od } ::
                            ((preR ++ post) ++ [{ name := file2, node := i0 }]) }
                        else s.find j := by
                        intro j
                        by_cases hj : j = d1
                        · subst hj
                          rw [if_pos rfl, hs', hl2A, hnnd]
                          exact find_set_self (find_set_self hfod)
                        · rw [if_neg hj, if_neg hj, hs', find_set_ne _ hj, find_set_ne _ hj]
                      have hnodup' : (keysOf s'.inodes).Nodup := by
                        rw [hs']
                        show (keysOf (setf (setf s.inodes d1 { isdir := od.isdir, nlink := od.nlink, nopen := od.nopen, entries := l', parent := od.parent, traversing := od.traversing }) d1 _)).Nodup
                        rw [keysOf_setf, keysOf_setf]
                        exact hwf.nodup
                      have hnext : s'.nextId = s.nextId := by
                        rw [hs']
                        rfl
                      have hcnt : ∀ t, cnt s' t = cnt s t := by
                        intro t
                        have hnods1 : (keysOf (s.set d1 { isdir := od.isdir, nlink := od.nlink, nopen := od.nopen, entries := l', parent := od.parent, traversing := od.traversing }).inodes).Nodup := by
                          show (keysOf (setf s.inodes d1 { isdir := od.isdir, nlink := od.nlink, nopen := od.nopen, entries := l', parent := od.parent, traversing := od.traversing })).Nodup
                          rw [keysOf_setf]
                          exact hwf.nodup
                        have hc1 : cnt (s.set d1 { isdir := od.isdir, nlink := od.nlink, nopen := od.nopen, entries := l', parent := od.parent, traversing := od.traversing }) t + contrib (d1, od) t =
                            cnt s t + contrib (d1, { isdir := od.isdir, nlink := od.nlink, nopen := od.nopen, entries := l', parent := od.parent, traversing := od.traversing }) t := cnt_set hwf.nodup hfod _ t
                        have hc2 : cnt s' t + contrib (d1, { isdir := od.isdir, nlink := od.nlink, nopen := od.nopen, entries := l', parent := od.parent, traversing := od.traversing }) t =
                            cnt (s.set d1 { isdir := od.isdir, nlink := od.nlink, nopen := od.nopen, entries := l', parent := od.parent, traversing := od.traversing }) t + contrib (d1, { isdir := nnd.isdir, nlink := nnd.nlink, nopen := nnd.nopen, entries := l2, parent := nnd.parent, traversing := nnd.traversing }) t := by
                          rw [hs']
                          exact cnt_set hnods1 (find_set_self hfod) _ t
                        have hNrest : dirRest { isdir := nnd.isdir, nlink := nnd.nlink, nopen := nnd.nopen, entries := l2, parent := nnd.parent, traversing := nnd.traversing } = (preR ++ post) ++ [{ name := file2, node := i0 }] := by
                          rw [dirRest, show ({ isdir := nnd.isdir, nlink := nnd.nlink, nopen := nnd.nopen, entries := l2, parent := nnd.parent, traversing := nnd.traversing } : Inode).entries = l2 from rfl, hl2A]
                          rfl
                        have he1 : contrib (d1, od) t = contrib (d1, { isdir := od.isdir, nlink := od.nlink, nopen := od.nopen, entries := l', parent := od.parent, traversing := od.traversing }) t +
                            (if e.node == t then 1 else 0) := by
                          rw [contrib_dir hd1dir, contrib_dir hXdir, hXrest, hsplit,
                            countP_detach]
                        have he2 : contrib (d1, { isdir := nnd.isdir, nlink := nnd.nlink, nopen := nnd.nopen, entries := l2, parent := nnd.parent, traversing := nnd.traversing }) t = contrib (d1, { isdir := od.isdir, nlink := od.nlink, nopen := od.nopen, entries := l', parent := od.parent, traversing := od.traversing }) t +
                            (if i0 == t then 1 else 0) := by
                          rw [contrib_dir (show ({ isdir := nnd.isdir, nlink := nnd.nlink, nopen := nnd.nopen, entries := l2, parent := nnd.parent, traversing := nnd.traversing } : Inode).isdir = true from hnndir),
                            contrib_dir hXdir, hXrest, hNrest, List.countP_append]
                          congr 1
                          simp [List.countP_cons]
                        rw [hnode] at he1
                        omega
                      have hIsD : ∀ j, isDirAt s' j = isDirAt s j := by
                        intro j
                        rw [isDirAt, isDirAt, hfind' j]
                        by_cases hj : j = d1
                        · subst hj
                          rw [if_pos rfl, hfod]
                          rfl
                        · rw [if_neg hj, if_neg hj]
                      have hCh : dirChildren s' { od with entries := { name := dotName, node := d1 } ::
                            { name := ddotName, node := ddotTarget od } ::
                            ((preR ++ post) ++ [{ name := file2, node := i0 }]) } = dirChildren s od := by
                        have h7 : dirChildren s' { od with entries := { name := dotName, node := d1 } ::
                            { name := ddotName, node := ddotTarget od } ::
                            ((preR ++ post) ++ [{ name := file2, node := i0 }]) } =
                            List.countP (fun x => isDirAt s x.node)
                              ((preR ++ post) ++ [{ name := file2, node := i0 }]) := by
                          rw [dirChildren]
                          exact List.countP_congr (fun x _ => by rw [hIsD x.node])
                        rw [h7, List.countP_append, dirChildren, hsplit, countP_detach]
                        have hz1 : List.countP (fun x : Entry => isDirAt s x.node)
                            [{ name := file2, node := i0 }] = 0 := by
                          have hz2 : isDirAt s i0 = false := by
                            rw [isDirAt, hffi]
                            simp [hfile]
                          simp [List.countP_cons, hz2]
                        rw [hz1]
                        simp [hisDe]
                      have hn2A : ∀ x ∈ (preR ++ post) ++ [{ name := file2, node := i0 }],
                          x.name ≠ dotName ∧ x.name ≠ ddotName := by
                        intro x hx
                        rcases List.mem_append.mp hx with h7 | h7
                        · exact hwf.restName (d1, od) (mem_of_lfind hfod) hd1dir x
                            (hsubOD x h7)
                        · rw [List.mem_singleton] at h7
                          subst h7
                          exact ⟨hf2d.1, hf2d.2⟩
                      have hlA : ∀ x ∈ (preR ++ post) ++ [{ name := file2, node := i0 }],
                          (s.find x.node).isSome = true := by
                        intro x hx
                        rcases List.mem_append.mp hx with h7 | h7
                        · exact hwf.restLive (d1, od) (mem_of_lfind hfod) hd1dir x
                            (hsubOD x h7)
                        · rw [List.mem_singleton] at h7
                          subst h7
                          rw [show ({ name := file2, node := i0 } : Entry).node = i0 from rfl, hffi]
                          rfl
                      have htA : ∀ x ∈ (preR ++ post) ++ [{ name := file2, node := i0 }],
                          ∀ cn, s.find x.node = some cn → cn.isdir = true →
                          x.node ≠ 0 ∧ ddotTarget cn = d1 := by
                        intro x hx cn hcn hcndir
                        rcases List.mem_append.mp hx with h7 | h7
                        · exact hwf.dirTgt (d1, od) (mem_of_lfind hfod) hd1dir x
                            (hsubOD x h7) cn hcn hcndir
                        · rw [List.mem_singleton] at h7
                          subst h7
                          rw [show ({ name := file2, node := i0 } : Entry).node = i0 from rfl, hffi] at hcn
                          injection hcn with h8
                          rw [← h8, hfile] at hcndir
                          cases hcndir
                      exact wf_move_master hwf hfod hd1dir hfod hd1dir hfind' hnodup' hnext
                        hcnt hIsD hCh hCh hn2A hn2A hlA hlA htA htA
                    · have hfnd2B : (s.set d1 { isdir := od.isdir, nlink := od.nlink, nopen := od.nopen, entries := l', parent := od.parent, traversing := od.traversing }).find d2 = some ond2 := by
                        rw [find_set_ne _ hsame]
                        exact hfd2s
                      have hnnd : nnd = ond2 := by
                        rw [hfnd2B] at hfnd2
                        injection hfnd2 with h7
                        exact h7.symm
                      have hnndir : nnd.isdir = true := by
                        rw [hnnd]
                        exact hd2dir
                      have hnne : nnd.entries = ond2.entries := by
                        rw [hnnd]
                      have hl2B : l2 = { name := dotName, node := d2 } ::
                          { name := ddotName, node := ddotTarget ond2 } ::
                          (dirRest ond2 ++ [{ name := file2, node := i0 }]) := by
                        rw [hl2v2, hnne, hshape2]
                        rfl
                      have hfind' : ∀ j, s'.find j = if j = d2 then
                          some { ond2 with entries := { name := dotName, node := d2 } ::
                            { name := ddotName, node := ddotTarget ond2 } ::
                            (dirRest ond2 ++ [{ name := file2, node := i0 }]) }
                        else if j = d1 then
                          some { od with entries := { name := dotName, node := d1 } ::
                            { name := ddotName, node := ddotTarget od } :: (preR ++ post) }
                        else s.find j := by
                        intro j
                        by_cases hj2 : j = d2
                        · subst hj2
                          rw [if_pos rfl, hs', hl2B, hnnd]
                          exact find_set_self hfnd2B
                        · rw [if_neg hj2]
                          by_cases hj1 : j = d1
                          · subst hj1
                            rw [if_pos rfl, hs', find_set_ne _ hj2, hl'v]
                            exact find_set_self hfod
                          · rw [if_neg hj1, hs', find_set_ne _ hj2, find_set_ne _ hj1]
                      have hnodup' : (keysOf s'.inodes).Nodup := by
                        rw [hs']
                        show (keysOf (setf (setf s.inodes d1 { isdir := od.isdir, nlink := od.nlink, nopen := od.nopen, entries := l', parent := od.parent, traversing := od.traversing }) d2 _)).Nodup
                        rw [keysOf_setf, keysOf_setf]
                        exact hwf.nodup
                      have hnext : s'.nextId = s.nextId := by
                        rw [hs']
                        rfl
                      have hcnt : ∀ t, cnt s' t = cnt s t := by
                        intro t
                        have hnods1 : (keysOf (s.set d1 { isdir := od.isdir, nlink := od.nlink, nopen := od.nopen, entries := l', parent := od.parent, traversing := od.traversing }).inodes).Nodup := by
                          show (keysOf (setf s.inodes d1 { isdir := od.isdir, nlink := od.nlink, nopen := od.nopen, entries := l', parent := od.parent, traversing := od.traversing })).Nodup
                          rw [keysOf_setf]
                          exact hwf.nodup
                        have hc1 : cnt (s.set d1 { isdir := od.isdir, nlink := od.nlink, nopen := od.nopen, entries := l', parent := od.parent, traversing := od.traversing }) t + contrib (d1, od) t =
                            cnt s t + contrib (d1, { isdir := od.isdir, nlink := od.nlink, nopen := od.nopen, entries := l', parent := od.parent, traversing := od.traversing }) t := cnt_set hwf.nodup hfod _ t
                        have hc2 : cnt s' t + contrib (d2, ond2) t =
                            cnt (s.set d1 { isdir := od.isdir, nlink := od.nlink, nopen := od.nopen, entries := l', parent := od.parent, traversing := od.traversing }) t + contrib (d2, { isdir := nnd.isdir, nlink := nnd.nlink, nopen := nnd.nopen, entries := l2, parent := nnd.parent, traversing := nnd.traversing }) t := by
                          rw [hs']
                          exact cnt_set hnods1 hfnd2B _ t
                        have hNrest : dirRest { isdir := nnd.isdir, nlink := nnd.nlink, nopen := nnd.nopen, entries := l2, parent := nnd.parent, traversing := nnd.traversing } = dirRest ond2 ++ [{ name := file2, node := i0 }] := by
                          rw [dirRest, show ({ isdir := nnd.isdir, nlink := nnd.nlink, nopen := nnd.nopen, entries := l2, parent := nnd.parent, traversing := nnd.traversing } : Inode).entries = l2 from rfl, hl2B]
                          rfl
                        have he1 : contrib (d1, od) t = contrib (d1, { isdir := od.isdir, nlink := od.nlink, nopen := od.nopen, entries := l', parent := od.parent, traversing := od.traversing }) t +
                            (if e.node == t then 1 else 0) := by
                          rw [contrib_dir hd1dir, contrib_dir hXdir, hXrest, hsplit,
                            countP_detach]
                        have he2 : contrib (d2, { isdir := nnd.isdir, nlink := nnd.nlink, nopen := nnd.nopen, entries := l2, parent := nnd.parent, traversing := nnd.traversing }) t = contrib (d2, ond2) t +
                            (if i0 == t then 1 else 0) := by
                          rw [contrib_dir (show ({ isdir := nnd.isdir, nlink := nnd.nlink, nopen := nnd.nopen, entries := l2, parent := nnd.parent, traversing := nnd.traversing } : Inode).isdir = true from hnndir),
                            contrib_dir hd2dir, hNrest, List.countP_append]
                          congr 1
                          simp [List.countP_cons]
                        rw [hnode] at he1
                        omega
                      have hIsD : ∀ j, isDirAt s' j = isDirAt s j := by
                        intro j
                        rw [isDirAt, isDirAt, hfind' j]
                        by_cases hj2 : j = d2
                        · subst hj2
                          rw [if_pos rfl, hfd2s]
                          rfl
                        · rw [if_neg hj2]
                          by_cases hj1 : j = d1
                          · subst hj1
                            rw [if_pos rfl, hfod]
                            rfl
                          · rw [if_neg hj1]
                      have hCh1 : dirChildren s' { od with entries := { name := dotName, node := d1 } ::
                            { name := ddotName, node := ddotTarget od } :: (preR ++ post) } = dirChildren s od := by
                        have h7 : dirChildren s' { od with entries := { name := dotName, node := d1 } ::
                            { name := ddotName, node := ddotTarget od } :: (preR ++ post) } =
                            List.countP (fun x : Entry => isDirAt s x.node)
                              (preR ++ post) := by
                          rw [dirChildren]
                          exact List.countP_congr (fun x _ => by rw [hIsD x.node])
                        rw [h7, dirChildren, hsplit, countP_detach]
                        simp [hisDe]
                      have hCh2 : dirChildren s' { ond2 with entries := { name := dotName, node := d2 } ::
                            { name := ddotName, node := ddotTarget ond2 } ::
                            (dirRest ond2 ++ [{ name := file2, node := i0 }]) } = dirChildren s ond2 := by
                        have h7 : dirChildren s' { ond2 with entries := { name := dotName, node := d2 } ::
                            { name := ddotName, node := ddotTarget ond2 } ::
                            (dirRest ond2 ++ [{ name := file2, node := i0 }]) } =
                            List.countP (fun x : Entry => isDirAt s x.node)
                              (dirRest ond2 ++ [{ name := file2, node := i0 }]) := by
                          rw [dirChildren]
                          exact List.countP_congr (fun x _ => by rw [hIsD x.node])
                        rw [h7, List.countP_append, dirChildren]
                        have hz1 : List.countP (fun x : Entry => isDirAt s x.node)
                            [{ name := file2, node := i0 }] = 0 := by
                          have hz2 : isDirAt s i0 = false := by
                            rw [isDirAt, hffi]
                            simp [hfile]
                          simp [List.countP_cons, hz2]
                        rw [hz1]
                        omega
                      have hn1B : ∀ x ∈ preR ++ post,
                          x.name ≠ dotName ∧ x.name ≠ ddotName :=
                        fun x hx => hwf.restName (d1, od) (mem_of_lfind hfod) hd1dir x
                          (hsubOD x hx)
                      have hl1B : ∀ x ∈ preR ++ post, (s.find x.node).isSome = true :=
                        fun x hx => hwf.restLive (d1, od) (mem_of_lfind hfod) hd1dir x
                          (hsubOD x hx)
                      have ht1B : ∀ x ∈ preR ++ post, ∀ cn, s.find x.node = some cn →
                          cn.isdir = true → x.node ≠ 0 ∧ ddotTarget cn = d1 :=
                        fun x hx cn hcn hcndir =>
                          hwf.dirTgt (d1, od) (mem_of_lfind hfod) hd1dir x (hsubOD x hx)
                            cn hcn hcndir
                      have hn2B : ∀ x ∈ dirRest ond2 ++ [{ name := file2, node := i0 }],
                          x.name ≠ dotName ∧ x.name ≠ ddotName := by
                        intro x hx
                        rcases List.mem_append.mp hx with h7 | h7
                        · exact hwf.restName (d2, ond2) (mem_of_lfind hfd2s) hd2dir x h7
                        · rw [List.mem_singleton] at h7
                          subst h7
                          exact ⟨hf2d.1, hf2d.2⟩
                      have hl2B2 : ∀ x ∈ dirRest ond2 ++ [{ name := file2, node := i0 }],
                          (s.find x.node).isSome = true := by
                        intro x hx
                        rcases List.mem_append.mp hx with h7 | h7
                        · exact hwf.restLive (d2, ond2) (mem_of_lfind hfd2s) hd2dir x h7
                        · rw [List.mem_singleton] at h7
                          subst h7
                          rw [show ({ name := file2, node := i0 } : Entry).node = i0 from rfl, hffi]
                          rfl
                      have ht2B : ∀ x ∈ dirRest ond2 ++ [{ name := file2, node := i0 }],
                          ∀ cn, s.find x.node = some cn → cn.isdir = true →
                          x.node ≠ 0 ∧ ddotTarget cn = d2 := by
                        intro x hx cn hcn hcndir
                        rcases List.mem_append.mp hx with h7 | h7
                        · exact hwf.dirTgt (d2, ond2) (mem_of_lfind hfd2s) hd2dir x h7
                            cn hcn hcndir
                        · rw [List.mem_singleton] at h7
                          subst h7
                          rw [show ({ name := file2, node := i0 } : Entry).node = i0 from rfl, hffi] at hcn
                          injection hcn with h8
                          rw [← h8, hfile] at hcndir
                          cases hcndir
                      exact wf_move_master hwf hfod hd1dir hfd2s hd2dir hfind' hnodup' hnext
                        hcnt hIsD hCh1 hCh2 hn1B hn2B hl1B hl2B2 ht1B ht2B

/-- Every heap reachable by the modelled successful operations satisfies the
invariant. -/
theorem reach_wf {s : State} (h : Reach s) : Wf s := by
  induction h with
  | fresh => exact wf_fresh
  | mknod s s2 p f _ heq ih => exact wf_mknod ih heq
  | mkdir s s2 p d _ heq ih => exact wf_mkdir ih heq
  | link s s2 p q f _ heq ih => exact wf_link ih heq
  | release s s2 p _ heq ih => exact wf_releaseNode ih heq
  | move s s2 p q f fn _ hvr heq hfind hfile ih => exact wf_moveNode ih hvr heq hfind hfile

/-- **C9** (corrected).  For every sequence of successful operations from a
fresh filesystem in which every moved inode is a regular file, every live
directory's link count equals 2 plus the number of child subdirectories it
currently contains, except the root, whose link count equals 3 plus its
subdirectory count (its own `..` accounts for the extra link).  The original
claim, with 2 for every directory including the root, is refuted by
`c9_dir_nlink_cex`. -/
theorem c9_dir_nlink_amended (s : State) (h : Reach s) (i : Iid) (nd : Inode)
    (hm : (i, nd) ∈ s.inodes) (hdir : nd.isdir = true) :
    nd.nlink = (if i = 0 then 3 else 2) + (subdirCount s nd : Int) := by
  have hwf := reach_wf h
  have h1 : nd.nlink = (if i = 0 then 3 else 2) + (dirChildren s nd : Int) :=
    hwf.dirNlink (i, nd) hm hdir
  have hsh : nd.entries = { name := dotName, node := i } ::
      { name := ddotName, node := ddotTarget nd } :: dirRest nd :=
    hwf.dirShape (i, nd) hm hdir
  have hnm : ∀ x ∈ dirRest nd, x.name ≠ dotName ∧ x.name ≠ ddotName :=
    hwf.restName (i, nd) hm hdir
  rw [subdirCount_eq_dirChildren hsh hnm]
  exact h1

/-- Witness for `c9_dir_nlink_amended`: after `mkdir /a; mkdir /b` the root
(a reachable state, established by the `Reach` derivation) has link count 5 =
3 + its 2 subdirectories. -/
theorem c9_dir_nlink_amended_witness :
    ({
      isdir := true,
      nlink := 5,
      nopen := 0,
      entries := [{ name := dotName, node := 0 }, { name := ddotName, node := 0 },
        { name := ['a'], node := 1 }, { name := ['b'], node := 2 }],
      parent := some 0,
      traversing := false } : Inode).nlink =
      (if (0 : Iid) = 0 then 3 else 2) +
      (subdirCount stAB {
        isdir := true,
        nlink := 5,
        nopen := 0,
        entries := [{ name := dotName, node := 0 }, { name := ddotName, node := 0 },
          { name := ['a'], node := 1 }, { name := ['b'], node := 2 }],
        parent := some 0,
        traversing := false } : Int) :=
  c9_dir_nlink_amended stAB
    (Reach.mkdir stA stAB pathB 2
      (Reach.mkdir fs0 stA pathA 1 Reach.fresh (by decide)) (by decide))
    0 _ (by decide) (by decide)
